import Mathlib

/-! The IR → graph compiler of d2: a shallow embedding of `d2compiler/compile.go`.

* The compiler's mutable state is passed explicitly: the error accumulator
  `compiler` and the graph under construction travel through every function.
* Go pointers to objects and edges are indices into the graph's object store and
  edge list; pointer equality is index equality.
* Source positions (AST nodes, map keys, ranges) and the reference bookkeeping
  are not modelled: an error is its message text.
* A run that stops with a nil dereference has no result: the validation pass and
  the functions that call it return an `Option`, `none` for such a run.
* Packages that the compiler imports but that are not part of `compile.go`
  (`d2ast`, `d2ir`, `d2graph`, `d2target`, `d2parser`, `d2format`, `net/url`)
  are modelled from their use here; tables and parsers whose contents are
  unknown are collected in `Externals` and stay abstract.
-/

/-! ## Go standard library -/

namespace strings

/-- Go `strings.ToLower` on ASCII: the letters `A` to `Z` are lower-cased and every other
character is kept. Go also maps the letters outside ASCII by their Unicode lower case;
those are kept as they are here, so the model follows the source on ASCII names. -/
def ToLower (s : String) : String := ⟨s.data.map Char.toLower⟩

/-- Go `strings.Contains(s, "(")` for a one-character ASCII needle. -/
def ContainsChar (s : String) (c : Char) : Bool := s.data.contains c

/-- Go `strings.EqualFold` on ASCII: equality up to the case of the letters `A` to `Z`.
The Unicode case folding of characters outside ASCII is not modelled. -/
def EqualFold (s t : String) : Bool := ToLower s == ToLower t

/-- Go `strings.Join`. -/
def Join (xs : List String) (sep : String) : String := sep.intercalate xs

end strings

namespace strconv

/-- A hexadecimal digit, in lower case. -/
def hexDigit (n : Nat) : Char := if n < 10 then Char.ofNat (48 + n) else Char.ofNat (87 + n)

/-- The rendering of one character inside a quoted string: the double quote and the
backslash get a backslash, the control characters of ASCII their escape (`\a`, `\b`,
`\f`, `\n`, `\r`, `\t`, `\v`, or `\x` and two hexadecimal digits), and every other
character stands for itself (outside ASCII Go also escapes the characters that are not
printable, which is not modelled). -/
def quoteRune (ch : Char) : List Char :=
  let backslash := Char.ofNat 92
  if ch.toNat = 34 || ch.toNat = 92 then [backslash, ch]
  else if ch.toNat = 7 then [backslash, 'a']
  else if ch.toNat = 8 then [backslash, 'b']
  else if ch.toNat = 12 then [backslash, 'f']
  else if ch.toNat = 10 then [backslash, 'n']
  else if ch.toNat = 13 then [backslash, 'r']
  else if ch.toNat = 9 then [backslash, 't']
  else if ch.toNat = 11 then [backslash, 'v']
  else if ch.toNat < 32 || ch.toNat = 127 then
    [backslash, 'x', hexDigit (ch.toNat / 16), hexDigit (ch.toNat % 16)]
  else [ch]

/-- Go `%q` / `%#v` rendering of a string, `strconv.Quote`: the characters rendered by
`quoteRune`, between double quotes. -/
def Quote (s : String) : String :=
  String.mk (Char.ofNat 34 :: s.data.flatMap quoteRune ++ [Char.ofNat 34])

/-- Go `strconv.Atoi`: an optional sign followed by decimal digits, in the range of a
64-bit `int`; otherwise the error text. -/
def Atoi (s : String) : Except String Int :=
  let neg := s.data.head? == some '-'
  let body := match s.data with
    | '+' :: r => r
    | '-' :: r => r
    | r => r
  if body.isEmpty || !body.all Char.isDigit then
    .error ("strconv.Atoi: parsing " ++ Quote s ++ ": invalid syntax")
  else
    let n : Int := (body.foldl (fun a ch => 10 * a + (ch.toNat - 48)) 0 : Nat)
    let v : Int := if neg then -n else n
    if v < -9223372036854775808 || 9223372036854775807 < v then
      .error ("strconv.Atoi: parsing " ++ Quote s ++ ": value out of range")
    else .ok v

end strconv

/-! ## d2ast and d2ir: the input tree -/

namespace d2ast

/-- The scalar kinds of `d2ast.Scalar`. -/
inductive Scalar where
  | Null
  | Boolean (Value : Bool)
  | Number (Raw : String)
  | UnquotedString (Value : String)
  | DoubleQuotedString (Value : String)
  | SingleQuotedString (Value : String)
  | BlockString (Tag : String) (Value : String)
  deriving DecidableEq, Repr, Inhabited

/-- The method `ScalarString()`. -/
def Scalar.ScalarString : Scalar → String
  | .Null => ""
  | .Boolean b => if b then "true" else "false"
  | .Number raw => raw
  | .UnquotedString v => v
  | .DoubleQuotedString v => v
  | .SingleQuotedString v => v
  | .BlockString _ v => v

/-- The type assertion `scalar.(d2ast.String)`: the string kinds. -/
def Scalar.isString : Scalar → Bool
  | .UnquotedString _ => true
  | .DoubleQuotedString _ => true
  | .SingleQuotedString _ => true
  | .BlockString _ _ => true
  | _ => false

/-- A compile error `d2ast.Error`; only the message is modelled. -/
structure Error where
  Message : String
  deriving DecidableEq, Repr, Inhabited

end d2ast

namespace d2parser

/-- The error accumulator `d2parser.ParseError`. -/
structure ParseError where
  Errors : List d2ast.Error := []
  deriving DecidableEq, Repr, Inhabited

end d2parser

namespace d2ir

/-- The identifier of an IR edge: `d2ir.EdgeID`. -/
structure EdgeID where
  SrcPath : List String
  SrcArrow : Bool
  DstPath : List String
  DstArrow : Bool
  deriving DecidableEq, Repr, Inhabited

mutual
/-- An IR map `d2ir.Map`: fields in declaration order, then edges. -/
inductive Map where
  | mk (Fields : List Field) (Edges : List Edge)
/-- An IR field `d2ir.Field`: a name, an optional primary scalar, an optional composite. -/
inductive Field where
  | mk (Name : String) (Primary : Option d2ast.Scalar) (Composite : Option Composite)
/-- The composite of a field `d2ir.Composite`: a map or an array. -/
inductive Composite where
  | map (m : Map)
  | array
/-- An IR edge `d2ir.Edge`. -/
inductive Edge where
  | mk (ID : EdgeID) (Primary : Option d2ast.Scalar) (Map : Option Map)
end

def Map.Fields : Map → List Field
  | .mk fs _ => fs

def Map.Edges : Map → List Edge
  | .mk _ es => es

def Field.Name : Field → String
  | .mk n _ _ => n

def Field.Primary : Field → Option d2ast.Scalar
  | .mk _ p _ => p

def Field.Composite : Field → Option Composite
  | .mk _ _ c => c

/-- The method `Field.Map()`: the composite when it is a map, else nil. -/
def Field.Map : Field → Option Map
  | .mk _ _ (some (.map m)) => some m
  | .mk _ _ _ => none

def Edge.ID : Edge → EdgeID
  | .mk i _ _ => i

def Edge.Primary : Edge → Option d2ast.Scalar
  | .mk _ p _ => p

def Edge.Map : Edge → Option Map
  | .mk _ _ m => m

/-- Modelled from the spec: `d2ir.Map.GetField` for a one-element path, absent from the
source. Keyword names are matched case-insensitively; the first field of that name is
returned. -/
def Map.GetField (m : Map) (name : String) : Option Field :=
  m.Fields.find? (fun f => strings.EqualFold f.Name name)

/-- Modelled from the spec: `d2ir.Map.CopyRoot`, absent from the source. The map is copied
so that it becomes the root of a diagram; the copy has the same fields and edges. -/
def Map.CopyRoot (m : Map) : Map := m

end d2ir

/-! ## d2target: shape names and specialisation records -/

namespace d2target

def ShapeRectangle : String := "rectangle"
def ShapeSquare : String := "square"
def ShapeCircle : String := "circle"
def ShapeText : String := "text"
def ShapeCode : String := "code"
def ShapeClass : String := "class"
def ShapeSQLTable : String := "sql_table"
def ShapeImage : String := "image"

structure ClassField where
  Name : String
  Typ : String
  Visibility : String
  deriving DecidableEq, Repr, Inhabited

structure ClassMethod where
  Name : String
  Return : String
  Visibility : String
  deriving DecidableEq, Repr, Inhabited

structure Class where
  Fields : List ClassField := []
  Methods : List ClassMethod := []
  deriving DecidableEq, Repr, Inhabited

structure Text where
  Label : String := ""
  deriving DecidableEq, Repr, Inhabited

structure SQLColumn where
  Name : Text := {}
  Typ : Text := {}
  Constraint : String := ""
  deriving DecidableEq, Repr, Inhabited

structure SQLTable where
  Columns : List SQLColumn := []
  deriving DecidableEq, Repr, Inhabited

end d2target

/-! ## d2graph: the output graph -/

namespace d2graph

/-- A value with its source key: `d2graph.Scalar` (the key is not modelled). -/
structure Scalar where
  Value : String := ""
  deriving DecidableEq, Repr, Inhabited

/-- The style block `d2graph.Style`: every sub-slot is optional. -/
structure Style where
  Opacity : Option Scalar := none
  Stroke : Option Scalar := none
  Fill : Option Scalar := none
  StrokeWidth : Option Scalar := none
  StrokeDash : Option Scalar := none
  BorderRadius : Option Scalar := none
  Shadow : Option Scalar := none
  ThreeDee : Option Scalar := none
  Multiple : Option Scalar := none
  Font : Option Scalar := none
  FontSize : Option Scalar := none
  FontColor : Option Scalar := none
  Animated : Option Scalar := none
  Bold : Option Scalar := none
  Italic : Option Scalar := none
  Underline : Option Scalar := none
  Filled : Option Scalar := none
  deriving DecidableEq, Repr, Inhabited

/-- The attribute record `d2graph.Attributes` of an object, an edge or an arrowhead. -/
structure Attributes where
  Label : Scalar := {}
  Style : Style := {}
  Icon : Option String := none
  Tooltip : String := ""
  Link : String := ""
  Width : Option Scalar := none
  Height : Option Scalar := none
  NearKey : Option (List String) := none
  Language : String := ""
  Shape : Scalar := {}
  Direction : Scalar := {}
  Constraint : Scalar := {}
  deriving DecidableEq, Repr, Inhabited

/-- A node `d2graph.Object`. `Parent`, `Children` and `ChildrenArray` hold pointers,
that is indices into the store of the owning graph. -/
structure Object where
  ID : String := ""
  IDVal : String := ""
  AbsID : String := ""
  Parent : Option Nat := none
  Attributes : Attributes := {}
  Children : List (String × Nat) := []
  ChildrenArray : List Nat := []
  Class : Option d2target.Class := none
  SQLTable : Option d2target.SQLTable := none
  deriving DecidableEq, Repr, Inhabited

/-- A connection `d2graph.Edge`; `Src` and `Dst` are object pointers. -/
structure Edge where
  Src : Nat
  SrcArrow : Bool
  SrcArrowhead : Option Attributes := none
  Dst : Nat
  DstArrow : Bool
  DstArrowhead : Option Attributes := none
  Attributes : Attributes := {}
  deriving DecidableEq, Repr, Inhabited

/-- A diagram `d2graph.Graph`. `store` is the heap of its objects (a pointer is an index
into it, the root is pointer `Root`), `Objects` is the flat object list. -/
structure Graph where
  Name : String
  store : List Object
  Root : Nat
  Objects : List Nat
  Edges : List Edge
  Layers : List Graph
  Scenarios : List Graph
  Steps : List Graph
  deriving Inhabited

/-- Dereference an object pointer. -/
def Graph.obj (g : Graph) (p : Nat) : Object := g.store.getD p default

/-- Write through an object pointer. -/
def Graph.setObj (g : Graph) (p : Nat) (o : Object) : Graph :=
  { g with store := g.store.set p o }

/-- Write the attribute record of the object behind a pointer. -/
def Graph.setAttributes (g : Graph) (p : Nat) (a : Attributes) : Graph :=
  g.setObj p { g.obj p with Attributes := a }

/-- Dereference an edge pointer. -/
def Graph.edge (g : Graph) (i : Nat) : Edge := g.Edges.getD i default

/-- Write through an edge pointer. -/
def Graph.setEdge (g : Graph) (i : Nat) (e : Edge) : Graph :=
  { g with Edges := g.Edges.set i e }

/-- Modelled from the spec: all reserved keywords, the table `d2graph.ReservedKeywords`
absent from the source (the fixed-name fields of the glossary). -/
def ReservedKeywords : List String :=
  ["label", "shape", "style", "icon", "near", "width", "height", "link", "direction",
   "constraint", "tooltip", "source-arrowhead", "target-arrowhead"]

/-- Modelled from the spec: the simple reserved keyword set, the table
`d2graph.SimpleReservedKeywords` absent from the source (the names handled by the
reserved keyword dispatcher). -/
def SimpleReservedKeywords : List String :=
  ["label", "shape", "icon", "near", "tooltip", "width", "height", "link", "direction",
   "constraint"]

/-- Modelled from the spec: `d2graph.NewGraph`, absent from the source. A fresh graph
holds only its root, whose shape is the default "rectangle". -/
def NewGraph : Graph :=
  { Name := "", Root := 0, Objects := [], Edges := [], Layers := [], Scenarios := [], Steps := [],
    store := [{ Attributes := { Shape := { Value := d2target.ShapeRectangle } } }] }

/-- Allocate an object: it goes to the end of the store and of the flat object list. -/
def Graph.append (g : Graph) (o : Object) : Graph :=
  { g with store := g.store ++ [o], Objects := g.Objects ++ [g.store.length] }

/-- Modelled from the spec: the record of a new object, absent from the source: it is
labelled with its name and has the default shape "rectangle". -/
def Graph.newChild (g : Graph) (parent : Nat) (id : String) : Object :=
  { ID := id, IDVal := id,
    AbsID := if (g.obj parent).Parent.isNone && parent == g.Root then id
             else (g.obj parent).AbsID ++ "." ++ id,
    Parent := some parent,
    Attributes := { Label := { Value := id }, Shape := { Value := d2target.ShapeRectangle } } }

/-- Modelled from the spec: the object creation behind `EnsureChild`, absent from the
source. The new object is appended to the flat object list of the graph and to its
parent's child list and name lookup. The result is the graph and the new pointer. -/
def Graph.newObject (g : Graph) (parent : Nat) (id : String) : Graph × Nat :=
  ((g.append (g.newChild parent id)).setObj parent
      { g.obj parent with
        Children := (g.obj parent).Children ++ [(id, g.store.length)],
        ChildrenArray := (g.obj parent).ChildrenArray ++ [g.store.length] },
    g.store.length)

/-- The lookup `obj.Children[id]`. -/
def Object.child? (o : Object) (id : String) : Option Nat :=
  (o.Children.find? (fun kv => kv.1 == id)).map Prod.snd

/-- Modelled from the spec: `d2graph.Object.EnsureChild`, absent from the source:
find-or-create the child of each name along the path; user-chosen identifiers are
case-sensitive and unique among siblings. -/
def Graph.EnsureChild (g : Graph) (obj : Nat) : List String → Graph × Nat
  | [] => (g, obj)
  | id :: ids =>
    match (g.obj obj).child? id with
    | some ch => Graph.EnsureChild g ch ids
    | none => Graph.EnsureChild (g.newObject obj id).1 (g.newObject obj id).2 ids

/-- Modelled from the spec: `d2graph.Object.HasChild`, absent from the source: resolve a
path of names from an object, without creating anything. -/
def Graph.HasChild (g : Graph) (obj : Nat) : List String → Option Nat
  | [] => some obj
  | id :: ids =>
    match (g.obj obj).child? id with
    | some ch => Graph.HasChild g ch ids
    | none => none

/-- Modelled from the spec: `d2graph.Object.AbsID`, absent from the source: the absolute
dotted path from the graph root. -/
def Graph.AbsID (g : Graph) (obj : Nat) : String := (g.obj obj).AbsID

end d2graph

namespace d2graph

/-- Write a value into the style sub-slot of a key, when that slot is present. -/
def Style.setValue (s : Style) (key value : String) : Style :=
  let w : Option Scalar → Option Scalar := Option.map (fun sc => { sc with Value := value })
  match key with
  | "opacity" => { s with Opacity := w s.Opacity }
  | "stroke" => { s with Stroke := w s.Stroke }
  | "fill" => { s with Fill := w s.Fill }
  | "stroke-width" => { s with StrokeWidth := w s.StrokeWidth }
  | "stroke-dash" => { s with StrokeDash := w s.StrokeDash }
  | "border-radius" => { s with BorderRadius := w s.BorderRadius }
  | "shadow" => { s with Shadow := w s.Shadow }
  | "3d" => { s with ThreeDee := w s.ThreeDee }
  | "multiple" => { s with Multiple := w s.Multiple }
  | "font" => { s with Font := w s.Font }
  | "font-size" => { s with FontSize := w s.FontSize }
  | "font-color" => { s with FontColor := w s.FontColor }
  | "animated" => { s with Animated := w s.Animated }
  | "bold" => { s with Bold := w s.Bold }
  | "italic" => { s with Italic := w s.Italic }
  | "underline" => { s with Underline := w s.Underline }
  | "filled" => { s with Filled := w s.Filled }
  | _ => s

/-- Modelled from the spec: `d2graph.Style.Apply`, absent from the source. The value goes
through the per-property validator `check` (its result is the error text on rejection);
a rejected value leaves the style as it is, an accepted one is stored in the sub-slot. -/
def Style.Apply (check : String → String → Option String) (s : Style) (key value : String) :
    Except String Style :=
  match check key value with
  | some err => .error err
  | none => .ok (s.setValue key value)

/-- Modelled from the spec: `d2graph.Object.Connect`, absent from the source. Path
resolution that is structurally invalid (decided by `check`, whose result is the error
text) fails without touching the graph; otherwise both endpoints are found or created
exactly as field compilation would, and a new edge is appended to the edge list. The
result is the graph and the pointer to the new edge. -/
def Graph.Connect (check : List String → List String → Option String) (g : Graph) (obj : Nat)
    (srcID dstID : List String) (srcArrow dstArrow : Bool) (label : String) :
    Except String (Graph × Nat) :=
  match check srcID dstID with
  | some err => .error err
  | none =>
    let r1 := g.EnsureChild obj srcID
    let r2 := r1.1.EnsureChild obj dstID
    let edge : Edge :=
      { Src := r1.2, SrcArrow := srcArrow, Dst := r2.2, DstArrow := dstArrow,
        Attributes := { Label := { Value := label } } }
    .ok ({ r2.1 with Edges := r2.1.Edges ++ [edge] }, r2.1.Edges.length)

end d2graph

/-! ## d2compiler -/

namespace d2compiler

open d2ir (Map Field)
open d2graph (Attributes Graph Object SimpleReservedKeywords ReservedKeywords)

/-- The collaborators of the compiler whose contents are not part of the source. -/
structure Externals where
  /-- The predicate `d2target.IsShape`. -/
  IsShape : String → Bool
  /-- Membership in the table `d2target.Arrowheads`. -/
  Arrowheads : String → Bool
  /-- The list `d2graph.NearConstantsArray`; `d2graph.NearConstants` is its set. -/
  NearConstantsArray : List String
  /-- The function `url.Parse`: the URL or the error text. -/
  urlParse : String → Except String String
  /-- The function `d2parser.ParseKey`: the key path or the error text. -/
  ParseKey : String → Except String (List String)
  /-- The function `d2format.Format` on a key path. -/
  Format : List String → String
  /-- The per-property validator inside `d2graph.Style.Apply`. -/
  styleCheck : String → String → Option String
  /-- The structural check inside `d2graph.Object.Connect`. -/
  connectCheck : List String → List String → Option String

/-- The compiler state: `type compiler struct { err d2parser.ParseError }`. -/
structure compiler where
  err : d2parser.ParseError := {}
  deriving DecidableEq, Repr, Inhabited

/-- The method `errorf`: append one error to the accumulator. -/
def compiler.errorf (c : compiler) (msg : String) : compiler :=
  { c with err := { c.err with Errors := c.err.Errors ++ [⟨msg⟩] } }

/-- The table `ShortToFullLanguageAliases`. -/
def ShortToFullLanguageAliases : List (String × String) :=
  [("md", "markdown"), ("tex", "latex"), ("js", "javascript"), ("go", "golang"),
   ("py", "python"), ("rb", "ruby"), ("ts", "typescript")]

/-- The function `d2graphIDA`: every path element is rendered as a key; the rendering of
a single element is taken to be the element itself. -/
def d2graphIDA (irIDA : List String) : List String :=
  irIDA.foldl (fun ida el => ida ++ [el]) []

/-- The method `compileLabel`, on the primary value of the node. -/
def compileLabel (attrs : Attributes) (scalar : d2ast.Scalar) : Attributes :=
  match scalar with
  | .Null => { attrs with Label := { Value := scalar.ScalarString } }
  | .BlockString tag _ =>
    let attrs := { attrs with Language := tag }
    let attrs := match ShortToFullLanguageAliases.lookup tag with
      | some fullTag => { attrs with Language := fullTag }
      | none => attrs
    if attrs.Language == "markdown" || attrs.Language == "latex" then
      { attrs with Shape := { Value := d2target.ShapeText } }
    else
      { attrs with Shape := { Value := d2target.ShapeCode } }
  | _ => { attrs with Label := { Value := scalar.ScalarString } }

/-- The method `compileReserved`. -/
def compileReserved (ext : Externals) (c : compiler) (attrs : Attributes) (f : Field) :
    compiler × Attributes :=
  match f.Primary with
  | none =>
    if f.Composite.isSome then
      (c.errorf ("reserved field " ++ f.Name ++ " does not accept composite"), attrs)
    else (c, attrs)
  | some scalar =>
    match f.Name with
    | "label" => (c, compileLabel attrs scalar)
    | "shape" =>
      if !ext.IsShape scalar.ScalarString && !ext.Arrowheads scalar.ScalarString then
        (c.errorf ("unknown shape " ++ strconv.Quote scalar.ScalarString), attrs)
      else
        let attrs := { attrs with Shape := { Value := scalar.ScalarString } }
        if attrs.Shape.Value == d2target.ShapeCode then
          (c, { attrs with Language := d2target.ShapeText })
        else (c, attrs)
    | "icon" =>
      match ext.urlParse scalar.ScalarString with
      | .error err =>
        (c.errorf ("bad icon url " ++ strconv.Quote scalar.ScalarString ++ ": " ++ err), attrs)
      | .ok iconURL => (c, { attrs with Icon := some iconURL })
    | "near" =>
      match ext.ParseKey scalar.ScalarString with
      | .error err =>
        (c.errorf ("bad near key " ++ strconv.Quote scalar.ScalarString ++ ": " ++ err), attrs)
      | .ok nearKey => (c, { attrs with NearKey := some nearKey })
    | "tooltip" => (c, { attrs with Tooltip := scalar.ScalarString })
    | "width" =>
      match strconv.Atoi scalar.ScalarString with
      | .error err =>
        (c.errorf ("non-integer width " ++ strconv.Quote scalar.ScalarString ++ ": " ++ err),
          attrs)
      | .ok _ => (c, { attrs with Width := some { Value := scalar.ScalarString } })
    | "height" =>
      match strconv.Atoi scalar.ScalarString with
      | .error err =>
        (c.errorf ("non-integer height " ++ strconv.Quote scalar.ScalarString ++ ": " ++ err),
          attrs)
      | .ok _ => (c, { attrs with Height := some { Value := scalar.ScalarString } })
    | "link" => (c, { attrs with Link := scalar.ScalarString })
    | "direction" =>
      let dirs := ["up", "down", "right", "left"]
      if !dirs.contains scalar.ScalarString then
        (c.errorf ("direction must be one of " ++ strings.Join dirs ", " ++ ", got " ++
          strconv.Quote scalar.ScalarString), attrs)
      else (c, { attrs with Direction := { Value := scalar.ScalarString } })
    | "constraint" =>
      if !scalar.isString then (c.errorf "constraint value must be a string", attrs)
      else (c, { attrs with Constraint := { Value := scalar.ScalarString } })
    | _ => (c, attrs)

/-- The function `compileStyleFieldInit`: make the sub-slot of the key present. -/
def compileStyleFieldInit (attrs : Attributes) (f : Field) : Attributes :=
  match f.Name with
  | "opacity" => { attrs with Style := { attrs.Style with Opacity := some {} } }
  | "stroke" => { attrs with Style := { attrs.Style with Stroke := some {} } }
  | "fill" => { attrs with Style := { attrs.Style with Fill := some {} } }
  | "stroke-width" => { attrs with Style := { attrs.Style with StrokeWidth := some {} } }
  | "stroke-dash" => { attrs with Style := { attrs.Style with StrokeDash := some {} } }
  | "border-radius" => { attrs with Style := { attrs.Style with BorderRadius := some {} } }
  | "shadow" => { attrs with Style := { attrs.Style with Shadow := some {} } }
  | "3d" => { attrs with Style := { attrs.Style with ThreeDee := some {} } }
  | "multiple" => { attrs with Style := { attrs.Style with Multiple := some {} } }
  | "font" => { attrs with Style := { attrs.Style with Font := some {} } }
  | "font-size" => { attrs with Style := { attrs.Style with FontSize := some {} } }
  | "font-color" => { attrs with Style := { attrs.Style with FontColor := some {} } }
  | "animated" => { attrs with Style := { attrs.Style with Animated := some {} } }
  | "bold" => { attrs with Style := { attrs.Style with Bold := some {} } }
  | "italic" => { attrs with Style := { attrs.Style with Italic := some {} } }
  | "underline" => { attrs with Style := { attrs.Style with Underline := some {} } }
  | "filled" => { attrs with Style := { attrs.Style with Filled := some {} } }
  | "width" => { attrs with Width := some {} }
  | "height" => { attrs with Height := some {} }
  | _ => attrs

/-- The method `compileStyleField`. -/
def compileStyleField (ext : Externals) (c : compiler) (attrs : Attributes) (f : Field) :
    compiler × Attributes :=
  match f.Primary with
  | none => (c, attrs)
  | some scalar =>
    let attrs := compileStyleFieldInit attrs f
    match attrs.Style.Apply ext.styleCheck f.Name scalar.ScalarString with
    | .error err => (c.errorf err, attrs)
    | .ok style => (c, { attrs with Style := style })

/-- The method `compileStyle`: every field of the style map, in order. -/
def compileStyle (ext : Externals) (c : compiler) (attrs : Attributes) (m : Map) :
    compiler × Attributes :=
  m.Fields.foldl (fun s f => compileStyleField ext s.1 s.2 f) (c, attrs)

/-- The body of the loop of `compileArrowheads` over the fields of the arrowhead map. -/
def compileArrowheadField (ext : Externals) (c : compiler) (attrs : Attributes) (f2 : Field) :
    compiler × Attributes :=
  if SimpleReservedKeywords.contains (strings.ToLower f2.Name) then
    compileReserved ext c attrs f2
  else if f2.Name == "style" then
    match f2.Map with
    | none => (c, attrs)
    | some m2 => compileStyle ext c attrs m2
  else
    (c.errorf "source-arrowhead/target-arrowhead map keys must be reserved keywords", attrs)

/-- The attribute record that `compileArrowheads` builds: a fresh record, labelled by
the primary value, then filled by the fields of the arrowhead map. -/
def compileArrowheadAttributes (ext : Externals) (c : compiler) (f : Field) :
    compiler × Attributes :=
  let attrs : Attributes := {}
  let attrs := match f.Primary with
    | some scalar => compileLabel attrs scalar
    | none => attrs
  let fields := match f.Map with
    | some m => m.Fields
    | none => []
  fields.foldl (fun s f2 => compileArrowheadField ext s.1 s.2 f2) (c, attrs)

/-- The method `compileArrowheads`. -/
def compileArrowheads (ext : Externals) (c : compiler) (edge : d2graph.Edge) (f : Field) :
    compiler × d2graph.Edge :=
  let s := compileArrowheadAttributes ext c f
  if f.Name == "source-arrowhead" then (s.1, { edge with SrcArrowhead := some s.2 })
  else (s.1, { edge with DstArrowhead := some s.2 })

/-- The method `compileEdgeField`. -/
def compileEdgeField (ext : Externals) (c : compiler) (edge : d2graph.Edge) (f : Field) :
    compiler × d2graph.Edge :=
  if SimpleReservedKeywords.contains (strings.ToLower f.Name) then
    let r := compileReserved ext c edge.Attributes f
    (r.1, { edge with Attributes := r.2 })
  else if f.Name == "style" then
    match f.Map with
    | none => (c, edge)
    | some m =>
      let r := compileStyle ext c edge.Attributes m
      (r.1, { edge with Attributes := r.2 })
  else if f.Name == "source-arrowhead" || f.Name == "target-arrowhead" then
    if f.Map.isSome then compileArrowheads ext c edge f else (c, edge)
  else (c, edge)

/-- The body of the field loop of `compileEdge` over the edge's own map. -/
def compileEdgeMapField (ext : Externals) (c : compiler) (edge : d2graph.Edge) (f : Field) :
    compiler × d2graph.Edge :=
  if !ReservedKeywords.contains f.Name then
    (c.errorf "edge map keys must be reserved keywords", edge)
  else compileEdgeField ext c edge f

/-- The field loop of `compileEdge` over the edge's own map. -/
def compileEdgeMapFields (ext : Externals) (c : compiler) (edge : d2graph.Edge)
    (fields : List Field) : compiler × d2graph.Edge :=
  fields.foldl (fun s f => compileEdgeMapField ext s.1 s.2 f) (c, edge)

/-- The method `compileEdge`. -/
def compileEdge (ext : Externals) (c : compiler) (g : Graph) (obj : Nat) (e : d2ir.Edge) :
    compiler × Graph :=
  match g.Connect ext.connectCheck obj (d2graphIDA e.ID.SrcPath) (d2graphIDA e.ID.DstPath)
      e.ID.SrcArrow e.ID.DstArrow "" with
  | .error err => (c.errorf err, g)
  | .ok (g, ptr) =>
    let edge := g.edge ptr
    let edge := match e.Primary with
      | some scalar => { edge with Attributes := compileLabel edge.Attributes scalar }
      | none => edge
    let s := match e.Map with
      | some m => compileEdgeMapFields ext c edge m.Fields
      | none => (c, edge)
    (s.1, g.setEdge ptr s.2)

/-- The body of the first loop of `compileClass`: one child becomes one member. -/
def compileClassMember (cls : d2target.Class) (f : Object) : d2target.Class :=
  let member : String × String := match f.IDVal.data with
    | '+' :: rest => ("public", String.mk rest)
    | '-' :: rest => ("private", String.mk rest)
    | '#' :: rest => ("protected", String.mk rest)
    | _ => ("public", f.IDVal)
  let visiblity := member.1
  let name := member.2
  if !strings.ContainsChar f.IDVal '(' then
    let typ := f.Attributes.Label.Value
    let typ := if typ == f.IDVal then "" else typ
    { cls with Fields := cls.Fields ++ [{ Name := name, Typ := typ, Visibility := visiblity }] }
  else
    let returnType := f.Attributes.Label.Value
    let returnType := if returnType == f.IDVal then "void" else returnType
    { cls with Methods := cls.Methods ++
        [{ Name := name, Return := returnType, Visibility := visiblity }] }

/-- The inner loop of the removal in `compileClass` and `compileSQLTable`, from index `i`:
`for ; i < len(objects); i++`, splicing out position `i` (and staying on it) whenever it
holds the pointer `ch`. -/
def removeObject (ch : Nat) (objects : List Nat) (i : Nat) : List Nat :=
  if h : i < objects.length then
    if objects[i] = ch then removeObject ch (objects.take i ++ objects.drop (i + 1)) i
    else removeObject ch objects (i + 1)
  else objects
termination_by objects.length - i
decreasing_by
  · simp only [List.length_append, List.length_take, List.length_drop]; omega
  · omega

/-- The removal loops of `compileClass` and `compileSQLTable`: every child is spliced
out of the flat object list. -/
def removeChildren (children : List Nat) (objects : List Nat) : List Nat :=
  children.foldl (fun objects ch => removeObject ch objects 0) objects

/-- The method `compileClass`. -/
def compileClass (g : Graph) (obj : Nat) : Graph :=
  let o := g.obj obj
  let cls := o.ChildrenArray.foldl (fun cls ch => compileClassMember cls (g.obj ch)) {}
  let g := { g with Objects := removeChildren o.ChildrenArray g.Objects }
  g.setObj obj { o with Class := some cls, Children := [], ChildrenArray := [] }

/-- The body of the first loop of `compileSQLTable`: one child becomes one column. -/
def compileSQLColumn (col : Object) : d2target.SQLColumn :=
  let typ := col.Attributes.Label.Value
  let typ := if typ == col.IDVal then "" else typ
  let d2Col : d2target.SQLColumn := { Name := { Label := col.IDVal }, Typ := { Label := typ } }
  if col.Attributes.Constraint.Value != "" then
    { d2Col with Constraint := col.Attributes.Constraint.Value }
  else d2Col

/-- The method `compileSQLTable`. -/
def compileSQLTable (g : Graph) (obj : Nat) : Graph :=
  let o := g.obj obj
  let table := o.ChildrenArray.foldl
    (fun (t : d2target.SQLTable) col => { t with Columns := t.Columns ++ [compileSQLColumn (g.obj col)] })
    {}
  let g := { g with Objects := removeChildren o.ChildrenArray g.Objects }
  g.setObj obj { o with SQLTable := some table, Children := [], ChildrenArray := [] }

/-- The first two branches of `compileField`, which never descend into the field: a
simple reserved keyword goes to `compileReserved`, a `style` map to `compileStyle`.
The result is `none` for any other field. -/
def compileFieldKeyword (ext : Externals) (c : compiler) (g : Graph) (obj : Nat) (f : Field) :
    Option (compiler × Graph) :=
  if SimpleReservedKeywords.contains (strings.ToLower f.Name) then
    let r := compileReserved ext c (g.obj obj).Attributes f
    some (r.1, g.setAttributes obj r.2)
  else if f.Name == "style" then
    match f.Map with
    | none => some (c, g)
    | some m =>
      let r := compileStyle ext c (g.obj obj).Attributes m
      if r.2.Style.Animated.isSome then
        some (r.1.errorf "key \"animated\" can only be applied to edges", g.setAttributes obj r.2)
      else some (r.1, g.setAttributes obj r.2)
  else none

/-- The shape specialiser step of `compileMap`: the switch on the resolved shape. -/
def compileShape (g : Graph) (obj : Nat) : Graph :=
  if (g.obj obj).Attributes.Shape.Value == d2target.ShapeClass then compileClass g obj
  else if (g.obj obj).Attributes.Shape.Value == d2target.ShapeSQLTable then compileSQLTable g obj
  else g

/-- The edge loop of `compileMap`. -/
def compileEdges (ext : Externals) (c : compiler) (g : Graph) (obj : Nat)
    (edges : List d2ir.Edge) : compiler × Graph :=
  edges.foldl (fun s e => compileEdge ext s.1 s.2 obj e) (c, g)

/-- The labelling step of `compileField`: a primary value of the field becomes the label
of the child object. -/
def compileFieldLabel (g : Graph) (obj : Nat) (primary : Option d2ast.Scalar) : Graph :=
  match primary with
  | some scalar => g.setAttributes obj (compileLabel (g.obj obj).Attributes scalar)
  | none => g

/-- The first statement of `compileMap`: the `shape` field of the map, when there is one,
is compiled before every other field. The field found by `GetField` is a simple reserved
keyword, so its compilation is the keyword branch of `compileField`. -/
def compileMapShape (ext : Externals) (c : compiler) (g : Graph) (obj : Nat) (m : Map) :
    compiler × Graph :=
  match m.GetField "shape" with
  | some shape => (compileFieldKeyword ext c g obj shape).getD (c, g)
  | none => (c, g)

mutual
/-- The method `compileMap`. The `shape` field found by `GetField` is a simple reserved
keyword, so its compilation is the keyword branch of `compileField`
(see `compileMap_eq`). -/
def compileMap (ext : Externals) (c : compiler) (g : Graph) (obj : Nat) :
    Map → compiler × Graph
  | .mk fields edges =>
    let s := compileMapShape ext c g obj (.mk fields edges)
    let s := compileFields ext s.1 s.2 obj fields
    compileEdges ext s.1 (compileShape s.2 obj) obj edges
/-- The field loop of `compileMap`: every field not named `shape`, in declaration order. -/
def compileFields (ext : Externals) (c : compiler) (g : Graph) (obj : Nat) :
    List Field → compiler × Graph
  | [] => (c, g)
  | f :: fs =>
    if f.Name == "shape" then compileFields ext c g obj fs
    else compileFields ext (compileField ext c g obj f).1 (compileField ext c g obj f).2 obj fs
/-- The method `compileField`. -/
def compileField (ext : Externals) (c : compiler) (g : Graph) (obj : Nat) :
    Field → compiler × Graph
  | .mk name primary composite =>
    match compileFieldKeyword ext c g obj (.mk name primary composite) with
    | some r => r
    | none =>
      let r := g.EnsureChild obj (d2graphIDA [name])
      let g := compileFieldLabel r.1 r.2 primary
      match composite with
      | some (.map m) => compileMap ext c g r.2 m
      | _ => (c, g)
end

/-- Modelled from the spec: the symbol `reserved` used by `validateKey`, which the source
does not declare: the reserved keyword that the field names (its lower-cased name). -/
def reserved (f : Field) : String := strings.ToLower f.Name

/-- The first switch of the reserved-keyword branch of `validateKey`: `width` and
`height` on a container that is neither a table nor a class. -/
def validateKeyContainer (c : compiler) (g : Graph) (obj : Nat) (f : Field) : compiler :=
  let o := g.obj obj
  if o.Attributes.Shape.Value == d2target.ShapeSQLTable ||
      o.Attributes.Shape.Value == d2target.ShapeClass then c
  else if o.Children.length > 0 && (f.Name == "width" || f.Name == "height") then
    c.errorf (f.Name ++ " cannot be used on container: " ++ g.AbsID obj)
  else c

/-- The second switch of the reserved-keyword branch of `validateKey`: on circles and
squares, `width` and `height` must be equal. `checkEqual` tests only one of the two
pointers for nil and the comparison reads through both: when the other one is nil the
source stops with a nil dereference, and the result is `none`. -/
def validateKeyEqual (c : compiler) (g : Graph) (obj : Nat) (f : Field) : Option compiler :=
  let o := g.obj obj
  if o.Attributes.Shape.Value == d2target.ShapeCircle ||
      o.Attributes.Shape.Value == d2target.ShapeSquare then
    let checkEqual := (reserved f == "width" && o.Attributes.Height.isSome) ||
      (reserved f == "height" && o.Attributes.Width.isSome)
    if checkEqual then
      match o.Attributes.Width, o.Attributes.Height with
      | some width, some height =>
        if width.Value != height.Value then
          some (c.errorf
            ("width and height must be equal for " ++ o.Attributes.Shape.Value ++ " shapes"))
        else some c
      | _, _ => none
    else some c
  else some c

/-- The `shape` case of the third switch of the reserved-keyword branch of
`validateKey`. -/
def validateKeyShape (ext : Externals) (c : compiler) (g : Graph) (obj : Nat) (f : Field) :
    compiler :=
  let o := g.obj obj
  let shape := o.Attributes.Shape.Value
  let c :=
    if shape == d2target.ShapeSQLTable || shape == d2target.ShapeClass then c
    else if shape == d2target.ShapeImage then
      if o.Attributes.Icon.isNone then c.errorf "image shape must include an \"icon\" field"
      else c
    else if o.Children.length > 0 && (f.Name == "width" || f.Name == "height") then
      c.errorf (f.Name ++ " cannot be used on container: " ++ g.AbsID obj)
    else c
  if !ext.IsShape shape && ext.Arrowheads shape then
    c.errorf ("invalid shape, can only set \"" ++ shape ++ "\" for arrowheads")
  else c

/-- The third switch of the reserved-keyword branch of `validateKey`, on the name of the
field. -/
def validateKeyName (ext : Externals) (c : compiler) (g : Graph) (obj : Nat) (f : Field) :
    compiler :=
  match f.Name with
  | "width" =>
    if (g.obj obj).Attributes.Shape.Value != d2target.ShapeImage then
      c.errorf "width is only applicable to image shapes."
    else c
  | "height" =>
    if (g.obj obj).Attributes.Shape.Value != d2target.ShapeImage then
      c.errorf "height is only applicable to image shapes."
    else c
  | "shape" => validateKeyShape ext c g obj f
  | _ => c

/-- The reserved-keyword branch of `validateKey`: its three switches in sequence. The
result is `none` when the second one stops with a nil dereference. -/
def validateReservedKey (ext : Externals) (c : compiler) (g : Graph) (obj : Nat) (f : Field) :
    Option compiler :=
  match validateKeyEqual (validateKeyContainer c g obj f) g obj f with
  | none => none
  | some c => some (validateKeyName ext c g obj f)

/-- The check of the `3d` style in the branch of `validateKey` for other fields. -/
def validateKeyThreeDee (c : compiler) (g : Graph) (obj : Nat) : compiler :=
  let o := g.obj obj
  if o.Attributes.Style.ThreeDee.isSome &&
      (!strings.EqualFold o.Attributes.Shape.Value d2target.ShapeSquare &&
       !strings.EqualFold o.Attributes.Shape.Value d2target.ShapeRectangle) then
    c.errorf "key \"3d\" can only be applied to squares and rectangles"
  else c

mutual
/-- The method `validateKeys`. The result is `none` when the run stops with the nil
dereference of `validateKey`. -/
def validateKeys (ext : Externals) (c : compiler) (g : Graph) (obj : Nat) :
    Map → Option compiler
  | .mk fields _ => validateFields ext c g obj fields
/-- The loop of `validateKeys` over the fields of the map. -/
def validateFields (ext : Externals) (c : compiler) (g : Graph) (obj : Nat) :
    List Field → Option compiler
  | [] => some c
  | f :: fs =>
    match validateKey ext c g obj f with
    | none => none
    | some c => validateFields ext c g obj fs
/-- The method `validateKey`. -/
def validateKey (ext : Externals) (c : compiler) (g : Graph) (obj : Nat) :
    Field → Option compiler
  | .mk name primary composite =>
    if SimpleReservedKeywords.contains (strings.ToLower name) then
      validateReservedKey ext c g obj (.mk name primary composite)
    else
      let c := validateKeyThreeDee c g obj
      if (g.obj obj).Attributes.Shape.Value == d2target.ShapeImage then
        some (c.errorf "image shapes cannot have children.")
      else
        match g.HasChild obj [name], composite with
        | some child, some (.map m) => validateKeys ext c g child m
        | _, _ => some c
end

/-- The body of the loop of `validateNear` for one object of the flat list. A key path
has at least one element; the first element of an empty path, on which the source would
fail at the index, reads as the empty string. -/
def validateNearObject (ext : Externals) (c : compiler) (g : Graph) (obj : Nat) : compiler :=
  match (g.obj obj).Attributes.NearKey with
  | none => c
  | some nearKey =>
    let isKey := (g.HasChild g.Root nearKey).isSome
    let isConst := ext.NearConstantsArray.contains (nearKey.headD "")
    if !isKey && !isConst then
      c.errorf ("near key " ++ strconv.Quote (ext.Format nearKey) ++
        " must be the absolute path to a shape or one of the following constants: " ++
        strings.Join ext.NearConstantsArray ", ")
    else if !isKey && isConst && (g.obj obj).Parent != some g.Root then
      c.errorf "constant near keys can only be set on root level shapes"
    else if !isKey && isConst && (g.obj obj).ChildrenArray.length > 0 then
      c.errorf "constant near keys cannot be set on shapes with children"
    else if !isKey && isConst then
      let is := g.Edges.any (fun e => e.Src == obj || e.Dst == obj)
      if is then c.errorf "constant near keys cannot be set on connected shapes" else c
    else c

/-- The method `validateNear`. -/
def validateNear (ext : Externals) (c : compiler) (g : Graph) : compiler :=
  g.Objects.foldl (fun c obj => validateNearObject ext c g obj) c

/-- The first part of `compileLayer`: build the tree of the root map into a fresh graph
and validate it. The result is `none` when `validateKeys` stops with a nil
dereference. -/
def compileLayerRoot (ext : Externals) (c : compiler) (ir : Map) :
    Option (compiler × Graph) :=
  let g := d2graph.NewGraph
  let m := ir.CopyRoot
  let s := compileMap ext c g g.Root m
  let v := if s.1.err.Errors.length == 0 then validateKeys ext s.1 s.2 s.2.Root m else some s.1
  match v with
  | none => none
  | some c => some (validateNear ext c s.2, s.2)

/-- The switch of `compileLayersField`: append the nested graph to the collection of
the keyword. -/
def appendLayer (g : Graph) (fieldName : String) (g2 : Graph) : Graph :=
  match fieldName with
  | "layers" => { g with Layers := g.Layers ++ [g2] }
  | "scenarios" => { g with Scenarios := g.Scenarios ++ [g2] }
  | "steps" => { g with Steps := g.Steps ++ [g2] }
  | _ => g

mutual
/-- The method `compileLayer`. The result is `none` when the validation of this layer or
of a nested one stops with a nil dereference. -/
def compileLayer (ext : Externals) (c : compiler) : Map → Option (compiler × Graph)
  | .mk fields edges =>
    match compileLayerRoot ext c (.mk fields edges) with
    | none => none
    | some s =>
      match compileLayersField ext s.1 s.2 fields "layers" with
      | none => none
      | some s =>
        match compileLayersField ext s.1 s.2 fields "scenarios" with
        | none => none
        | some s => compileLayersField ext s.1 s.2 fields "steps"
/-- The method `compileLayersField`, on the field list of the IR map: the scan is the
lookup `ir.GetField(fieldName)` (see `compileLayersField_eq`). -/
def compileLayersField (ext : Externals) (c : compiler) (g : Graph) :
    List Field → String → Option (compiler × Graph)
  | [], _ => some (c, g)
  | .mk name _ composite :: rest, fieldName =>
    if strings.EqualFold name fieldName then
      match composite with
      | some (.map (.mk layers _)) => compileLayers ext c g layers fieldName
      | _ => some (c, g)
    else compileLayersField ext c g rest fieldName
/-- The loop of `compileLayersField` over the fields of the keyword's map. -/
def compileLayers (ext : Externals) (c : compiler) (g : Graph) :
    List Field → String → Option (compiler × Graph)
  | [], _ => some (c, g)
  | .mk name _ composite :: rest, fieldName =>
    match composite with
    | some (.map m) =>
      match compileLayer ext c m with
      | none => none
      | some r =>
        compileLayers ext r.1 (appendLayer g fieldName { r.2 with Name := name }) rest fieldName
    | _ => compileLayers ext c g rest fieldName
end

/-- The function `compileIR`; the Go result pair is `(graph, error)`. The result is
`none` when the run does not return: it stops with the nil dereference of
`validateKey`. -/
def compileIR (ext : Externals) (pe : d2parser.ParseError) (m : Map) :
    Option (Option Graph × Option d2parser.ParseError) :=
  let c : compiler := { err := pe }
  match compileLayer ext c m with
  | none => none
  | some s =>
    if s.1.err.Errors.length > 0 then some (none, some s.1.err)
    else some (some s.2, none)

/-! ## Definitions that follow the wording of the specification -/

/-- Spec: the member name is the child's name with at most one leading sigil
`+`, `-` or `#` removed. -/
def specMemberName (raw : String) : String :=
  match raw.data with
  | ch :: rest => if ch = '+' ∨ ch = '-' ∨ ch = '#' then String.mk rest else raw
  | [] => raw

/-- Spec: visibility is "private" for `-`, "protected" for `#`, "public" for `+` or no
sigil. -/
def specVisibility (raw : String) : String :=
  match raw.data.head? with
  | some '-' => "private"
  | some '#' => "protected"
  | _ => "public"

/-- Spec: a child is a method when the name that remains after stripping the sigil
contains `(`. -/
def specIsMethod (raw : String) : Bool := (specMemberName raw).data.contains '('

/-- Spec: the field built from a child; its type is the Label, or empty when the Label
equals the raw name. -/
def specField (f : Object) : d2target.ClassField :=
  { Name := specMemberName f.IDVal,
    Typ := if f.Attributes.Label.Value = f.IDVal then "" else f.Attributes.Label.Value,
    Visibility := specVisibility f.IDVal }

/-- Spec: the method built from a child; its return type is the Label, or "void" when
the Label equals the raw name. -/
def specMethod (f : Object) : d2target.ClassMethod :=
  { Name := specMemberName f.IDVal,
    Return := if f.Attributes.Label.Value = f.IDVal then "void" else f.Attributes.Label.Value,
    Visibility := specVisibility f.IDVal }

/-- Spec: the class member added for one child. -/
def specMember (cls : d2target.Class) (f : Object) : d2target.Class :=
  if specIsMethod f.IDVal then { cls with Methods := cls.Methods ++ [specMethod f] }
  else { cls with Fields := cls.Fields ++ [specField f] }

/-- Spec: the column built from a child: named after the child, typed by the Label (empty
when the Label equals the name), with the child's Constraint value. -/
def specColumn (col : Object) : d2target.SQLColumn :=
  { Name := { Label := col.IDVal },
    Typ := { Label := if col.Attributes.Label.Value = col.IDVal then ""
                      else col.Attributes.Label.Value },
    Constraint := col.Attributes.Constraint.Value }

/-! ## Sample inputs -/

/-- A sample instance of the collaborators, used to run the compiler on concrete
inputs. -/
def sampleExternals : Externals where
  IsShape := fun s =>
    ["", "rectangle", "square", "circle", "oval", "text", "code", "class", "sql_table",
     "image"].contains (strings.ToLower s)
  Arrowheads := fun s => ["none", "arrow", "triangle", "diamond"].contains s
  NearConstantsArray := ["top-left", "top-center", "top-right"]
  urlParse := fun s => if s.data.contains ' ' then .error "invalid character in URL" else .ok s
  ParseKey := fun s => if s.isEmpty then .error "empty key" else .ok [s]
  Format := fun path => strings.Join path "."
  styleCheck := fun key value =>
    if key == "3d" && !(value == "true" || value == "false") then
      some ("expected \"3d\" to be true or false")
    else none
  connectCheck := fun src dst =>
    if src.isEmpty || dst.isEmpty then some "bad edge"
    else if src != dst && (src.isPrefixOf dst || dst.isPrefixOf src) then
      some "edge between a container and its descendant"
    else none

/-- A field with an unquoted scalar value, `name: value`. -/
def scalarField (name value : String) : Field :=
  .mk name (some (.UnquotedString value)) none

/-- A field with a nested map and no edges, written `name: (fields)` in the source. -/
def mapField (name : String) (fields : List Field) : Field :=
  .mk name none (some (.map (.mk fields [])))

/-- The graph of the class scenario just before `compileClass` runs on `a` (pointer 1):
`a` has shape class and the children `+name` and `getName()`, both labelled "string". -/
def classScenario : Graph :=
  let g := (d2graph.NewGraph.EnsureChild 0 ["a"]).1
  let g := g.setAttributes 1 { (g.obj 1).Attributes with Shape := { Value := "class" } }
  let g := (g.EnsureChild 1 ["+name"]).1
  let g := g.setAttributes 2 (compileLabel (g.obj 2).Attributes (.UnquotedString "string"))
  let g := (g.EnsureChild 1 ["getName()"]).1
  g.setAttributes 3 (compileLabel (g.obj 3).Attributes (.UnquotedString "string"))

/-- The graph of a table scenario just before `compileSQLTable` runs on `t` (pointer 1):
columns `id: int` with constraint "primary_key" and `name`, and an unrelated object `b`
created between them. -/
def tableScenario : Graph :=
  let g := (d2graph.NewGraph.EnsureChild 0 ["t"]).1
  let g := g.setAttributes 1 { (g.obj 1).Attributes with Shape := { Value := "sql_table" } }
  let g := (g.EnsureChild 1 ["id"]).1
  let g := g.setAttributes 2
    { (g.obj 2).Attributes with Label := { Value := "int" },
                                Constraint := { Value := "primary_key" } }
  let g := (g.EnsureChild 0 ["b"]).1
  (g.EnsureChild 1 ["name"]).1

/-- The errors that one field of an edge's own map contributes: the keyword error for a
field that is not a reserved keyword, and for a reserved one whatever compiling that
field reports. -/
def edgeMapFieldErrors (ext : Externals) (f : Field) : List d2ast.Error :=
  if ReservedKeywords.contains f.Name then (compileEdgeField ext {} default f).1.err.Errors
  else [⟨"edge map keys must be reserved keywords"⟩]

/-- The edge `a -> b` with the map `foo: 1`, `label: hi`, `style.opacity: 0.4`. -/
def sampleEdge : d2ir.Edge :=
  .mk { SrcPath := ["a"], SrcArrow := false, DstPath := ["b"], DstArrow := true } none
    (some (.mk [scalarField "foo" "1", scalarField "label" "hi",
      mapField "style" [scalarField "opacity" "0.4"]] []))

/-- The IR of a diagram with the single object `a`, whose map holds the given fields:
`a: (fields)` in the source. -/
def leafIR (fields : List Field) : Map := .mk [mapField "a" fields] []

/-- The fields `shape: s`, `width: w`, `height: h`. -/
def sizedFields (shape w h : String) : List Field :=
  [scalarField "shape" shape, scalarField "width" w, scalarField "height" h]

/-- The fields `shape: image`, followed by `icon: u` when an icon is given. -/
def imageFields (icon : Option String) : List Field :=
  match icon with
  | none => [scalarField "shape" "image"]
  | some u => [scalarField "shape" "image", scalarField "icon" u]

/-- The fresh graph with the single object `a` (pointer 1) below the root. -/
def leafGraph : Graph := (d2graph.NewGraph.EnsureChild 0 ["a"]).1

/-- The graph `leafGraph` after `a` received a shape, a width and a height. -/
def sizedGraph (shape w h : String) : Graph :=
  leafGraph.setAttributes 1
    { (leafGraph.obj 1).Attributes with
      Shape := { Value := shape }, Width := some { Value := w }, Height := some { Value := h } }

/-- The graph `leafGraph` after `a` received the shape image and possibly an icon. -/
def imageGraph (icon : Option String) : Graph :=
  leafGraph.setAttributes 1
    { (leafGraph.obj 1).Attributes with Shape := { Value := "image" }, Icon := icon }

/-- The error of the equal-dimension check of `validateKey`. -/
def errEqual (shape : String) : d2ast.Error :=
  ⟨"width and height must be equal for " ++ shape ++ " shapes"⟩

/-- The errors of the `width` and `height` cases of `validateKey`. -/
def errWidthImage : d2ast.Error := ⟨"width is only applicable to image shapes."⟩

def errHeightImage : d2ast.Error := ⟨"height is only applicable to image shapes."⟩

/-- The error of `validateKey` for an image shape without icon. -/
def errIcon : d2ast.Error := ⟨"image shape must include an \"icon\" field"⟩

/-- An image-shaped object with an icon and the style `3d: true`:
`a: (shape: image; icon: http://x/y.png; style: (3d: true))`. -/
def imageStyleIR : Map :=
  leafIR [scalarField "shape" "image", scalarField "icon" "http://x/y.png",
    mapField "style" [scalarField "3d" "true"]]

/-! ## Well-formed IR and the frame of a call -/

mutual
/-- The names of the fields of the map are pairwise distinct, and so are those of every
map nested in its fields: what the IR builder guarantees for sibling names. -/
def uniqueNames : Map → Bool
  | .mk fields _ => decide ((fields.map Field.Name).Nodup) && uniqueNamesFields fields
/-- Every field of the list has pairwise distinct names in its nested maps. -/
def uniqueNamesFields : List Field → Bool
  | [] => true
  | f :: fs => uniqueNamesField f && uniqueNamesFields fs
/-- The map of the field, when it has one, has pairwise distinct names throughout. -/
def uniqueNamesField : Field → Bool
  | .mk _ _ (some (.map m)) => uniqueNames m
  | .mk _ _ _ => true
end

/-- An object is specialised twice when it has both a class and a table record. -/
def both (o : Object) : Bool := o.Class.isSome && o.SQLTable.isSome

/-- The part of the graph that a call of `compileMap` on `obj` may touch, when the store
had `L` objects at the time of the call: `obj` itself and the objects created since.
Objects below `L` other than `obj` are as in `g0`, the children of `obj` and of the new
objects are new objects, and no new object is specialised twice. -/
structure Frame (L obj : Nat) (g0 g : Graph) : Prop where
  len : L ≤ g.store.length
  old : ∀ q, q < L → q ≠ obj → g.obj q = g0.obj q
  kids : ∀ q, (q = obj ∨ L ≤ q) → ∀ kv ∈ (g.obj q).Children, L ≤ kv.2 ∧ kv.2 < g.store.length
  fresh : ∀ q, L ≤ q → both (g.obj q) = false

/-- The store only grows and the objects that exist keep their class and table
records. -/
def Keeps (g g2 : Graph) : Prop :=
  g.store.length ≤ g2.store.length ∧
    ∀ p, p < g.store.length →
      (g2.obj p).Class = (g.obj p).Class ∧ (g2.obj p).SQLTable = (g.obj p).SQLTable

/-- A class `a` with two members and a table `t` with one column, joined by an edge. -/
def classTableIR : Map :=
  .mk [mapField "a" [scalarField "shape" "class", scalarField "+name" "string",
         scalarField "getName()" "string"],
       mapField "t" [scalarField "shape" "sql_table", scalarField "id" "int"]]
    [.mk { SrcPath := ["a"], SrcArrow := false, DstPath := ["t"], DstArrow := true } none none]

/-- The state of `compileMap` after its field loop: the `shape` field first, then every
other field in declaration order. -/
def fieldLoop (ext : Externals) (c : compiler) (g : Graph) (obj : Nat) (m : Map) :
    compiler × Graph :=
  compileFields ext (compileMapShape ext c g obj m).1 (compileMapShape ext c g obj m).2 obj
    m.Fields

/-! ## Definitions for the near-key validation -/

/-- The errors that `validateNear` reports for one object of the flat list. -/
def nearErrors (ext : Externals) (g : Graph) (obj : Nat) : List d2ast.Error :=
  (validateNearObject ext {} g obj).err.Errors

/-- Spec: a near key is legal on an object when it resolves to an existing object by
absolute path from the root, or when its first element is one of the near constants and
the object is a direct child of the root, has no children, and is neither the source nor
the destination of any edge. -/
def nearAllowed (ext : Externals) (g : Graph) (obj : Nat) (nearKey : List String) : Prop :=
  (g.HasChild g.Root nearKey).isSome = true ∨
    (ext.NearConstantsArray.contains (nearKey.headD "") = true ∧
      (g.obj obj).Parent = some g.Root ∧ (g.obj obj).ChildrenArray = [] ∧
      ∀ e ∈ g.Edges, e.Src ≠ obj ∧ e.Dst ≠ obj)

instance (ext : Externals) (g : Graph) (obj : Nat) (nearKey : List String) :
    Decidable (nearAllowed ext g obj nearKey) := by
  unfold nearAllowed; infer_instance

/-- The errors of the three rules for constant near keys, in the order of the source. -/
def errNearRoot : d2ast.Error := ⟨"constant near keys can only be set on root level shapes"⟩

def errNearChildren : d2ast.Error :=
  ⟨"constant near keys cannot be set on shapes with children"⟩

def errNearConnected : d2ast.Error :=
  ⟨"constant near keys cannot be set on connected shapes"⟩

/-- The object `a` with `near: top-center`, bare and at root level:
`a: (near: top-center)`. -/
def nearRootIR : Map := leafIR [scalarField "near" "top-center"]

/-- The object `x.a` with `near: top-center` and a child `b`:
`x: (a: (near: top-center; b: ()))`. -/
def nearNestedIR : Map :=
  .mk [mapField "x" [mapField "a" [scalarField "near" "top-center", mapField "b" []]]] []

/-- The root-level object `a` with `near: top-center`, a child `b`, and an edge `a -> c`. -/
def nearConnectedIR : Map :=
  .mk [mapField "a" [scalarField "near" "top-center", mapField "b" []]]
    [.mk { SrcPath := ["a"], SrcArrow := false, DstPath := ["c"], DstArrow := true } none none]

/-- The graph that the compile pass builds from an IR map, with the sample
collaborators. -/
def sampleGraph (ir : Map) : Graph :=
  (compileMap sampleExternals {} d2graph.NewGraph d2graph.NewGraph.Root ir).2

/-! ## Definitions for the label rule -/

/-- Spec: the long form of a language tag: the short aliases md, tex, js, go, py, rb and
ts are replaced by their long names, any other tag is kept. -/
def specLanguage (tag : String) : String :=
  match tag with
  | "md" => "markdown"
  | "tex" => "latex"
  | "js" => "javascript"
  | "go" => "golang"
  | "py" => "python"
  | "rb" => "ruby"
  | "ts" => "typescript"
  | t => t

/-- Spec: the shape forced by a block string: "text" for markdown and latex, "code"
otherwise. -/
def specBlockShape (language : String) : String :=
  if language = "markdown" ∨ language = "latex" then "text" else "code"

/-! ## Definitions for the style checks -/

/-- The error of `validateKey` for a `3d` style on a shape that is neither a square nor a
rectangle. -/
def errThreeDee : d2ast.Error := ⟨"key \"3d\" can only be applied to squares and rectangles"⟩

/-- The fields `shape: s` and `style: (3d: v)`. -/
def threeDeeFields (s v : String) : List Field :=
  [scalarField "shape" s, mapField "style" [scalarField "3d" v]]

/-! ## Definitions for the order of the steps of `compileMap` -/

/-- Spec: `compileMap` with the shape specialiser after the edges: all fields, then all
edges declared in the map, then `compileClass` or `compileSQLTable`. -/
def specCompileMap (ext : Externals) (c : compiler) (g : Graph) (obj : Nat) (m : Map) :
    compiler × Graph :=
  let s := fieldLoop ext c g obj m
  let s := compileEdges ext s.1 s.2 obj m.Edges
  (s.1, compileShape s.2 obj)

/-- The map of a class with the member `+name: string` and the edge `x -> y`:
`shape: class; +name: string; x -> y`. -/
def classEdgeMap : Map :=
  .mk [scalarField "shape" "class", scalarField "+name" "string"]
    [.mk { SrcPath := ["x"], SrcArrow := false, DstPath := ["y"], DstArrow := true } none none]

/-! ## Definitions for the order of the fields -/

/-- Spec: the field loop in plain declaration order: `compileField` folded over the
field list from first to last. -/
def specFieldLoop (ext : Externals) (c : compiler) (g : Graph) (obj : Nat) (m : Map) :
    compiler × Graph :=
  m.Fields.foldl (fun s f => compileField ext s.1 s.2 obj f) (c, g)

/-- A field `label` whose value is a block string with the given tag. -/
def blockLabel (tag value : String) : Field :=
  .mk "label" (some (.BlockString tag value)) none

/-- The fields of a map with a block-string `label` declared before `shape: s`. -/
def labelShapeFields (tag value s : String) : List Field :=
  [blockLabel tag value, scalarField "shape" s]

/-! ## Definitions for the image check -/

/-- The error of `validateKey` for a field of an image-shaped object that is not a simple
reserved keyword. -/
def errImageChildren : d2ast.Error := ⟨"image shapes cannot have children."⟩

/-- An image-shaped object with an icon and a style map, without any child object:
`a: (shape: image; icon: http://x/y.png; style: (opacity: 0.4))`. -/
def imageOpacityIR : Map :=
  leafIR [scalarField "shape" "image", scalarField "icon" "http://x/y.png",
    mapField "style" [scalarField "opacity" "0.4"]]

/-! ## Definitions for the nested layers -/

/-- The sub-fields of a layer keyword: the fields of the map of `ir.GetField(fieldName)`,
none when the keyword is absent or has no map. -/
def layerFields (ir : Map) (fieldName : String) : List Field :=
  match (ir.GetField fieldName).bind d2ir.Field.Map with
  | none => []
  | some layers => layers.Fields

/-- Spec: the nested graphs of a layer keyword: one graph per sub-field that has a nested
map, in declaration order, each produced by the full pipeline and named after its field;
sub-fields without a map are skipped. The error accumulator runs through the
compilations; the result is `none` when one of them does not return. -/
def nestedGraphs (ext : Externals) (c : compiler) : List Field → Option (List Graph)
  | [] => some []
  | f :: fs =>
    match f.Map with
    | none => nestedGraphs ext c fs
    | some m =>
      match compileLayer ext c m with
      | none => none
      | some r =>
        (nestedGraphs ext r.1 fs).map (fun gs => { r.2 with Name := f.Name } :: gs)

/-- A diagram with two layers and a scalar among them, and one scenario:
`layers: (l1: (a); skip: 1; l2: (b)); scenarios: (s1: (c))`. -/
def layersIR : Map :=
  .mk [mapField "layers" [mapField "l1" [mapField "a" []], scalarField "skip" "1",
         mapField "l2" [mapField "b" []]],
       mapField "scenarios" [mapField "s1" [mapField "c" []]]] []

/-! ## Sample inputs on which a run stops or an edge is rejected -/

/-- A circle with a `width` field that has no value and a height:
`a: (shape: circle; width; height: 5)`. -/
def bareWidthIR : Map :=
  leafIR [scalarField "shape" "circle", .mk "width" none none, scalarField "height" "5"]

/-- An edge that the sample `Connect` rejects, from the container `a` to its own
descendant `a.b`, with the map `foo: 1`: `a -> a.b: (foo: 1)`. -/
def rejectedEdge : d2ir.Edge :=
  .mk { SrcPath := ["a"], SrcArrow := false, DstPath := ["a", "b"], DstArrow := true } none
    (some (.mk [scalarField "foo" "1"] []))


/-! # Lemmas -/

/-! ## The error accumulator -/

theorem errorf_Errors (c : compiler) (msg : String) :
    (c.errorf msg).err.Errors = c.err.Errors ++ [⟨msg⟩] := rfl

theorem compileReserved_errors (ext : Externals) (c : compiler) (a : Attributes) (f : Field) :
    (compileReserved ext c a f).1.err.Errors =
      c.err.Errors ++ (compileReserved ext {} {} f).1.err.Errors := by
  simp only [compileReserved]
  repeat' first
    | rfl
    | simp [errorf_Errors]; done
    | split

theorem compileReserved_snd (ext : Externals) (c : compiler) (a : Attributes) (f : Field) :
    (compileReserved ext c a f).2 = (compileReserved ext {} a f).2 := by
  simp only [compileReserved]
  repeat' first
    | rfl
    | split

theorem compileStyleField_errors (ext : Externals) (c : compiler) (a : Attributes) (f : Field) :
    (compileStyleField ext c a f).1.err.Errors =
      c.err.Errors ++ (compileStyleField ext {} {} f).1.err.Errors := by
  simp only [compileStyleField, d2graph.Style.Apply]
  rcases hp : f.Primary with _ | scalar
  · simp
  · rcases hs : ext.styleCheck f.Name scalar.ScalarString with _ | err <;>
      simp [hs, errorf_Errors]

theorem compileStyleField_snd (ext : Externals) (c : compiler) (a : Attributes) (f : Field) :
    (compileStyleField ext c a f).2 = (compileStyleField ext {} a f).2 := by
  simp only [compileStyleField, d2graph.Style.Apply]
  rcases hp : f.Primary with _ | scalar
  · rfl
  · rcases hs : ext.styleCheck f.Name scalar.ScalarString with _ | err <;> simp [hs]

/-- A fold whose step appends errors that depend on the element only, and whose result
does not depend on the accumulator. -/
theorem foldl_errors {α σ : Type} (step : compiler → σ → α → compiler × σ) (x0 : σ)
    (h1 : ∀ c x a, (step c x a).1.err.Errors = c.err.Errors ++ (step {} x0 a).1.err.Errors)
    (xs : List α) (c : compiler) (x : σ) :
    (xs.foldl (fun s a => step s.1 s.2 a) (c, x)).1.err.Errors =
      c.err.Errors ++ xs.flatMap (fun a => (step {} x0 a).1.err.Errors) := by
  induction xs generalizing c x with
  | nil => simp
  | cons a xs ih =>
    rw [List.foldl_cons, ih, h1]
    simp [List.append_assoc]

theorem foldl_snd {α σ : Type} (step : compiler → σ → α → compiler × σ)
    (h2 : ∀ c x a, (step c x a).2 = (step {} x a).2)
    (xs : List α) (c : compiler) (x : σ) :
    (xs.foldl (fun s a => step s.1 s.2 a) (c, x)).2 =
      (xs.foldl (fun s a => step s.1 s.2 a) ({}, x)).2 := by
  induction xs generalizing c x with
  | nil => simp
  | cons a xs ih =>
    rw [List.foldl_cons, List.foldl_cons, ih, ih (step {} x a).1, h2]

theorem compileStyle_errors (ext : Externals) (c : compiler) (a : Attributes) (m : Map) :
    (compileStyle ext c a m).1.err.Errors =
      c.err.Errors ++ (compileStyle ext {} {} m).1.err.Errors := by
  unfold compileStyle
  rw [foldl_errors (compileStyleField ext) {} (compileStyleField_errors ext),
    foldl_errors (compileStyleField ext) {} (compileStyleField_errors ext)]
  rfl

theorem compileStyle_snd (ext : Externals) (c : compiler) (a : Attributes) (m : Map) :
    (compileStyle ext c a m).2 = (compileStyle ext {} a m).2 :=
  foldl_snd (compileStyleField ext) (compileStyleField_snd ext) _ _ _

theorem compileArrowheadField_errors (ext : Externals) (c : compiler) (a : Attributes)
    (f : Field) :
    (compileArrowheadField ext c a f).1.err.Errors =
      c.err.Errors ++ (compileArrowheadField ext {} {} f).1.err.Errors := by
  simp only [compileArrowheadField]
  split
  · exact compileReserved_errors ..
  · split
    · split
      · simp
      · exact compileStyle_errors ..
    · simp [errorf_Errors]

theorem compileArrowheadField_snd (ext : Externals) (c : compiler) (a : Attributes)
    (f : Field) :
    (compileArrowheadField ext c a f).2 = (compileArrowheadField ext {} a f).2 := by
  simp only [compileArrowheadField]
  split
  · exact compileReserved_snd ..
  · split
    · split
      · rfl
      · exact compileStyle_snd ..
    · rfl

theorem compileArrowheadAttributes_errors (ext : Externals) (c : compiler) (f : Field) :
    (compileArrowheadAttributes ext c f).1.err.Errors =
      c.err.Errors ++ (compileArrowheadAttributes ext {} f).1.err.Errors := by
  simp only [compileArrowheadAttributes]
  rw [foldl_errors (compileArrowheadField ext) {} (compileArrowheadField_errors ext),
    foldl_errors (compileArrowheadField ext) {} (compileArrowheadField_errors ext)]
  rfl

theorem compileArrowheadAttributes_snd (ext : Externals) (c : compiler) (f : Field) :
    (compileArrowheadAttributes ext c f).2 = (compileArrowheadAttributes ext {} f).2 :=
  foldl_snd (compileArrowheadField ext) (compileArrowheadField_snd ext) _ _ _

theorem compileEdgeField_errors (ext : Externals) (c : compiler) (e : d2graph.Edge)
    (f : Field) :
    (compileEdgeField ext c e f).1.err.Errors =
      c.err.Errors ++ (compileEdgeField ext {} default f).1.err.Errors := by
  simp only [compileEdgeField, compileArrowheads]
  repeat' first
    | exact compileReserved_errors ..
    | exact compileStyle_errors ..
    | exact compileArrowheadAttributes_errors ..
    | simp
    | split

theorem compileEdgeField_snd (ext : Externals) (c : compiler) (e : d2graph.Edge)
    (f : Field) :
    (compileEdgeField ext c e f).2 = (compileEdgeField ext {} e f).2 := by
  simp only [compileEdgeField, compileArrowheads]
  split
  · rw [compileReserved_snd]
  · split
    · split
      · rfl
      · rw [compileStyle_snd]
    · split
      · split
        · split
          · rw [compileArrowheadAttributes_snd]
          · rw [compileArrowheadAttributes_snd]
        · rfl
      · rfl

/-! ## Objects, class members and the removal loop -/

theorem obj_setObj_self (g : Graph) (p : Nat) (o : Object) (h : p < g.store.length) :
    (g.setObj p o).obj p = o := by
  simp [Graph.obj, Graph.setObj, List.getD_eq_getElem?_getD, h]

theorem obj_setObj_ne (g : Graph) (p q : Nat) (o : Object) (h : q ≠ p) :
    (g.setObj q o).obj p = g.obj p := by
  simp [Graph.obj, Graph.setObj, List.getD_eq_getElem?_getD, List.getElem?_set_ne h]

theorem specIsMethod_eq (raw : String) : specIsMethod raw = strings.ContainsChar raw '(' := by
  unfold specIsMethod specMemberName strings.ContainsChar
  rcases h : raw.data with _ | ⟨ch, rest⟩
  · simp [h]
  · by_cases hc : ch = '+' ∨ ch = '-' ∨ ch = '#'
    · have : ch ≠ '(' := by rcases hc with h | h | h <;> (subst h; decide)
      simp [hc, List.contains_cons]
      intro h2
      exact absurd h2.symm this
    · simp [hc, h]

theorem compileClassMember_eq (cls : d2target.Class) (f : Object) :
    compileClassMember cls f =
      if specIsMethod f.IDVal then { cls with Methods := cls.Methods ++ [specMethod f] }
      else { cls with Fields := cls.Fields ++ [specField f] } := by
  rw [specIsMethod_eq]
  simp only [compileClassMember, specField, specMethod, specMemberName, specVisibility]
  rcases hcon : strings.ContainsChar f.IDVal '(' with _ | _ <;>
  rcases h : f.IDVal.data with _ | ⟨ch, rest⟩
  · simp
  · by_cases h1 : ch = '+'
    · subst h1; simp
    · by_cases h2 : ch = '-'
      · subst h2; simp
      · by_cases h3 : ch = '#'
        · subst h3; simp
        · simp [h1, h2, h3]
  · simp
  · by_cases h1 : ch = '+'
    · subst h1; simp
    · by_cases h2 : ch = '-'
      · subst h2; simp
      · by_cases h3 : ch = '#'
        · subst h3; simp
        · simp [h1, h2, h3]

theorem removeObject_eq (ch : Nat) (objects : List Nat) (i : Nat) :
    removeObject ch objects i = objects.take i ++ (objects.drop i).filter (fun p => p ≠ ch) := by
  induction objects, i using removeObject.induct ch with
  | case1 objects i h heq ih =>
    rw [removeObject, dif_pos h, if_pos heq, ih]
    have hl : (objects.take i).length = i := by
      simp only [List.length_take]; omega
    rw [List.take_left' hl, List.drop_left' hl, List.drop_eq_getElem_cons h]
    simp [heq]
  | case2 objects i h hne ih =>
    rw [removeObject, dif_pos h, if_neg hne, ih]
    rw [List.drop_eq_getElem_cons h, List.filter_cons_of_pos (by simpa using hne),
      List.take_succ, List.getElem?_eq_getElem h]
    simp only [Option.toList, List.append_assoc, List.singleton_append]
  | case3 objects i h =>
    rw [removeObject, dif_neg h]
    simp at h
    simp [List.take_of_length_le h, List.drop_eq_nil_of_le h]


theorem removeChildren_eq (children objects : List Nat) :
    removeChildren children objects = objects.filter (fun p => p ∉ children) := by
  unfold removeChildren
  induction children generalizing objects with
  | nil => simp
  | cons ch rest ih =>
    rw [List.foldl_cons, ih, removeObject_eq]
    simp only [List.take_zero, List.drop_zero, List.nil_append, List.filter_filter]
    congr 1
    funext p
    simp only [List.mem_cons, not_or, ne_eq, decide_not, Bool.decide_and]
    exact Bool.and_comm _ _

theorem setObj_Objects (g : Graph) (p : Nat) (o : Object) :
    (g.setObj p o).Objects = g.Objects := rfl

theorem foldl_specMember (objs : List Object) (cls : d2target.Class) :
    objs.foldl specMember cls =
      { Fields := cls.Fields ++ (objs.filter (fun f => !specIsMethod f.IDVal)).map specField,
        Methods := cls.Methods ++
          (objs.filter (fun f => specIsMethod f.IDVal)).map specMethod } := by
  induction objs generalizing cls with
  | nil => simp
  | cons f rest ih =>
    rw [List.foldl_cons, ih]
    unfold specMember
    rcases hm : specIsMethod f.IDVal with _ | _ <;> simp [hm]

/-- The class record that `compileClass` leaves on the object. -/
theorem compileClass_Class (g : Graph) (obj : Nat) (h : obj < g.store.length) :
    ((compileClass g obj).obj obj).Class =
      some ((g.obj obj).ChildrenArray.foldl (fun cls ch => specMember cls (g.obj ch)) {}) := by
  unfold compileClass
  rw [obj_setObj_self _ _ _ (by simpa using h)]
  simp only [specMember, compileClassMember_eq]

theorem compileSQLColumn_eq (col : Object) : compileSQLColumn col = specColumn col := by
  unfold compileSQLColumn specColumn
  by_cases h : col.Attributes.Constraint.Value = ""
  · simp [h]
  · simp [h]

theorem foldl_columns (g : Graph) (children : List Nat) (t : d2target.SQLTable) :
    children.foldl (fun (t : d2target.SQLTable) col =>
        { t with Columns := t.Columns ++ [compileSQLColumn (g.obj col)] }) t =
      { Columns := t.Columns ++ children.map (fun col => specColumn (g.obj col)) } := by
  induction children generalizing t with
  | nil => simp
  | cons ch rest ih => rw [List.foldl_cons, ih]; simp [compileSQLColumn_eq]

/-! ## The error accumulator only grows -/

theorem errorf_grows (c : compiler) (msg : String) :
    c.err.Errors <+: (c.errorf msg).err.Errors := by
  simp [compiler.errorf]

theorem foldl_grows {α σ : Type} (step : compiler × σ → α → compiler × σ)
    (h : ∀ s a, s.1.err.Errors <+: (step s a).1.err.Errors) (xs : List α) (s : compiler × σ) :
    s.1.err.Errors <+: (xs.foldl step s).1.err.Errors := by
  induction xs generalizing s with
  | nil => exact List.prefix_refl _
  | cons x xs ih => exact (h s x).trans (ih _)

theorem compileReserved_grows (ext : Externals) (c : compiler) (a : Attributes) (f : Field) :
    c.err.Errors <+: (compileReserved ext c a f).1.err.Errors := by
  rw [compileReserved_errors]; exact List.prefix_append _ _

theorem compileStyle_grows (ext : Externals) (c : compiler) (a : Attributes) (m : Map) :
    c.err.Errors <+: (compileStyle ext c a m).1.err.Errors := by
  rw [compileStyle_errors]; exact List.prefix_append _ _

theorem compileEdgeField_grows (ext : Externals) (c : compiler) (e : d2graph.Edge)
    (f : Field) : c.err.Errors <+: (compileEdgeField ext c e f).1.err.Errors := by
  rw [compileEdgeField_errors]; exact List.prefix_append _ _

theorem compileEdgeMapField_grows (ext : Externals) (c : compiler) (e : d2graph.Edge)
    (f : Field) : c.err.Errors <+: (compileEdgeMapField ext c e f).1.err.Errors := by
  unfold compileEdgeMapField
  split
  · exact errorf_grows _ _
  · exact compileEdgeField_grows ..

theorem compileEdgeMapFields_grows (ext : Externals) (c : compiler) (e : d2graph.Edge)
    (fields : List Field) :
    c.err.Errors <+: (compileEdgeMapFields ext c e fields).1.err.Errors :=
  foldl_grows _ (fun s f => compileEdgeMapField_grows ext s.1 s.2 f) fields (c, e)

theorem compileEdge_grows (ext : Externals) (c : compiler) (g : Graph) (obj : Nat)
    (e : d2ir.Edge) : c.err.Errors <+: (compileEdge ext c g obj e).1.err.Errors := by
  unfold compileEdge
  split
  · exact errorf_grows _ _
  · dsimp only
    split
    · exact compileEdgeMapFields_grows ..
    · exact List.prefix_refl _

theorem compileEdges_grows (ext : Externals) (c : compiler) (g : Graph) (obj : Nat)
    (es : List d2ir.Edge) : c.err.Errors <+: (compileEdges ext c g obj es).1.err.Errors :=
  foldl_grows _ (fun s e => compileEdge_grows ext s.1 s.2 obj e) es (c, g)

theorem compileFieldKeyword_grows (ext : Externals) (c : compiler) (g : Graph) (obj : Nat)
    (f : Field) (r : compiler × Graph) (h : compileFieldKeyword ext c g obj f = some r) :
    c.err.Errors <+: r.1.err.Errors := by
  unfold compileFieldKeyword at h
  split at h
  · cases h; exact compileReserved_grows ..
  · split at h
    · split at h
      · cases h; exact List.prefix_refl _
      · dsimp only at h
        split at h
        · cases h; exact (compileStyle_grows ..).trans (errorf_grows _ _)
        · cases h; exact compileStyle_grows ..
    · cases h

theorem compileMapShape_grows (ext : Externals) (c : compiler) (g : Graph) (obj : Nat)
    (m : Map) : c.err.Errors <+: (compileMapShape ext c g obj m).1.err.Errors := by
  unfold compileMapShape
  split
  · rename_i shape _
    cases hk : compileFieldKeyword ext c g obj shape with
    | none => exact List.prefix_refl _
    | some r => exact compileFieldKeyword_grows ext c g obj shape r hk
  · exact List.prefix_refl _

mutual
theorem compileMap_grows (ext : Externals) (c : compiler) (g : Graph) (obj : Nat) :
    ∀ m : Map, c.err.Errors <+: (compileMap ext c g obj m).1.err.Errors
  | .mk fields edges => by
    rw [compileMap]
    exact ((compileMapShape_grows ..).trans (compileFields_grows ext _ _ obj fields)).trans
      (compileEdges_grows ..)
theorem compileFields_grows (ext : Externals) (c : compiler) (g : Graph) (obj : Nat) :
    ∀ fs : List Field, c.err.Errors <+: (compileFields ext c g obj fs).1.err.Errors
  | [] => by rw [compileFields]
  | f :: fs => by
    rw [compileFields]
    split
    · exact compileFields_grows ext c g obj fs
    · exact (compileField_grows ext c g obj f).trans (compileFields_grows ext _ _ obj fs)
theorem compileField_grows (ext : Externals) (c : compiler) (g : Graph) (obj : Nat) :
    ∀ f : Field, c.err.Errors <+: (compileField ext c g obj f).1.err.Errors
  | .mk name primary composite => by
    rw [compileField]
    split
    · rename_i r hk
      exact compileFieldKeyword_grows ext c g obj _ r hk
    · dsimp only
      split
      · rename_i m _
        exact compileMap_grows ext c _ _ m
      · exact List.prefix_refl _
end

theorem validateKeyContainer_grows (c : compiler) (g : Graph) (obj : Nat) (f : Field) :
    c.err.Errors <+: (validateKeyContainer c g obj f).err.Errors := by
  unfold validateKeyContainer
  dsimp only
  repeat' split
  all_goals first
    | exact List.prefix_refl _
    | exact errorf_grows _ _

theorem validateKeyEqual_grows (c : compiler) (g : Graph) (obj : Nat) (f : Field)
    (c1 : compiler) (h : validateKeyEqual c g obj f = some c1) :
    c.err.Errors <+: c1.err.Errors := by
  unfold validateKeyEqual at h
  dsimp only at h
  repeat' split at h
  all_goals first
    | cases h; exact List.prefix_refl _
    | cases h; exact errorf_grows _ _
    | cases h

theorem validateKeyShape_grows (ext : Externals) (c : compiler) (g : Graph) (obj : Nat)
    (f : Field) : c.err.Errors <+: (validateKeyShape ext c g obj f).err.Errors := by
  unfold validateKeyShape
  dsimp only
  repeat' split
  all_goals first
    | exact List.prefix_refl _
    | exact errorf_grows _ _
    | exact (errorf_grows _ _).trans (errorf_grows _ _)

theorem validateKeyName_grows (ext : Externals) (c : compiler) (g : Graph) (obj : Nat)
    (f : Field) : c.err.Errors <+: (validateKeyName ext c g obj f).err.Errors := by
  unfold validateKeyName
  repeat' split
  all_goals first
    | exact List.prefix_refl _
    | exact errorf_grows _ _
    | exact validateKeyShape_grows ..

theorem validateReservedKey_grows (ext : Externals) (c : compiler) (g : Graph) (obj : Nat)
    (f : Field) (c1 : compiler) (h : validateReservedKey ext c g obj f = some c1) :
    c.err.Errors <+: c1.err.Errors := by
  unfold validateReservedKey at h
  split at h
  · cases h
  · rename_i c2 h2
    cases h
    exact ((validateKeyContainer_grows c g obj f).trans
      (validateKeyEqual_grows _ g obj f c2 h2)).trans (validateKeyName_grows ext _ g obj f)

theorem validateKeyThreeDee_grows (c : compiler) (g : Graph) (obj : Nat) :
    c.err.Errors <+: (validateKeyThreeDee c g obj).err.Errors := by
  unfold validateKeyThreeDee
  dsimp only
  split
  · exact errorf_grows _ _
  · exact List.prefix_refl _

mutual
theorem validateKeys_grows (ext : Externals) (c : compiler) (g : Graph) (obj : Nat) :
    ∀ (m : Map) (c1 : compiler), validateKeys ext c g obj m = some c1 →
      c.err.Errors <+: c1.err.Errors
  | .mk fields _, c1, h => by
    rw [validateKeys] at h
    exact validateFields_grows ext c g obj fields c1 h
theorem validateFields_grows (ext : Externals) (c : compiler) (g : Graph) (obj : Nat) :
    ∀ (fs : List Field) (c1 : compiler), validateFields ext c g obj fs = some c1 →
      c.err.Errors <+: c1.err.Errors
  | [], c1, h => by
    rw [validateFields] at h
    cases h
    exact List.prefix_refl _
  | f :: fs, c1, h => by
    rw [validateFields] at h
    split at h
    · cases h
    · rename_i c2 h2
      exact (validateKey_grows ext c g obj f c2 h2).trans
        (validateFields_grows ext c2 g obj fs c1 h)
theorem validateKey_grows (ext : Externals) (c : compiler) (g : Graph) (obj : Nat) :
    ∀ (f : Field) (c1 : compiler), validateKey ext c g obj f = some c1 →
      c.err.Errors <+: c1.err.Errors
  | .mk name primary composite, c1, h => by
    rw [validateKey] at h
    split at h
    · exact validateReservedKey_grows ext c g obj _ c1 h
    · dsimp only at h
      have h3 := validateKeyThreeDee_grows c g obj
      split at h
      · cases h
        exact h3.trans (errorf_grows _ _)
      · split at h
        · rename_i child m _
          exact h3.trans (validateKeys_grows ext _ g child m c1 h)
        · cases h
          exact h3
end

theorem validateNearObject_grows (ext : Externals) (c : compiler) (g : Graph) (obj : Nat) :
    c.err.Errors <+: (validateNearObject ext c g obj).err.Errors := by
  unfold validateNearObject
  dsimp only
  repeat' split
  all_goals simp [compiler.errorf]

theorem validateNear_grows (ext : Externals) (c : compiler) (g : Graph) :
    c.err.Errors <+: (validateNear ext c g).err.Errors := by
  unfold validateNear
  generalize g.Objects = objs
  induction objs generalizing c with
  | nil => exact List.prefix_refl _
  | cons o rest ih => exact (validateNearObject_grows ext c g o).trans (ih _)

theorem compileLayerRoot_grows (ext : Externals) (c : compiler) (ir : Map)
    (r : compiler × Graph) (h : compileLayerRoot ext c ir = some r) :
    c.err.Errors <+: r.1.err.Errors := by
  unfold compileLayerRoot at h
  dsimp only at h
  split at h
  · cases h
  · rename_i c2 h2
    cases h
    refine List.IsPrefix.trans ?_ (validateNear_grows ..)
    split at h2
    · exact (compileMap_grows ..).trans (validateKeys_grows _ _ _ _ _ c2 h2)
    · cases h2
      exact compileMap_grows ..

mutual
theorem compileLayer_grows (ext : Externals) (c : compiler) :
    ∀ (m : Map) (r : compiler × Graph), compileLayer ext c m = some r →
      c.err.Errors <+: r.1.err.Errors
  | .mk fields edges, r, h => by
    rw [compileLayer] at h
    split at h
    · cases h
    · rename_i s1 h1
      split at h
      · cases h
      · rename_i s2 h2
        split at h
        · cases h
        · rename_i s3 h3
          exact (((compileLayerRoot_grows ext c _ s1 h1).trans
            (compileLayersField_grows ext _ _ fields "layers" s2 h2)).trans
            (compileLayersField_grows ext _ _ fields "scenarios" s3 h3)).trans
            (compileLayersField_grows ext _ _ fields "steps" r h)
theorem compileLayersField_grows (ext : Externals) (c : compiler) (g : Graph) :
    ∀ (fs : List Field) (fieldName : String) (r : compiler × Graph),
      compileLayersField ext c g fs fieldName = some r → c.err.Errors <+: r.1.err.Errors
  | [], _, r, h => by
    rw [compileLayersField] at h
    cases h
    exact List.prefix_refl _
  | .mk name _ (some (.map (.mk layers _))) :: rest, fieldName, r, h => by
    simp only [compileLayersField] at h
    split at h
    · exact compileLayers_grows ext c g layers fieldName r h
    · exact compileLayersField_grows ext c g rest fieldName r h
  | .mk name _ (some .array) :: rest, fieldName, r, h => by
    simp only [compileLayersField] at h
    split at h
    · cases h
      exact List.prefix_refl _
    · exact compileLayersField_grows ext c g rest fieldName r h
  | .mk name _ none :: rest, fieldName, r, h => by
    simp only [compileLayersField] at h
    split at h
    · cases h
      exact List.prefix_refl _
    · exact compileLayersField_grows ext c g rest fieldName r h
theorem compileLayers_grows (ext : Externals) (c : compiler) (g : Graph) :
    ∀ (fs : List Field) (fieldName : String) (r : compiler × Graph),
      compileLayers ext c g fs fieldName = some r → c.err.Errors <+: r.1.err.Errors
  | [], _, r, h => by
    rw [compileLayers] at h
    cases h
    exact List.prefix_refl _
  | .mk name _ (some (.map m)) :: rest, fieldName, r, h => by
    simp only [compileLayers] at h
    split at h
    · cases h
    · rename_i r1 h1
      exact (compileLayer_grows ext c m r1 h1).trans
        (compileLayers_grows ext _ _ rest fieldName r h)
  | .mk name _ (some .array) :: rest, fieldName, r, h => by
    simp only [compileLayers] at h
    exact compileLayers_grows ext c g rest fieldName r h
  | .mk name _ none :: rest, fieldName, r, h => by
    simp only [compileLayers] at h
    exact compileLayers_grows ext c g rest fieldName r h
end


/-! ## The field loop of an edge map -/

theorem compileEdgeMapField_errors (ext : Externals) (c : compiler) (e : d2graph.Edge)
    (f : Field) :
    (compileEdgeMapField ext c e f).1.err.Errors = c.err.Errors ++ edgeMapFieldErrors ext f := by
  unfold compileEdgeMapField edgeMapFieldErrors
  rcases h : ReservedKeywords.contains f.Name with _ | _
  · simp only [Bool.not_false, if_true, Bool.false_eq_true, if_false, errorf_Errors]
  · simp only [Bool.not_true, Bool.false_eq_true, if_false, if_true]
    exact compileEdgeField_errors ext c e f

theorem compileEdgeMapFields_errors (ext : Externals) (c : compiler) (e : d2graph.Edge)
    (fields : List Field) :
    (compileEdgeMapFields ext c e fields).1.err.Errors =
      c.err.Errors ++ fields.flatMap (edgeMapFieldErrors ext) := by
  unfold compileEdgeMapFields
  induction fields generalizing c e with
  | nil => simp
  | cons f rest ih =>
    rw [List.foldl_cons, ih, compileEdgeMapField_errors]
    simp [List.append_assoc]

theorem compileEdgeMapFields_filter_aux (ext : Externals) (fields : List Field) :
    ∀ (s s2 : compiler × d2graph.Edge), s.2 = s2.2 →
      (fields.foldl (fun s f => compileEdgeMapField ext s.1 s.2 f) s).2 =
        ((fields.filter (fun f => ReservedKeywords.contains f.Name)).foldl
          (fun s f => compileEdgeMapField ext s.1 s.2 f) s2).2 := by
  induction fields with
  | nil => intro s s2 h; exact h
  | cons f rest ih =>
    intro s s2 hs
    rcases h : ReservedKeywords.contains f.Name with _ | _
    · simp only [List.filter_cons, h, Bool.false_eq_true, if_false, List.foldl_cons]
      apply ih
      simp only [compileEdgeMapField, h, Bool.not_false, if_true]
      exact hs
    · simp only [List.filter_cons, h, if_true, List.foldl_cons]
      apply ih
      simp only [compileEdgeMapField, h, Bool.not_true, Bool.false_eq_true, if_false]
      rw [compileEdgeField_snd ext s.1, compileEdgeField_snd ext s2.1, hs]

theorem compileEdgeMapFields_filter (ext : Externals) (c c2 : compiler) (e : d2graph.Edge)
    (fields : List Field) :
    (compileEdgeMapFields ext c e fields).2 =
      (compileEdgeMapFields ext c2 e
        (fields.filter (fun f => ReservedKeywords.contains f.Name))).2 :=
  compileEdgeMapFields_filter_aux ext fields (c, e) (c2, e) rfl

theorem flatMap_edgeMapFieldErrors_filter (ext : Externals) (fields : List Field) :
    (fields.filter (fun f => ReservedKeywords.contains f.Name)).flatMap (edgeMapFieldErrors ext) =
      (fields.filter (fun f => ReservedKeywords.contains f.Name)).flatMap
        (fun f => (compileEdgeField ext {} default f).1.err.Errors) := by
  induction fields with
  | nil => rfl
  | cons f rest ih =>
    rcases h : ReservedKeywords.contains f.Name with _ | _
    · simp only [List.filter_cons, h, Bool.false_eq_true, if_false]
      exact ih
    · simp only [List.filter_cons, h, if_true, List.flatMap_cons, ih]
      simp only [edgeMapFieldErrors, h, if_true]


/-! ## Compiling and validating a single leaf object -/

theorem compileReserved_shape (ext : Externals) (c : compiler) (a : Attributes) (s : String)
    (hs : ext.IsShape s = true) (hc : s ≠ d2target.ShapeCode) :
    compileReserved ext c a (scalarField "shape" s) = (c, { a with Shape := { Value := s } }) := by
  simp [compileReserved, scalarField, d2ir.Field.Primary, d2ir.Field.Name,
    d2ast.Scalar.ScalarString, hs, hc]

theorem compileReserved_width (ext : Externals) (c : compiler) (a : Attributes) (w : String)
    (n : Int) (hw : strconv.Atoi w = .ok n) :
    compileReserved ext c a (scalarField "width" w) =
      (c, { a with Width := some { Value := w } }) := by
  simp [compileReserved, scalarField, d2ir.Field.Primary, d2ir.Field.Name,
    d2ast.Scalar.ScalarString, hw]

theorem compileReserved_height (ext : Externals) (c : compiler) (a : Attributes) (h : String)
    (n : Int) (hh : strconv.Atoi h = .ok n) :
    compileReserved ext c a (scalarField "height" h) =
      (c, { a with Height := some { Value := h } }) := by
  simp [compileReserved, scalarField, d2ir.Field.Primary, d2ir.Field.Name,
    d2ast.Scalar.ScalarString, hh]

theorem compileMap_leaf (ext : Externals) (c : compiler) (fs : List Field) :
    compileMap ext c d2graph.NewGraph 0 (leafIR fs) =
      ((compileMap ext c leafGraph 1 (.mk fs [])).1,
        compileShape (compileMap ext c leafGraph 1 (.mk fs [])).2 0) := by
  rfl

theorem compileLayer_leaf (ext : Externals) (c : compiler) (fs : List Field) :
    compileLayer ext c (leafIR fs) = compileLayerRoot ext c (leafIR fs) := by
  simp only [compileLayer, leafIR, mapField]
  cases compileLayerRoot ext c (.mk [.mk "a" none (some (.map (.mk fs [])))] []) with
  | none => rfl
  | some r => rfl

/-- When the second switch returns, so does the reserved-keyword branch. -/
theorem validateReservedKey_some (ext : Externals) (c : compiler) (g : Graph) (obj : Nat)
    (f : Field) (c1 : compiler)
    (h : validateKeyEqual (validateKeyContainer c g obj f) g obj f = some c1) :
    validateReservedKey ext c g obj f = some (validateKeyName ext c1 g obj f) := by
  rw [validateReservedKey, h]

theorem validateKey_reserved (ext : Externals) (c : compiler) (g : Graph) (obj : Nat) :
    ∀ (f : Field), SimpleReservedKeywords.contains (strings.ToLower f.Name) = true →
      validateKey ext c g obj f = validateReservedKey ext c g obj f
  | .mk name p k, h => by
    have h2 : SimpleReservedKeywords.contains (strings.ToLower name) = true := h
    rw [validateKey, if_pos h2]

/-- Validation of the IR of a single object `a` descends into the map of `a`, when the
root is a plain rectangle whose child `a` is the object at pointer 1. -/
theorem validateKeys_leaf (ext : Externals) (c : compiler) (g : Graph) (fs : List Field)
    (h3 : validateKeyThreeDee c g 0 = c)
    (hs : ((g.obj 0).Attributes.Shape.Value == d2target.ShapeImage) = false)
    (hc : g.HasChild 0 ["a"] = some 1) :
    validateKeys ext c g 0 (leafIR fs) = validateKeys ext c g 1 (.mk fs []) := by
  have hk : validateKey ext c g 0 (.mk "a" none (some (.map (.mk fs [])))) =
      validateKeys ext c g 1 (.mk fs []) := by
    have hres : SimpleReservedKeywords.contains (strings.ToLower "a") = false := by decide
    rw [validateKey]
    simp only [hres, Bool.false_eq_true, if_false, h3, hs, hc]
  rw [leafIR, mapField, validateKeys, validateFields, hk]
  cases validateKeys ext c g 1 (.mk fs []) with
  | none => rfl
  | some c1 => simp only [validateFields]

theorem validateFields_cons (ext : Externals) (c : compiler) (g : Graph) (obj : Nat)
    (f : Field) (fs : List Field) (c1 : compiler) (h : validateKey ext c g obj f = some c1) :
    validateFields ext c g obj (f :: fs) = validateFields ext c1 g obj fs := by
  rw [validateFields, h]

theorem compileMap_sized (ext : Externals) (c : compiler) (g : Graph) (obj : Nat) (s w h : String) :
    compileMap ext c g obj (.mk (sizedFields s w h) []) =
      (let r1 := compileReserved ext c (g.obj obj).Attributes (scalarField "shape" s)
       let g1 := g.setAttributes obj r1.2
       let r2 := compileReserved ext r1.1 (g1.obj obj).Attributes (scalarField "width" w)
       let g2 := g1.setAttributes obj r2.2
       let r3 := compileReserved ext r2.1 (g2.obj obj).Attributes (scalarField "height" h)
       (r3.1, compileShape (g2.setAttributes obj r3.2) obj)) := by
  rfl

theorem compileMap_sized_leaf (ext : Externals) (c : compiler) (s w h : String) (n m : Int)
    (hs : ext.IsShape s = true) (hcs : s = "circle" ∨ s = "square")
    (hw : strconv.Atoi w = .ok n) (hh : strconv.Atoi h = .ok m) :
    compileMap ext c d2graph.NewGraph 0 (leafIR (sizedFields s w h)) = (c, sizedGraph s w h) := by
  rw [compileMap_leaf, compileMap_sized]
  have hc : s ≠ d2target.ShapeCode := by rcases hcs with rfl | rfl <;> decide
  simp only [compileReserved_shape ext _ _ s hs hc, compileReserved_width ext _ _ w n hw,
    compileReserved_height ext _ _ h m hh]
  rcases hcs with rfl | rfl <;> rfl


theorem validateKeyContainer_leaf (c : compiler) (g : Graph) (obj : Nat) (f : Field)
    (h : (g.obj obj).Children = []) : validateKeyContainer c g obj f = c := by
  simp [validateKeyContainer, h]

theorem validateKeyEqual_eq (c : compiler) (g : Graph) (obj : Nat) (f : Field) (w h : String)
    (hs : (g.obj obj).Attributes.Shape.Value = d2target.ShapeCircle ∨
      (g.obj obj).Attributes.Shape.Value = d2target.ShapeSquare)
    (hw : (g.obj obj).Attributes.Width = some { Value := w })
    (hh : (g.obj obj).Attributes.Height = some { Value := h })
    (hf : reserved f = "width" ∨ reserved f = "height") :
    validateKeyEqual c g obj f =
      some (if w = h then c
        else c.errorf ("width and height must be equal for " ++
          (g.obj obj).Attributes.Shape.Value ++ " shapes")) := by
  have hs2 : ((g.obj obj).Attributes.Shape.Value == d2target.ShapeCircle ||
      (g.obj obj).Attributes.Shape.Value == d2target.ShapeSquare) = true := by
    rcases hs with h1 | h1 <;> simp [h1]
  have hf2 : ((reserved f == "width" && (some ({ Value := h } : d2graph.Scalar)).isSome) ||
      (reserved f == "height" && (some ({ Value := w } : d2graph.Scalar)).isSome)) = true := by
    rcases hf with h1 | h1 <;> simp [h1]
  simp only [validateKeyEqual, hs2, hw, hh, hf2, if_true]
  by_cases hwh : w = h
  · simp [hwh]
  · simp [hwh]


theorem validateKeyName_width (ext : Externals) (c : compiler) (g : Graph) (obj : Nat)
    (f : Field) (hf : f.Name = "width")
    (hs : (g.obj obj).Attributes.Shape.Value ≠ d2target.ShapeImage) :
    validateKeyName ext c g obj f = c.errorf "width is only applicable to image shapes." := by
  simp [validateKeyName, hf, hs]

theorem validateKeyName_height (ext : Externals) (c : compiler) (g : Graph) (obj : Nat)
    (f : Field) (hf : f.Name = "height")
    (hs : (g.obj obj).Attributes.Shape.Value ≠ d2target.ShapeImage) :
    validateKeyName ext c g obj f = c.errorf "height is only applicable to image shapes." := by
  simp [validateKeyName, hf, hs]

theorem validateKeyShape_image (ext : Externals) (c : compiler) (g : Graph) (obj : Nat)
    (f : Field) (hs : (g.obj obj).Attributes.Shape.Value = d2target.ShapeImage)
    (hi : ext.IsShape d2target.ShapeImage = true) :
    validateKeyShape ext c g obj f =
      if (g.obj obj).Attributes.Icon.isNone then
        c.errorf "image shape must include an \"icon\" field"
      else c := by
  have h1 : (d2target.ShapeImage == d2target.ShapeSQLTable ||
      d2target.ShapeImage == d2target.ShapeClass) = false := by decide
  simp only [validateKeyShape, hs, h1, hi, beq_self_eq_true, if_true, Bool.not_true,
    Bool.false_and, Bool.false_eq_true, if_false]

theorem validateKeyShape_plain (ext : Externals) (c : compiler) (g : Graph) (obj : Nat)
    (f : Field) (hf : f.Name = "shape")
    (hs : (g.obj obj).Attributes.Shape.Value ≠ d2target.ShapeImage)
    (hi : ext.IsShape (g.obj obj).Attributes.Shape.Value = true) :
    validateKeyShape ext c g obj f = c := by
  simp [validateKeyShape, hf, hs, hi]

theorem validateKeyName_shape (ext : Externals) (c : compiler) (g : Graph) (obj : Nat)
    (f : Field) (hf : f.Name = "shape") :
    validateKeyName ext c g obj f = validateKeyShape ext c g obj f := by
  simp [validateKeyName, hf]

theorem validateKeyName_other (ext : Externals) (c : compiler) (g : Graph) (obj : Nat)
    (f : Field) (h1 : f.Name ≠ "width") (h2 : f.Name ≠ "height") (h3 : f.Name ≠ "shape") :
    validateKeyName ext c g obj f = c := by
  unfold validateKeyName
  split
  · rename_i h; exact absurd h h1
  · rename_i h; exact absurd h h2
  · rename_i h; exact absurd h h3
  · rfl

theorem validateKeys_sized (ext : Externals) (c : compiler) (s w h : String)
    (c1 c2 c3 : compiler)
    (h1 : validateReservedKey ext c (sizedGraph s w h) 1 (scalarField "shape" s) = some c1)
    (h2 : validateReservedKey ext c1 (sizedGraph s w h) 1 (scalarField "width" w) = some c2)
    (h3 : validateReservedKey ext c2 (sizedGraph s w h) 1 (scalarField "height" h) = some c3) :
    validateKeys ext c (sizedGraph s w h) 0 (leafIR (sizedFields s w h)) = some c3 := by
  have r1 : SimpleReservedKeywords.contains (strings.ToLower "shape") = true := by decide
  have r2 : SimpleReservedKeywords.contains (strings.ToLower "width") = true := by decide
  have r3 : SimpleReservedKeywords.contains (strings.ToLower "height") = true := by decide
  rw [validateKeys_leaf ext c (sizedGraph s w h) (sizedFields s w h) rfl rfl rfl, validateKeys,
    sizedFields,
    validateFields_cons ext c _ 1 _ _ c1
      ((validateKey_reserved ext c _ 1 (scalarField "shape" s) r1).trans h1),
    validateFields_cons ext c1 _ 1 _ _ c2
      ((validateKey_reserved ext c1 _ 1 (scalarField "width" w) r2).trans h2),
    validateFields_cons ext c2 _ 1 _ _ c3
      ((validateKey_reserved ext c2 _ 1 (scalarField "height" h) r3).trans h3),
    validateFields]


theorem reserved_scalarField (name value : String) :
    reserved (scalarField name value) = strings.ToLower name := rfl

theorem validateKeyEqual_other (c : compiler) (g : Graph) (obj : Nat) (f : Field)
    (h1 : reserved f ≠ "width") (h2 : reserved f ≠ "height") :
    validateKeyEqual c g obj f = some c := by
  simp [validateKeyEqual, h1, h2]

theorem validateNear_sized (ext : Externals) (c : compiler) (s w h : String) :
    validateNear ext c (sizedGraph s w h) = c := rfl

theorem compileLayer_sized (ext : Externals) (s w h : String) (n m : Int)
    (hs : ext.IsShape s = true) (hcs : s = "circle" ∨ s = "square")
    (hw : strconv.Atoi w = .ok n) (hh : strconv.Atoi h = .ok m) :
    compileLayer ext {} (leafIR (sizedFields s w h)) =
      some ({ err := { Errors :=
          if w = h then [errWidthImage, errHeightImage]
          else [errEqual s, errWidthImage, errEqual s, errHeightImage] } },
        sizedGraph s w h) := by
  have hshape : ((sizedGraph s w h).obj 1).Attributes.Shape.Value = s := rfl
  have hchildren : ((sizedGraph s w h).obj 1).Children = [] := rfl
  have hwidth : ((sizedGraph s w h).obj 1).Attributes.Width = some { Value := w } := rfl
  have hheight : ((sizedGraph s w h).obj 1).Attributes.Height = some { Value := h } := rfl
  have hcs2 : ((sizedGraph s w h).obj 1).Attributes.Shape.Value = d2target.ShapeCircle ∨
      ((sizedGraph s w h).obj 1).Attributes.Shape.Value = d2target.ShapeSquare := hcs
  have hni : ((sizedGraph s w h).obj 1).Attributes.Shape.Value ≠ d2target.ShapeImage := by
    rw [hshape]; rcases hcs with rfl | rfl <;> decide
  have hroot : (sizedGraph s w h).Root = 0 := rfl
  have e1 : ∀ c, validateReservedKey ext c (sizedGraph s w h) 1 (scalarField "shape" s) =
      some c := by
    intro c
    rw [validateReservedKey_some ext c _ 1 _ _
      (validateKeyEqual_other _ _ _ (scalarField "shape" s)
        (by rw [reserved_scalarField]; decide) (by rw [reserved_scalarField]; decide)),
      validateKeyContainer_leaf _ _ _ _ hchildren,
      validateKeyName_shape _ _ _ _ (scalarField "shape" s) rfl,
      validateKeyShape_plain _ _ _ _ (scalarField "shape" s) rfl hni (by rw [hshape]; exact hs)]
  have e2 : ∀ c, validateReservedKey ext c (sizedGraph s w h) 1 (scalarField "width" w) =
      some ((if w = h then c
        else c.errorf ("width and height must be equal for " ++ s ++ " shapes")).errorf
        "width is only applicable to image shapes.") := by
    intro c
    rw [validateReservedKey_some ext c _ 1 _ _
      (validateKeyEqual_eq _ _ _ (scalarField "width" w) w h hcs2 hwidth hheight
        (Or.inl (by rw [reserved_scalarField]; decide))),
      validateKeyContainer_leaf _ _ _ _ hchildren,
      validateKeyName_width _ _ _ _ (scalarField "width" w) rfl hni, hshape]
  have e3 : ∀ c, validateReservedKey ext c (sizedGraph s w h) 1 (scalarField "height" h) =
      some ((if w = h then c
        else c.errorf ("width and height must be equal for " ++ s ++ " shapes")).errorf
        "height is only applicable to image shapes.") := by
    intro c
    rw [validateReservedKey_some ext c _ 1 _ _
      (validateKeyEqual_eq _ _ _ (scalarField "height" h) w h hcs2 hwidth hheight
        (Or.inr (by rw [reserved_scalarField]; decide))),
      validateKeyContainer_leaf _ _ _ _ hchildren,
      validateKeyName_height _ _ _ _ (scalarField "height" h) rfl hni, hshape]
  rw [compileLayer_leaf, compileLayerRoot]
  simp only [d2ir.Map.CopyRoot]
  rw [show d2graph.NewGraph.Root = 0 from rfl, compileMap_sized_leaf ext {} s w h n m hs hcs hw hh]
  simp only [hroot, validateNear_sized,
    validateKeys_sized ext _ s w h _ _ _ (e1 _) (e2 _) (e3 _)]
  by_cases hwh : w = h
  · simp [hwh, compiler.errorf, errWidthImage, errHeightImage]
  · simp [hwh, compiler.errorf, errWidthImage, errHeightImage, errEqual]


/-! ## An image-shaped leaf object -/

theorem compileReserved_icon (ext : Externals) (c : compiler) (a : Attributes) (u url : String)
    (hu : ext.urlParse u = .ok url) :
    compileReserved ext c a (scalarField "icon" u) = (c, { a with Icon := some url }) := by
  simp [compileReserved, scalarField, d2ir.Field.Primary, d2ir.Field.Name,
    d2ast.Scalar.ScalarString, hu]

theorem compileMap_image_none (ext : Externals) (c : compiler) (g : Graph) (obj : Nat) :
    compileMap ext c g obj (.mk (imageFields none) []) =
      (let r1 := compileReserved ext c (g.obj obj).Attributes (scalarField "shape" "image")
       (r1.1, compileShape (g.setAttributes obj r1.2) obj)) := by
  rfl

theorem compileMap_image_some (ext : Externals) (c : compiler) (g : Graph) (obj : Nat)
    (u : String) :
    compileMap ext c g obj (.mk (imageFields (some u)) []) =
      (let r1 := compileReserved ext c (g.obj obj).Attributes (scalarField "shape" "image")
       let g1 := g.setAttributes obj r1.2
       let r2 := compileReserved ext r1.1 (g1.obj obj).Attributes (scalarField "icon" u)
       (r2.1, compileShape (g1.setAttributes obj r2.2) obj)) := by
  rfl

theorem compileMap_image_leaf_none (ext : Externals) (c : compiler)
    (hi : ext.IsShape d2target.ShapeImage = true) :
    compileMap ext c d2graph.NewGraph 0 (leafIR (imageFields none)) = (c, imageGraph none) := by
  rw [compileMap_leaf, compileMap_image_none]
  simp only [compileReserved_shape ext _ _ "image" hi (by decide)]
  rfl

theorem compileMap_image_leaf_some (ext : Externals) (c : compiler) (u url : String)
    (hi : ext.IsShape d2target.ShapeImage = true) (hu : ext.urlParse u = .ok url) :
    compileMap ext c d2graph.NewGraph 0 (leafIR (imageFields (some u))) =
      (c, imageGraph (some url)) := by
  rw [compileMap_leaf, compileMap_image_some]
  simp only [compileReserved_shape ext _ _ "image" hi (by decide),
    compileReserved_icon ext _ _ u url hu]
  rfl

theorem validateKeys_image_none (ext : Externals) (c : compiler) (icon : Option String) :
    validateKeys ext c (imageGraph icon) 0 (leafIR (imageFields none)) =
      validateKeys ext c (imageGraph icon) 1 (.mk (imageFields none) []) :=
  validateKeys_leaf ext c (imageGraph icon) (imageFields none) rfl rfl rfl

theorem validateKeys_image_some (ext : Externals) (c : compiler) (icon : Option String)
    (u : String) :
    validateKeys ext c (imageGraph icon) 0 (leafIR (imageFields (some u))) =
      validateKeys ext c (imageGraph icon) 1 (.mk (imageFields (some u)) []) :=
  validateKeys_leaf ext c (imageGraph icon) (imageFields (some u)) rfl rfl rfl

theorem validateNear_image (ext : Externals) (c : compiler) (icon : Option String) :
    validateNear ext c (imageGraph icon) = c := rfl

/-- The reserved-keyword branch of `validateKey` on an image-shaped object, for a field
that is neither `width` nor `height`. -/
theorem validateReservedKey_image (ext : Externals) (c : compiler) (g : Graph) (obj : Nat)
    (f : Field) (hi : ext.IsShape d2target.ShapeImage = true)
    (hs : (g.obj obj).Attributes.Shape.Value = d2target.ShapeImage)
    (h1 : f.Name ≠ "width") (h2 : f.Name ≠ "height") :
    validateReservedKey ext c g obj f =
      some (if f.Name = "shape" ∧ (g.obj obj).Attributes.Icon.isNone then
        c.errorf errIcon.Message
      else c) := by
  have hc : validateKeyContainer c g obj f = c := by
    simp [validateKeyContainer, h1, h2]
  have he : validateKeyEqual c g obj f = some c := by
    have : (d2target.ShapeImage == d2target.ShapeCircle ||
      d2target.ShapeImage == d2target.ShapeSquare) = false := by decide
    simp only [validateKeyEqual, hs, this, Bool.false_eq_true, if_false]
  rw [validateReservedKey_some ext c g obj f c (by rw [hc]; exact he)]
  by_cases h3 : f.Name = "shape"
  · rw [validateKeyName_shape _ _ _ _ _ h3, validateKeyShape_image _ _ _ _ _ hs hi]
    simp [h3, errIcon]
  · rw [validateKeyName_other _ _ _ _ _ h1 h2 h3]
    simp [h3]

theorem validateFields_image (ext : Externals) (g : Graph) (obj : Nat)
    (hi : ext.IsShape d2target.ShapeImage = true)
    (hs : (g.obj obj).Attributes.Shape.Value = d2target.ShapeImage)
    (fs : List Field) (c : compiler)
    (h : ∀ f ∈ fs, SimpleReservedKeywords.contains (strings.ToLower f.Name) = true ∧
        f.Name ≠ "width" ∧ f.Name ≠ "height") :
    (validateFields ext c g obj fs).map (fun c1 => c1.err.Errors) =
      some (c.err.Errors ++
        if (g.obj obj).Attributes.Icon.isNone then
          List.replicate (fs.filter (fun f => f.Name == "shape")).length errIcon
        else []) := by
  induction fs generalizing c with
  | nil => simp [validateFields]
  | cons f fs ih =>
    have hf := h f (List.mem_cons_self _ _)
    rw [validateFields_cons ext c g obj f fs _
        ((validateKey_reserved ext c g obj f hf.1).trans
          (validateReservedKey_image ext c g obj f hi hs hf.2.1 hf.2.2)),
      ih _ (fun f hf => h f (List.mem_cons_of_mem _ hf))]
    by_cases hn : f.Name = "shape" <;> by_cases hic : (g.obj obj).Attributes.Icon.isNone = true <;>
      simp [hn, hic, errorf_Errors, List.filter_cons, List.replicate_succ]

theorem compiler_eq (c : compiler) (errs : List d2ast.Error) (h : c.err.Errors = errs) :
    c = { err := { Errors := errs } } := by
  cases c with
  | mk err => cases err with
    | mk Errors => simp only at h; rw [h]

theorem Name_scalarField (name value : String) : (scalarField name value).Name = name := rfl

theorem imageFields_reserved (icon : Option String) :
    ∀ f ∈ imageFields icon, SimpleReservedKeywords.contains (strings.ToLower f.Name) = true ∧
      f.Name ≠ "width" ∧ f.Name ≠ "height" := by
  intro f hf
  cases icon with
  | none =>
    simp only [imageFields, List.mem_singleton] at hf
    subst hf
    simp only [Name_scalarField]
    decide
  | some u =>
    simp only [imageFields, List.mem_cons, List.mem_singleton, List.not_mem_nil, or_false] at hf
    rcases hf with rfl | rfl <;> (simp only [Name_scalarField]; decide)

theorem imageFields_shape (icon : Option String) :
    ((imageFields icon).filter (fun f => f.Name == "shape")).length = 1 := by
  cases icon <;> rfl

theorem map_Errors_eq (v : Option compiler) (errs : List d2ast.Error)
    (h : v.map (fun c1 => c1.err.Errors) = some errs) :
    v = some { err := { Errors := errs } } := by
  cases v with
  | none => cases h
  | some c1 =>
    simp only [Option.map_some', Option.some.injEq] at h
    rw [compiler_eq c1 errs h]

theorem validateKeys_image (ext : Externals) (hi : ext.IsShape d2target.ShapeImage = true)
    (icon given : Option String) :
    validateKeys ext {} (imageGraph given) 1 (.mk (imageFields icon) []) =
      some { err := { Errors := if given.isNone then [errIcon] else [] } } := by
  apply map_Errors_eq
  rw [validateKeys, validateFields_image ext (imageGraph given) 1 hi rfl _ _
    (imageFields_reserved icon), imageFields_shape]
  rfl

theorem compileLayer_image_none (ext : Externals)
    (hi : ext.IsShape d2target.ShapeImage = true) :
    compileLayer ext {} (leafIR (imageFields none)) =
      some ({ err := { Errors := [errIcon] } }, imageGraph none) := by
  rw [compileLayer_leaf, compileLayerRoot]
  simp only [d2ir.Map.CopyRoot]
  rw [show d2graph.NewGraph.Root = 0 from rfl, compileMap_image_leaf_none ext {} hi]
  have hroot : (imageGraph none).Root = 0 := rfl
  simp only [hroot, validateNear_image, validateKeys_image_none, validateKeys_image ext hi]
  rfl

theorem compileLayer_image_some (ext : Externals) (u url : String)
    (hi : ext.IsShape d2target.ShapeImage = true) (hu : ext.urlParse u = .ok url) :
    compileLayer ext {} (leafIR (imageFields (some u))) = some ({}, imageGraph (some url)) := by
  rw [compileLayer_leaf, compileLayerRoot]
  simp only [d2ir.Map.CopyRoot]
  rw [show d2graph.NewGraph.Root = 0 from rfl, compileMap_image_leaf_some ext {} u url hi hu]
  have hroot : (imageGraph (some url)).Root = 0 := rfl
  simp only [hroot, validateNear_image, validateKeys_image_some, validateKeys_image ext hi]
  rfl


/-! ## The object store: pointers, frames and what a call keeps -/

theorem obj_default_of_le (g : Graph) (q : Nat) (h : g.store.length ≤ q) :
    g.obj q = default := by
  simp [Graph.obj, List.getD_eq_getElem?_getD, List.getElem?_eq_none h]

theorem length_setObj (g : Graph) (p : Nat) (o : Object) :
    (g.setObj p o).store.length = g.store.length := by
  simp [Graph.setObj]

theorem obj_setObj (g : Graph) (p q : Nat) (o : Object) :
    (g.setObj p o).obj q = if q = p ∧ p < g.store.length then o else g.obj q := by
  by_cases h : q = p
  · subst h
    by_cases hl : q < g.store.length
    · simp [hl, obj_setObj_self g q o hl]
    · simp only [hl, and_false, if_false]
      rw [obj_default_of_le _ _ (by rw [length_setObj]; omega),
        obj_default_of_le _ _ (by omega)]
  · simp only [h, false_and, if_false]
    exact obj_setObj_ne g q p o (fun h2 => h h2.symm)

theorem length_append (g : Graph) (o : Object) :
    (g.append o).store.length = g.store.length + 1 := by
  simp [Graph.append]

theorem obj_append (g : Graph) (o : Object) (q : Nat) :
    (g.append o).obj q = if q = g.store.length then o else g.obj q := by
  simp only [Graph.append, Graph.obj, List.getD_eq_getElem?_getD]
  by_cases h2 : q = g.store.length
  · subst h2; simp
  · simp only [h2, if_false]
    by_cases h3 : q < g.store.length
    · rw [List.getElem?_append_left h3]
    · rw [List.getElem?_eq_none (by simp; omega), List.getElem?_eq_none (by omega)]

theorem length_newObject (g : Graph) (parent : Nat) (id : String) :
    (g.newObject parent id).1.store.length = g.store.length + 1 := by
  simp [Graph.newObject, length_setObj, length_append]

theorem snd_newObject (g : Graph) (parent : Nat) (id : String) :
    (g.newObject parent id).2 = g.store.length := rfl

theorem obj_newObject (g : Graph) (parent : Nat) (id : String) (q : Nat)
    (hp : parent < g.store.length) :
    (g.newObject parent id).1.obj q =
      if q = parent then
        { g.obj parent with
          Children := (g.obj parent).Children ++ [(id, g.store.length)],
          ChildrenArray := (g.obj parent).ChildrenArray ++ [g.store.length] }
      else if q = g.store.length then g.newChild parent id
      else g.obj q := by
  simp only [Graph.newObject, obj_setObj, length_append, obj_append]
  by_cases h1 : q = parent
  · simp [h1, Nat.lt_succ_of_lt hp]
  · simp [h1]

theorem Keeps.refl (g : Graph) : Keeps g g := ⟨Nat.le_refl _, fun _ _ => ⟨rfl, rfl⟩⟩

theorem Keeps.trans {g1 g2 g3 : Graph} (h1 : Keeps g1 g2) (h2 : Keeps g2 g3) : Keeps g1 g3 :=
  ⟨Nat.le_trans h1.1 h2.1, fun p hp =>
    ⟨((h2.2 p (Nat.lt_of_lt_of_le hp h1.1)).1).trans (h1.2 p hp).1,
     ((h2.2 p (Nat.lt_of_lt_of_le hp h1.1)).2).trans (h1.2 p hp).2⟩⟩

theorem keeps_setAttributes (g : Graph) (p : Nat) (a : Attributes) :
    Keeps g (g.setAttributes p a) := by
  refine ⟨by simp [Graph.setAttributes, length_setObj], fun q _ => ?_⟩
  simp only [Graph.setAttributes, obj_setObj]
  split
  · rename_i h; rw [h.1]; exact ⟨rfl, rfl⟩
  · exact ⟨rfl, rfl⟩

theorem keeps_newObject (g : Graph) (parent : Nat) (id : String) :
    Keeps g (g.newObject parent id).1 := by
  refine ⟨by rw [length_newObject]; omega, fun q hq => ?_⟩
  simp only [Graph.newObject, obj_setObj, obj_append]
  split
  · rename_i h; rw [h.1]; exact ⟨rfl, rfl⟩
  · rw [if_neg (by omega)]; exact ⟨rfl, rfl⟩

theorem keeps_EnsureChild (path : List String) :
    ∀ (g : Graph) (q : Nat), Keeps g (g.EnsureChild q path).1 := by
  induction path with
  | nil => intro g q; exact Keeps.refl g
  | cons id ids ih =>
    intro g q
    rw [Graph.EnsureChild]
    split
    · exact ih g _
    · exact (keeps_newObject g q id).trans (ih _ _)

theorem keeps_setEdge (g : Graph) (i : Nat) (e : d2graph.Edge) : Keeps g (g.setEdge i e) :=
  Keeps.refl g

theorem keeps_compileEdge (ext : Externals) (c : compiler) (g : Graph) (obj : Nat)
    (e : d2ir.Edge) : Keeps g (compileEdge ext c g obj e).2 := by
  unfold compileEdge d2graph.Graph.Connect
  split
  · exact Keeps.refl g
  · rename_i g1 ptr heq
    split at heq
    · cases heq
    · simp only [Except.ok.injEq, Prod.mk.injEq] at heq
      rw [← heq.1]
      exact (keeps_EnsureChild _ g obj).trans (keeps_EnsureChild _ _ obj)

theorem keeps_compileEdges (ext : Externals) (obj : Nat) (es : List d2ir.Edge) :
    ∀ (c : compiler) (g : Graph), Keeps g (compileEdges ext c g obj es).2 := by
  unfold compileEdges
  induction es with
  | nil => intro c g; exact Keeps.refl g
  | cons e es ih =>
    intro c g
    rw [List.foldl_cons]
    exact (keeps_compileEdge ext c g obj e).trans (ih _ _)


/-! ## The frame of a `compileMap` call -/

theorem both_default : both (default : Object) = false := rfl

theorem frame_init (g : Graph) (obj : Nat) (hc : (g.obj obj).Children = []) :
    Frame g.store.length obj g g where
  len := Nat.le_refl _
  old := fun _ _ _ => rfl
  kids := by
    intro q hq kv hkv
    rcases hq with rfl | hq
    · rw [hc] at hkv; cases hkv
    · rw [obj_default_of_le g q hq] at hkv; cases hkv
  fresh := by
    intro q hq
    rw [obj_default_of_le g q hq]; rfl

theorem frame_setObj {L obj : Nat} {g0 g : Graph} (hf : Frame L obj g0 g) (q : Nat) (o : Object)
    (hq : q = obj ∨ L ≤ q)
    (hk : ∀ kv ∈ o.Children, L ≤ kv.2 ∧ kv.2 < g.store.length)
    (hb : L ≤ q → both o = false) : Frame L obj g0 (g.setObj q o) where
  len := by rw [length_setObj]; exact hf.len
  old := by
    intro p hp hne
    rw [obj_setObj, if_neg, hf.old p hp hne]
    rintro ⟨h1, _⟩
    rcases hq with h | h <;> omega
  kids := by
    intro p hp kv hkv
    rw [length_setObj]
    rw [obj_setObj] at hkv
    split at hkv
    · exact hk kv hkv
    · exact hf.kids p hp kv hkv
  fresh := by
    intro p hp
    rw [obj_setObj]
    split
    · rename_i h; exact hb (h.1 ▸ hp)
    · exact hf.fresh p hp

theorem frame_setAttributes {L obj : Nat} {g0 g : Graph} (hf : Frame L obj g0 g) (q : Nat)
    (a : Attributes) (hq : q = obj ∨ L ≤ q) : Frame L obj g0 (g.setAttributes q a) :=
  frame_setObj hf q _ hq (hf.kids q hq) (fun h => hf.fresh q h)

theorem frame_append {L obj : Nat} {g0 g : Graph} (hf : Frame L obj g0 g) (o : Object)
    (hc : o.Children = []) (hb : both o = false) : Frame L obj g0 (g.append o) where
  len := by rw [length_append]; exact Nat.le_succ_of_le hf.len
  old := by
    intro p hp hne
    rw [obj_append, if_neg (by have := hf.len; omega), hf.old p hp hne]
  kids := by
    intro p hp kv hkv
    rw [length_append]
    rw [obj_append] at hkv
    split at hkv
    · rw [hc] at hkv; cases hkv
    · have := hf.kids p hp kv hkv
      exact ⟨this.1, Nat.lt_succ_of_lt this.2⟩
  fresh := by
    intro p hp
    rw [obj_append]
    split
    · exact hb
    · exact hf.fresh p hp

theorem frame_newObject {L obj : Nat} {g0 g : Graph} (hf : Frame L obj g0 g) (parent : Nat)
    (id : String) (hp : parent = obj ∨ L ≤ parent) :
    Frame L obj g0 (g.newObject parent id).1 := by
  unfold Graph.newObject
  refine frame_setObj (frame_append hf (g.newChild parent id) rfl rfl) parent _ hp ?_ ?_
  · intro kv hkv
    rw [length_append]
    simp only [List.mem_append, List.mem_singleton] at hkv
    rcases hkv with h | h
    · have := hf.kids parent hp kv h
      exact ⟨this.1, Nat.lt_succ_of_lt this.2⟩
    · subst h
      exact ⟨hf.len, Nat.lt_succ_self _⟩
  · intro h
    exact hf.fresh parent h

theorem child?_mem (o : Object) (id : String) (ch : Nat) (h : o.child? id = some ch) :
    ∃ kv ∈ o.Children, kv.1 = id ∧ kv.2 = ch := by
  unfold Object.child? at h
  rcases hfind : o.Children.find? (fun kv => kv.1 == id) with _ | kv
  · rw [hfind] at h; cases h
  · rw [hfind] at h
    simp only [Option.map_some', Option.some.injEq] at h
    refine ⟨kv, List.mem_of_find?_eq_some hfind, ?_, h⟩
    have := List.find?_some hfind
    simpa using this

theorem child?_none (o : Object) (id : String) (h : ∀ kv ∈ o.Children, kv.1 ≠ id) :
    o.child? id = none := by
  unfold Object.child?
  rw [List.find?_eq_none.2]
  · rfl
  · intro kv hkv
    simpa using h kv hkv

theorem frame_EnsureChild {L obj : Nat} {g0 : Graph} (path : List String) :
    ∀ (g : Graph) (q : Nat), Frame L obj g0 g → (q = obj ∨ L ≤ q) → q < g.store.length →
      Frame L obj g0 (g.EnsureChild q path).1 ∧
        ((g.EnsureChild q path).2 = q ∨ L ≤ (g.EnsureChild q path).2) ∧
        (g.EnsureChild q path).2 < (g.EnsureChild q path).1.store.length := by
  induction path with
  | nil => intro g q hf hq hl; exact ⟨hf, Or.inl rfl, hl⟩
  | cons id ids ih =>
    intro g q hf hq hl
    rw [Graph.EnsureChild]
    split
    · rename_i ch hch
      obtain ⟨kv, hkv, _, h2⟩ := child?_mem _ _ _ hch
      have hk := hf.kids q hq kv hkv
      rw [h2] at hk
      have := ih g ch hf (Or.inr hk.1) hk.2
      refine ⟨this.1, Or.inr ?_, this.2.2⟩
      rcases this.2.1 with h | h
      · rw [h]; exact hk.1
      · exact h
    · have hf1 := frame_newObject hf q id hq
      have := ih (g.newObject q id).1 (g.newObject q id).2 hf1
        (Or.inr (by rw [snd_newObject]; exact hf.len))
        (by rw [snd_newObject, length_newObject]; exact Nat.lt_succ_self _)
      refine ⟨this.1, Or.inr ?_, this.2.2⟩
      rcases this.2.1 with h | h
      · rw [h, snd_newObject]; exact hf.len
      · exact h

theorem frame_of_store {L obj : Nat} {g0 g g2 : Graph} (hf : Frame L obj g0 g)
    (h : g2.store = g.store) : Frame L obj g0 g2 where
  len := by rw [h]; exact hf.len
  old := by intro p hp hne; rw [← hf.old p hp hne]; simp only [Graph.obj, h]
  kids := by
    intro p hp kv hkv
    have hobj : g2.obj p = g.obj p := by simp only [Graph.obj, h]
    rw [h]; rw [hobj] at hkv
    exact hf.kids p hp kv hkv
  fresh := by
    intro p hp
    have hobj : g2.obj p = g.obj p := by simp only [Graph.obj, h]
    rw [hobj]; exact hf.fresh p hp


theorem store_setEdge (g : Graph) (i : Nat) (e : d2graph.Edge) :
    (g.setEdge i e).store = g.store := rfl

theorem frame_compileEdge {L obj : Nat} {g0 g : Graph} (ext : Externals) (c : compiler)
    (e : d2ir.Edge) (hf : Frame L obj g0 g) (hl : obj < L) :
    Frame L obj g0 (compileEdge ext c g obj e).2 := by
  unfold compileEdge d2graph.Graph.Connect
  split
  · exact hf
  · rename_i g1 ptr heq
    split at heq
    · cases heq
    · simp only [Except.ok.injEq, Prod.mk.injEq] at heq
      have h1 := frame_EnsureChild (d2graphIDA e.ID.SrcPath) g obj hf (Or.inl rfl)
        (Nat.lt_of_lt_of_le hl hf.len)
      have h2 := frame_EnsureChild (d2graphIDA e.ID.DstPath) _ obj h1.1 (Or.inl rfl)
        (Nat.lt_of_lt_of_le hl h1.1.len)
      refine frame_of_store h2.1 ?_
      rw [store_setEdge, ← heq.1]

theorem frame_compileEdges {L obj : Nat} {g0 : Graph} (ext : Externals) (hl : obj < L)
    (es : List d2ir.Edge) :
    ∀ (c : compiler) (g : Graph), Frame L obj g0 g →
      Frame L obj g0 (compileEdges ext c g obj es).2 := by
  unfold compileEdges
  induction es with
  | nil => intro c g hf; exact hf
  | cons e es ih =>
    intro c g hf
    rw [List.foldl_cons]
    exact ih _ _ (frame_compileEdge ext c e hf hl)

/-- The keyword branches of `compileField` only write the attributes of the object. -/
theorem compileFieldKeyword_graph (ext : Externals) (c : compiler) (g : Graph) (obj : Nat)
    (f : Field) (r : compiler × Graph) (h : compileFieldKeyword ext c g obj f = some r) :
    r.2 = g ∨ ∃ a, r.2 = g.setAttributes obj a := by
  unfold compileFieldKeyword at h
  split at h
  · cases h; exact Or.inr ⟨_, rfl⟩
  · split at h
    · split at h
      · cases h; exact Or.inl rfl
      · dsimp only at h
        split at h
        · cases h; exact Or.inr ⟨_, rfl⟩
        · cases h; exact Or.inr ⟨_, rfl⟩
    · cases h

theorem compileMapShape_graph (ext : Externals) (c : compiler) (g : Graph) (obj : Nat)
    (m : Map) :
    (compileMapShape ext c g obj m).2 = g ∨
      ∃ a, (compileMapShape ext c g obj m).2 = g.setAttributes obj a := by
  unfold compileMapShape
  split
  · rename_i shape _
    cases hk : compileFieldKeyword ext c g obj shape with
    | none => exact Or.inl rfl
    | some r => exact compileFieldKeyword_graph ext c g obj shape r hk
  · exact Or.inl rfl

theorem obj_setAttributes_self (g : Graph) (p : Nat) (a : Attributes) :
    (g.setAttributes p a).obj p = { g.obj p with Attributes := a } ∨
      ((g.setAttributes p a).obj p = g.obj p ∧ g.store.length ≤ p) := by
  simp only [Graph.setAttributes, obj_setObj]
  by_cases h : p < g.store.length
  · left; simp [h]
  · right; simp [h]; omega

/-- Writing attributes changes neither the children nor the class and table records. -/
theorem obj_setAttributes (g : Graph) (p q : Nat) (a : Attributes) :
    ((g.setAttributes p a).obj q).Children = (g.obj q).Children ∧
      ((g.setAttributes p a).obj q).Class = (g.obj q).Class ∧
      ((g.setAttributes p a).obj q).SQLTable = (g.obj q).SQLTable := by
  simp only [Graph.setAttributes, obj_setObj]
  split
  · rename_i h; rw [h.1]; exact ⟨rfl, rfl, rfl⟩
  · exact ⟨rfl, rfl, rfl⟩

theorem compileClass_form (g : Graph) (obj : Nat) :
    ∃ (g1 : Graph) (o : Object), compileClass g obj = g1.setObj obj o ∧ g1.store = g.store ∧
      o.Children = [] ∧ o.SQLTable = (g.obj obj).SQLTable ∧ o.Class.isSome = true :=
  ⟨_, _, rfl, rfl, rfl, rfl, rfl⟩

theorem compileSQLTable_form (g : Graph) (obj : Nat) :
    ∃ (g1 : Graph) (o : Object), compileSQLTable g obj = g1.setObj obj o ∧ g1.store = g.store ∧
      o.Children = [] ∧ o.Class = (g.obj obj).Class ∧ o.SQLTable.isSome = true :=
  ⟨_, _, rfl, rfl, rfl, rfl, rfl⟩

theorem frame_compileShape {L obj : Nat} {g0 g : Graph} (hf : Frame L obj g0 g) (hl : obj < L)
    (hc : (g.obj obj).Class = none) (hs : (g.obj obj).SQLTable = none) :
    Frame L obj g0 (compileShape g obj) ∧ both ((compileShape g obj).obj obj) = false := by
  have hlen : obj < g.store.length := Nat.lt_of_lt_of_le hl hf.len
  unfold compileShape
  split
  · obtain ⟨g1, o, h2, h1, h3, h4, _⟩ := compileClass_form g obj
    rw [h2]
    constructor
    · refine frame_setObj (frame_of_store hf h1) obj _ (Or.inl rfl) ?_ ?_
      · intro kv hkv; rw [h3] at hkv; cases hkv
      · intro h; omega
    · rw [obj_setObj_self _ _ _ (by rw [h1]; exact hlen)]
      simp [both, h4, hs]
  · split
    · obtain ⟨g1, o, h2, h1, h3, h4, _⟩ := compileSQLTable_form g obj
      rw [h2]
      constructor
      · refine frame_setObj (frame_of_store hf h1) obj _ (Or.inl rfl) ?_ ?_
        · intro kv hkv; rw [h3] at hkv; cases hkv
        · intro h; omega
      · rw [obj_setObj_self _ _ _ (by rw [h1]; exact hlen)]
        simp [both, h4, hc]
    · exact ⟨hf, by simp [both, hc]⟩

/-- The frame of a nested call, on a child created in the frame of the caller, lies
inside the frame of the caller. -/
theorem frame_nest {L obj L2 ch : Nat} {g0 g1 g2 : Graph} (h1 : Frame L obj g0 g1)
    (h2 : Frame L2 ch g1 g2) (hch : L ≤ ch) (hch2 : ch < L2)
    (hL2 : g1.store.length ≤ L2) (hb : both (g2.obj ch) = false) : Frame L obj g0 g2 where
  len := Nat.le_trans (Nat.le_trans hch (Nat.le_of_lt hch2)) h2.len
  old := by
    intro p hp hne
    rw [h2.old p (by omega) (by omega), h1.old p hp hne]
  kids := by
    intro p hp kv hkv
    by_cases hp2 : p = ch ∨ L2 ≤ p
    · have := h2.kids p hp2 kv hkv
      exact ⟨by omega, this.2⟩
    · have hlt : p < L2 := by omega
      have hne : p ≠ ch := fun h => hp2 (Or.inl h)
      rw [h2.old p hlt hne] at hkv
      have := h1.kids p hp kv hkv
      have := h2.len
      exact ⟨by omega, by omega⟩
  fresh := by
    intro p hp
    by_cases hpc : p = ch
    · rw [hpc]; exact hb
    · by_cases hp2 : L2 ≤ p
      · exact h2.fresh p hp2
      · rw [h2.old p (by omega) hpc]; exact h1.fresh p hp


/-! ## Compiling a map whose names are unique stays inside its frame -/

theorem EnsureChild_new (g : Graph) (obj : Nat) (name : String)
    (h : (g.obj obj).child? name = none) :
    g.EnsureChild obj (d2graphIDA [name]) = g.newObject obj name := by
  show g.EnsureChild obj [name] = _
  rw [Graph.EnsureChild, h]
  rfl

/-- What `compileField` leaves behind when it creates the child `name` of `obj` and
labels it: the state in which the nested `compileMap` starts. -/
theorem newChild_state {L obj : Nat} {g0 g : Graph} (hf : Frame L obj g0 g) (hl : obj < L)
    (name : String) (primary : Option d2ast.Scalar) :
    Frame L obj g0 (compileFieldLabel (g.newObject obj name).1 g.store.length primary) ∧
      (compileFieldLabel (g.newObject obj name).1 g.store.length primary).store.length =
        g.store.length + 1 ∧
      ((compileFieldLabel (g.newObject obj name).1 g.store.length primary).obj
        g.store.length).Children = [] ∧
      ((compileFieldLabel (g.newObject obj name).1 g.store.length primary).obj
        g.store.length).Class = none ∧
      ((compileFieldLabel (g.newObject obj name).1 g.store.length primary).obj
        g.store.length).SQLTable = none ∧
      ((compileFieldLabel (g.newObject obj name).1 g.store.length primary).obj obj).Class =
        (g.obj obj).Class ∧
      ((compileFieldLabel (g.newObject obj name).1 g.store.length primary).obj obj).SQLTable =
        (g.obj obj).SQLTable ∧
      ((compileFieldLabel (g.newObject obj name).1 g.store.length primary).obj obj).Children =
        (g.obj obj).Children ++ [(name, g.store.length)] := by
  have hlen : obj < g.store.length := Nat.lt_of_lt_of_le hl hf.len
  have hne : g.store.length ≠ obj := by omega
  have hnew := frame_newObject hf obj name (Or.inl rfl)
  have o1 := obj_newObject g obj name obj hlen
  have o2 := obj_newObject g obj name g.store.length hlen
  rw [if_pos rfl] at o1
  rw [if_neg hne, if_pos rfl] at o2
  cases primary with
  | none =>
    simp only [compileFieldLabel]
    refine ⟨hnew, length_newObject g obj name, ?_, ?_, ?_, ?_, ?_, ?_⟩ <;>
      first
        | (rw [o2]; rfl)
        | (rw [o1])
  | some scalar =>
    simp only [compileFieldLabel]
    have a1 := obj_setAttributes (g.newObject obj name).1 g.store.length obj
      (compileLabel ((g.newObject obj name).1.obj g.store.length).Attributes scalar)
    have a2 := obj_setAttributes (g.newObject obj name).1 g.store.length g.store.length
      (compileLabel ((g.newObject obj name).1.obj g.store.length).Attributes scalar)
    refine ⟨frame_setAttributes hnew _ _ (Or.inr hf.len), ?_, ?_, ?_, ?_, ?_, ?_, ?_⟩
    · simp [Graph.setAttributes, length_setObj, length_newObject]
    · rw [a2.1, o2]; rfl
    · rw [a2.2.1, o2]; rfl
    · rw [a2.2.2, o2]; rfl
    · rw [a1.2.1, o1]
    · rw [a1.2.2, o1]
    · rw [a1.1, o1]

theorem keyword_state {L obj : Nat} {g0 g : Graph} (hf : Frame L obj g0 g) (g2 : Graph)
    (h : g2 = g ∨ ∃ a, g2 = g.setAttributes obj a) :
    Frame L obj g0 g2 ∧ (g2.obj obj).Children = (g.obj obj).Children ∧
      (g2.obj obj).Class = (g.obj obj).Class ∧ (g2.obj obj).SQLTable = (g.obj obj).SQLTable := by
  rcases h with rfl | ⟨a, rfl⟩
  · exact ⟨hf, rfl, rfl, rfl⟩
  · exact ⟨frame_setAttributes hf obj a (Or.inl rfl), obj_setAttributes g obj obj a⟩

mutual
theorem compileMap_frame (ext : Externals) :
    ∀ (m : Map) (c : compiler) (g : Graph) (obj : Nat), uniqueNames m = true →
      obj < g.store.length → (g.obj obj).Children = [] → (g.obj obj).Class = none →
      (g.obj obj).SQLTable = none →
      Frame g.store.length obj g (compileMap ext c g obj m).2 ∧
        both ((compileMap ext c g obj m).2.obj obj) = false
  | .mk fields edges, c, g, obj, hu, hl, hc, hcl, hsq => by
    rw [uniqueNames, Bool.and_eq_true, decide_eq_true_eq] at hu
    rw [compileMap]
    obtain ⟨f0, c0, cl0, sq0⟩ := keyword_state (frame_init g obj hc) _
      (compileMapShape_graph ext c g obj (.mk fields edges))
    have h1 := compileFields_frame ext fields (compileMapShape ext c g obj (.mk fields edges)).1
      g (compileMapShape ext c g obj (.mk fields edges)).2 g.store.length obj [] hu.2
      (by simpa using hu.1) hl f0 (by rw [c0, hc]; intro kv hkv; cases hkv)
      (by rw [cl0, hcl]) (by rw [sq0, hsq])
    have h2 := frame_compileShape h1.1 hl h1.2.1 h1.2.2
    refine ⟨frame_compileEdges ext hl edges _ _ h2.1, ?_⟩
    have hk := keeps_compileEdges ext obj edges
      (compileFields ext (compileMapShape ext c g obj (.mk fields edges)).1
        (compileMapShape ext c g obj (.mk fields edges)).2 obj fields).1
      (compileShape (compileFields ext (compileMapShape ext c g obj (.mk fields edges)).1
        (compileMapShape ext c g obj (.mk fields edges)).2 obj fields).2 obj)
    have hk2 := hk.2 obj (Nat.lt_of_lt_of_le hl h2.1.len)
    unfold both at h2 ⊢
    rw [hk2.1, hk2.2]
    exact h2.2
theorem compileFields_frame (ext : Externals) :
    ∀ (fs : List Field) (c : compiler) (g0 g : Graph) (L obj : Nat) (done : List String),
      uniqueNamesFields fs = true → (done ++ fs.map Field.Name).Nodup → obj < L →
      Frame L obj g0 g → (∀ kv ∈ (g.obj obj).Children, kv.1 ∈ done) →
      (g.obj obj).Class = none → (g.obj obj).SQLTable = none →
      Frame L obj g0 (compileFields ext c g obj fs).2 ∧
        ((compileFields ext c g obj fs).2.obj obj).Class = none ∧
        ((compileFields ext c g obj fs).2.obj obj).SQLTable = none
  | [], c, g0, g, L, obj, done, _, _, _, hf, _, hcl, hsq => by
    rw [compileFields]; exact ⟨hf, hcl, hsq⟩
  | f :: fs, c, g0, g, L, obj, done, hu, hnd, hl, hf, hch, hcl, hsq => by
    rw [uniqueNamesFields, Bool.and_eq_true] at hu
    have hnd2 : (done ++ [f.Name] ++ fs.map Field.Name).Nodup := by
      simpa [List.append_assoc] using hnd
    have hnot : f.Name ∉ done := by
      intro hmem
      have := List.nodup_append.1 hnd
      exact this.2.2 hmem (by simp)
    rw [compileFields]
    split
    · exact compileFields_frame ext fs c g0 g L obj (done ++ [f.Name]) hu.2 hnd2 hl hf
        (fun kv hkv => List.mem_append_left _ (hch kv hkv)) hcl hsq
    · have h1 := compileField_frame ext f c g0 g L obj done hu.1 hnot hl hf hch hcl hsq
      exact compileFields_frame ext fs _ g0 _ L obj (done ++ [f.Name]) hu.2 hnd2 hl h1.1
        h1.2.2.2 h1.2.1 h1.2.2.1
theorem compileField_frame (ext : Externals) :
    ∀ (f : Field) (c : compiler) (g0 g : Graph) (L obj : Nat) (done : List String),
      uniqueNamesField f = true → f.Name ∉ done → obj < L →
      Frame L obj g0 g → (∀ kv ∈ (g.obj obj).Children, kv.1 ∈ done) →
      (g.obj obj).Class = none → (g.obj obj).SQLTable = none →
      Frame L obj g0 (compileField ext c g obj f).2 ∧
        ((compileField ext c g obj f).2.obj obj).Class = none ∧
        ((compileField ext c g obj f).2.obj obj).SQLTable = none ∧
        ∀ kv ∈ ((compileField ext c g obj f).2.obj obj).Children, kv.1 ∈ done ++ [f.Name]
  | .mk name primary composite, c, g0, g, L, obj, done, hu, hnot, hl, hf, hch, hcl, hsq => by
    have hnot2 : name ∉ done := hnot
    rw [compileField]
    split
    · rename_i r hk
      obtain ⟨f1, c1, cl1, sq1⟩ := keyword_state hf r.2
        (compileFieldKeyword_graph ext c g obj _ r hk)
      refine ⟨f1, by rw [cl1, hcl], by rw [sq1, hsq], ?_⟩
      rw [c1]
      exact fun kv hkv => List.mem_append_left _ (hch kv hkv)
    · have hnone : (g.obj obj).child? name = none :=
        child?_none _ _ (fun kv hkv h => hnot2 (h ▸ hch kv hkv))
      rw [EnsureChild_new g obj name hnone]
      dsimp only
      rw [snd_newObject]
      obtain ⟨f2, len2, ch2, cl2, sq2, ocl, osq, och⟩ := newChild_state hf hl name primary
      have hkids : ∀ kv ∈ (g.obj obj).Children ++ [(name, g.store.length)],
          kv.1 ∈ done ++ [name] := by
        intro kv hkv
        rcases List.mem_append.1 hkv with h | h
        · exact List.mem_append_left _ (hch kv h)
        · simp only [List.mem_singleton] at h; subst h; simp
      split
      · rename_i m _
        have hm : uniqueNames m = true := by simpa [uniqueNamesField] using hu
        have h3 := compileMap_frame ext m c _ g.store.length hm (by rw [len2]; omega) ch2 cl2 sq2
        have hnest := frame_nest f2 h3.1 hf.len (by rw [len2]; omega) (Nat.le_refl _) h3.2
        have hobj := h3.1.old obj (by rw [len2]; have := hf.len; omega)
          (by have := hf.len; omega)
        refine ⟨hnest, ?_, ?_, ?_⟩
        · rw [hobj, ocl, hcl]
        · rw [hobj, osq, hsq]
        · rw [hobj, och]; exact hkids
      · refine ⟨f2, by rw [ocl, hcl], by rw [osq, hsq], ?_⟩
        rw [och]; exact hkids
end


/-! ## The store across `compileMap` and the layers -/

theorem compileMap_fieldLoop (ext : Externals) (c : compiler) (g : Graph) (obj : Nat) :
    ∀ m : Map, compileMap ext c g obj m =
      compileEdges ext (fieldLoop ext c g obj m).1 (compileShape (fieldLoop ext c g obj m).2 obj)
        obj m.Edges
  | .mk _ _ => by rw [compileMap]; rfl

theorem length_compileShape (g : Graph) (obj : Nat) :
    (compileShape g obj).store.length = g.store.length := by
  unfold compileShape
  split
  · obtain ⟨g1, o, h2, h1, _, _, _⟩ := compileClass_form g obj
    rw [h2, length_setObj, h1]
  · split
    · obtain ⟨g1, o, h2, h1, _, _, _⟩ := compileSQLTable_form g obj
      rw [h2, length_setObj, h1]
    · rfl

theorem length_setAttributes (g : Graph) (p : Nat) (a : Attributes) :
    (g.setAttributes p a).store.length = g.store.length := by
  simp [Graph.setAttributes, length_setObj]

theorem length_compileFieldLabel (g : Graph) (p : Nat) (primary : Option d2ast.Scalar) :
    (compileFieldLabel g p primary).store.length = g.store.length := by
  cases primary with
  | none => rfl
  | some scalar => exact length_setAttributes ..

theorem length_compileMapShape (ext : Externals) (c : compiler) (g : Graph) (obj : Nat)
    (m : Map) : (compileMapShape ext c g obj m).2.store.length = g.store.length := by
  rcases compileMapShape_graph ext c g obj m with h | ⟨a, h⟩
  · rw [h]
  · rw [h, length_setAttributes]

mutual
theorem compileMap_length (ext : Externals) (c : compiler) (g : Graph) (obj : Nat) :
    ∀ m : Map, g.store.length ≤ (compileMap ext c g obj m).2.store.length
  | .mk fields edges => by
    rw [compileMap]
    refine Nat.le_trans ?_ (keeps_compileEdges ext obj edges _ _).1
    rw [length_compileShape]
    refine Nat.le_trans ?_ (compileFields_length ext _ _ obj fields)
    rw [length_compileMapShape]
theorem compileFields_length (ext : Externals) (c : compiler) (g : Graph) (obj : Nat) :
    ∀ fs : List Field, g.store.length ≤ (compileFields ext c g obj fs).2.store.length
  | [] => by rw [compileFields]
  | f :: fs => by
    rw [compileFields]
    split
    · exact compileFields_length ext c g obj fs
    · exact Nat.le_trans (compileField_length ext c g obj f)
        (compileFields_length ext _ _ obj fs)
theorem compileField_length (ext : Externals) (c : compiler) (g : Graph) (obj : Nat) :
    ∀ f : Field, g.store.length ≤ (compileField ext c g obj f).2.store.length
  | .mk name primary composite => by
    rw [compileField]
    split
    · rename_i r hk
      rcases compileFieldKeyword_graph ext c g obj _ r hk with h | ⟨a, h⟩
      · rw [h]
      · rw [h, length_setAttributes]
    · dsimp only
      have h1 := (keeps_EnsureChild (d2graphIDA [name]) g obj).1
      split
      · rename_i m _
        refine Nat.le_trans ?_ (compileMap_length ext c _ _ m)
        rw [length_compileFieldLabel]; exact h1
      · rw [length_compileFieldLabel]; exact h1
end

theorem fieldLoop_length (ext : Externals) (c : compiler) (g : Graph) (obj : Nat) (m : Map) :
    g.store.length ≤ (fieldLoop ext c g obj m).2.store.length := by
  unfold fieldLoop
  refine Nat.le_trans ?_ (compileFields_length ext _ _ obj m.Fields)
  rw [length_compileMapShape]

theorem store_appendLayer (g : Graph) (fieldName : String) (g2 : Graph) :
    (appendLayer g fieldName g2).store = g.store := by
  unfold appendLayer
  split <;> rfl

theorem store_compileLayers (ext : Externals) :
    ∀ (fs : List Field) (c : compiler) (g : Graph) (fieldName : String) (r : compiler × Graph),
      compileLayers ext c g fs fieldName = some r → r.2.store = g.store
  | [], _, _, _, r, h => by
    rw [compileLayers] at h
    cases h
    rfl
  | .mk name _ (some (.map m)) :: rest, c, g, fieldName, r, h => by
    simp only [compileLayers] at h
    split at h
    · cases h
    · rw [store_compileLayers ext rest _ _ fieldName r h, store_appendLayer]
  | .mk name _ (some .array) :: rest, c, g, fieldName, r, h => by
    simp only [compileLayers] at h
    exact store_compileLayers ext rest c g fieldName r h
  | .mk name _ none :: rest, c, g, fieldName, r, h => by
    simp only [compileLayers] at h
    exact store_compileLayers ext rest c g fieldName r h

theorem store_compileLayersField (ext : Externals) :
    ∀ (fs : List Field) (c : compiler) (g : Graph) (fieldName : String) (r : compiler × Graph),
      compileLayersField ext c g fs fieldName = some r → r.2.store = g.store
  | [], _, _, _, r, h => by
    rw [compileLayersField] at h
    cases h
    rfl
  | .mk name _ (some (.map (.mk layers _))) :: rest, c, g, fieldName, r, h => by
    simp only [compileLayersField] at h
    split at h
    · exact store_compileLayers ext layers c g fieldName r h
    · exact store_compileLayersField ext rest c g fieldName r h
  | .mk name _ (some .array) :: rest, c, g, fieldName, r, h => by
    simp only [compileLayersField] at h
    split at h
    · cases h
      rfl
    · exact store_compileLayersField ext rest c g fieldName r h
  | .mk name _ none :: rest, c, g, fieldName, r, h => by
    simp only [compileLayersField] at h
    split at h
    · cases h
      rfl
    · exact store_compileLayersField ext rest c g fieldName r h

theorem store_compileLayerRoot (ext : Externals) (c : compiler) (ir : Map)
    (r : compiler × Graph) (h : compileLayerRoot ext c ir = some r) :
    r.2 = (compileMap ext c d2graph.NewGraph 0 ir).2 := by
  unfold compileLayerRoot at h
  dsimp only at h
  split at h
  · cases h
  · cases h
    rfl

theorem store_compileLayer (ext : Externals) (c : compiler) :
    ∀ (m : Map) (r : compiler × Graph), compileLayer ext c m = some r →
      r.2.store = (compileMap ext c d2graph.NewGraph 0 m).2.store
  | .mk fields edges, r, h => by
    rw [compileLayer] at h
    split at h
    · cases h
    · rename_i s1 h1
      split at h
      · cases h
      · rename_i s2 h2
        split at h
        · cases h
        · rename_i s3 h3
          rw [store_compileLayersField ext fields _ _ _ r h,
            store_compileLayersField ext fields _ _ _ s3 h3,
            store_compileLayersField ext fields _ _ _ s2 h2,
            store_compileLayerRoot ext c _ s1 h1]

/-- What the shape switch of `compileMap` does to the records of the object. -/
theorem compileShape_records (g : Graph) (obj : Nat) (h : obj < g.store.length) :
    ((g.obj obj).Attributes.Shape.Value = d2target.ShapeClass →
        ((compileShape g obj).obj obj).Class.isSome = true ∧
        ((compileShape g obj).obj obj).SQLTable = (g.obj obj).SQLTable) ∧
      ((g.obj obj).Attributes.Shape.Value = d2target.ShapeSQLTable →
        ((compileShape g obj).obj obj).SQLTable.isSome = true ∧
        ((compileShape g obj).obj obj).Class = (g.obj obj).Class) ∧
      ((g.obj obj).Attributes.Shape.Value ≠ d2target.ShapeClass →
        (g.obj obj).Attributes.Shape.Value ≠ d2target.ShapeSQLTable →
        compileShape g obj = g) := by
  refine ⟨?_, ?_, ?_⟩
  · intro hs
    obtain ⟨g1, o, h2, h1, _, h4, h5⟩ := compileClass_form g obj
    simp only [compileShape, hs, beq_self_eq_true, if_true]
    rw [h2, obj_setObj_self _ _ _ (by rw [h1]; exact h)]
    exact ⟨h5, h4⟩
  · intro hs
    have hne : (d2target.ShapeSQLTable == d2target.ShapeClass) = false := by decide
    obtain ⟨g1, o, h2, h1, _, h4, h5⟩ := compileSQLTable_form g obj
    simp only [compileShape, hs, hne, beq_self_eq_true, if_true, Bool.false_eq_true, if_false]
    rw [h2, obj_setObj_self _ _ _ (by rw [h1]; exact h)]
    exact ⟨h5, h4⟩
  · intro h1 h2
    simp [compileShape, h1, h2]


/-! ## The recursive definitions agree with the loops of the source -/

theorem compileField_keyword (ext : Externals) (c : compiler) (g : Graph) (obj : Nat) :
    ∀ (f : Field) (r : compiler × Graph), compileFieldKeyword ext c g obj f = some r →
      compileField ext c g obj f = r
  | .mk name primary composite, r, h => by
    rw [compileField, h]

theorem GetField_name (m : Map) (name : String) (f : Field) (h : m.GetField name = some f) :
    strings.ToLower f.Name = strings.ToLower name := by
  unfold d2ir.Map.GetField at h
  have := List.find?_some h
  simpa [strings.EqualFold] using this

/-- The field that `GetField("shape")` returns is compiled by the keyword branch of
`compileField`. -/
theorem compileMapShape_eq (ext : Externals) (c : compiler) (g : Graph) (obj : Nat) (m : Map) :
    compileMapShape ext c g obj m =
      match m.GetField "shape" with
      | some shape => compileField ext c g obj shape
      | none => (c, g) := by
  unfold compileMapShape
  cases hg : m.GetField "shape" with
  | none => rfl
  | some shape =>
    have hn := GetField_name m "shape" shape hg
    have hres : SimpleReservedKeywords.contains (strings.ToLower shape.Name) = true := by
      rw [hn]; decide
    have hk : compileFieldKeyword ext c g obj shape =
        some ((compileReserved ext c (g.obj obj).Attributes shape).1,
          g.setAttributes obj (compileReserved ext c (g.obj obj).Attributes shape).2) := by
      simp only [compileFieldKeyword, hres, if_true]
    simp only [hk, Option.getD_some]
    exact (compileField_keyword ext c g obj shape _ hk).symm

theorem compileFields_eq (ext : Externals) (obj : Nat) (fs : List Field) :
    ∀ (c : compiler) (g : Graph), compileFields ext c g obj fs =
      fs.foldl (fun s f => if f.Name == "shape" then s else compileField ext s.1 s.2 obj f)
        (c, g) := by
  induction fs with
  | nil => intro c g; rw [compileFields]; rfl
  | cons f fs ih =>
    intro c g
    rw [compileFields, List.foldl_cons]
    split
    · exact ih c g
    · exact ih _ _

/-- The method `compileMap` as the source writes it. -/
theorem compileMap_eq (ext : Externals) (c : compiler) (g : Graph) (obj : Nat) (m : Map) :
    compileMap ext c g obj m =
      compileEdges ext
        (m.Fields.foldl
          (fun s f => if f.Name == "shape" then s else compileField ext s.1 s.2 obj f)
          (match m.GetField "shape" with
            | some shape => compileField ext c g obj shape
            | none => (c, g))).1
        (compileShape (m.Fields.foldl
          (fun s f => if f.Name == "shape" then s else compileField ext s.1 s.2 obj f)
          (match m.GetField "shape" with
            | some shape => compileField ext c g obj shape
            | none => (c, g))).2 obj)
        obj m.Edges := by
  rw [compileMap_fieldLoop, fieldLoop, compileFields_eq, compileMapShape_eq]

theorem compileLayers_eq (ext : Externals) (fieldName : String) (fs : List Field) :
    ∀ (c : compiler) (g : Graph), compileLayers ext c g fs fieldName =
      fs.foldlM (fun s f =>
        match f.Map with
        | none => some s
        | some m =>
          (compileLayer ext s.1 m).map (fun r =>
            (r.1, appendLayer s.2 fieldName { r.2 with Name := f.Name })))
        (c, g) := by
  induction fs with
  | nil => intro c g; rw [compileLayers]; rfl
  | cons f fs ih =>
    intro c g
    rw [List.foldlM_cons]
    match f with
    | .mk name _ (some (.map m)) =>
      simp only [compileLayers, d2ir.Field.Map, d2ir.Field.Composite, d2ir.Field.Name]
      cases compileLayer ext c m with
      | none => rfl
      | some r => exact ih _ _
    | .mk name _ (some .array) =>
      simp only [compileLayers, d2ir.Field.Map, d2ir.Field.Composite]
      exact ih _ _
    | .mk name _ none =>
      simp only [compileLayers, d2ir.Field.Map, d2ir.Field.Composite]
      exact ih _ _

/-- The method `compileLayersField` as the source writes it, through `GetField`. -/
theorem compileLayersField_eq (ext : Externals) (c : compiler) (g : Graph) (ir : Map)
    (fieldName : String) :
    compileLayersField ext c g ir.Fields fieldName =
      match (ir.GetField fieldName).bind d2ir.Field.Map with
      | none => some (c, g)
      | some layers => compileLayers ext c g layers.Fields fieldName := by
  unfold d2ir.Map.GetField
  generalize ir.Fields = fs
  induction fs with
  | nil => rw [compileLayersField]; rfl
  | cons f fs ih =>
    match f with
    | .mk name _ (some (.map (.mk layers _))) =>
      simp only [compileLayersField, List.find?_cons, d2ir.Field.Name]
      split
      · rename_i h; simp only [h]; rfl
      · rename_i h; simp only [h]; exact ih
    | .mk name _ (some .array) =>
      simp only [compileLayersField, List.find?_cons, d2ir.Field.Name]
      split
      · rename_i h; simp only [h]; rfl
      · rename_i h; simp only [h]; exact ih
    | .mk name _ none =>
      simp only [compileLayersField, List.find?_cons, d2ir.Field.Name]
      split
      · rename_i h; simp only [h]; rfl
      · rename_i h; simp only [h]; exact ih

/-! ## The near-key validation as a writer -/

theorem validateNearObject_errors (ext : Externals) (c : compiler) (g : Graph) (obj : Nat) :
    (validateNearObject ext c g obj).err.Errors = c.err.Errors ++ nearErrors ext g obj := by
  unfold nearErrors validateNearObject
  split
  · simp
  · simp only []
    split
    · simp [compiler.errorf]
    · split
      · simp [compiler.errorf]
      · split
        · simp [compiler.errorf]
        · split
          · split
            · simp [compiler.errorf]
            · simp
          · simp

theorem validateNear_errors_aux (ext : Externals) (g : Graph) (objs : List Nat) :
    ∀ c : compiler, (objs.foldl (fun c obj => validateNearObject ext c g obj) c).err.Errors =
      c.err.Errors ++ objs.flatMap (nearErrors ext g) := by
  induction objs with
  | nil => intro c; simp
  | cons o os ih =>
    intro c
    rw [List.foldl_cons, ih, validateNearObject_errors, List.flatMap_cons, List.append_assoc]

theorem validateNear_errors (ext : Externals) (c : compiler) (g : Graph) :
    (validateNear ext c g).err.Errors = c.err.Errors ++ g.Objects.flatMap (nearErrors ext g) :=
  validateNear_errors_aux ext g g.Objects c

/-- The errors of one object, by cases on its near key. -/
theorem nearErrors_eq (ext : Externals) (g : Graph) (obj : Nat) :
    nearErrors ext g obj =
      match (g.obj obj).Attributes.NearKey with
      | none => []
      | some nearKey =>
        if (g.HasChild g.Root nearKey).isSome then []
        else if !ext.NearConstantsArray.contains (nearKey.headD "") then
          [⟨"near key " ++ strconv.Quote (ext.Format nearKey) ++
            " must be the absolute path to a shape or one of the following constants: " ++
            strings.Join ext.NearConstantsArray ", "⟩]
        else if (g.obj obj).Parent ≠ some g.Root then [errNearRoot]
        else if (g.obj obj).ChildrenArray.length > 0 then [errNearChildren]
        else if g.Edges.any (fun e => e.Src == obj || e.Dst == obj) then [errNearConnected]
        else [] := by
  unfold nearErrors validateNearObject
  cases hk : (g.obj obj).Attributes.NearKey with
  | none => rfl
  | some nearKey =>
    simp only []
    cases h1 : (g.HasChild g.Root nearKey).isSome <;>
    cases h2 : ext.NearConstantsArray.contains (nearKey.headD "") <;>
    by_cases h3 : (g.obj obj).Parent = some g.Root <;>
    by_cases h4 : (g.obj obj).ChildrenArray.length > 0 <;>
    cases h5 : g.Edges.any (fun e => e.Src == obj || e.Dst == obj) <;>
    simp [h3, h4, compiler.errorf, errNearRoot, errNearChildren, errNearConnected]

theorem nearErrors_length (ext : Externals) (g : Graph) (obj : Nat) :
    (nearErrors ext g obj).length ≤ if (g.obj obj).Attributes.NearKey.isSome then 1 else 0 := by
  rw [nearErrors_eq]
  split
  · simp
  · rename_i k hk
    simp only [hk, Option.isSome_some, if_true]
    repeat' split
    all_goals simp

theorem nearErrors_nil_iff (ext : Externals) (g : Graph) (obj : Nat) (nearKey : List String)
    (hk : (g.obj obj).Attributes.NearKey = some nearKey) :
    nearErrors ext g obj = [] ↔ nearAllowed ext g obj nearKey := by
  rw [nearErrors_eq, hk]
  unfold nearAllowed
  simp only []
  cases h1 : (g.HasChild g.Root nearKey).isSome <;>
  cases h2 : ext.NearConstantsArray.contains (nearKey.headD "") <;>
  by_cases h3 : (g.obj obj).Parent = some g.Root <;>
  by_cases h4 : (g.obj obj).ChildrenArray.length > 0 <;>
  cases h5 : g.Edges.any (fun e => e.Src == obj || e.Dst == obj) <;>
  simp [h3, h4] <;> simp_all [List.any_eq_true, List.any_eq_false, List.length_pos]
  obtain ⟨x, hx, hor⟩ := h5
  exact ⟨x, hx, fun hn => hor.resolve_left hn⟩

theorem flatMap_length_le {α β : Type} (f : α → List β) (p : α → Bool) (xs : List α)
    (h : ∀ x, (f x).length ≤ if p x then 1 else 0) :
    (xs.flatMap f).length ≤ (xs.filter p).length := by
  induction xs with
  | nil => simp
  | cons x xs ih =>
    rw [List.flatMap_cons, List.length_append, List.filter_cons]
    have hx := h x
    split
    · rename_i hp; rw [if_pos hp] at hx; simp only [List.length_cons]; omega
    · rename_i hp; rw [if_neg hp] at hx; omega

/-! ## The alias table -/

theorem lookup_alias_none (tag : String) (h1 : tag ≠ "md") (h2 : tag ≠ "tex") (h3 : tag ≠ "js")
    (h4 : tag ≠ "go") (h5 : tag ≠ "py") (h6 : tag ≠ "rb") (h7 : tag ≠ "ts") :
    ShortToFullLanguageAliases.lookup tag = none ∧ specLanguage tag = tag := by
  constructor
  · have b1 : (tag == "md") = false := by simpa using h1
    have b2 : (tag == "tex") = false := by simpa using h2
    have b3 : (tag == "js") = false := by simpa using h3
    have b4 : (tag == "go") = false := by simpa using h4
    have b5 : (tag == "py") = false := by simpa using h5
    have b6 : (tag == "rb") = false := by simpa using h6
    have b7 : (tag == "ts") = false := by simpa using h7
    simp only [ShortToFullLanguageAliases, List.lookup, b1, b2, b3, b4, b5, b6, b7]
  · unfold specLanguage
    split <;> first | rfl | contradiction

theorem lookup_alias (tag : String) :
    (ShortToFullLanguageAliases.lookup tag).getD tag = specLanguage tag := by
  by_cases h1 : tag = "md"
  · subst h1; rfl
  by_cases h2 : tag = "tex"
  · subst h2; rfl
  by_cases h3 : tag = "js"
  · subst h3; rfl
  by_cases h4 : tag = "go"
  · subst h4; rfl
  by_cases h5 : tag = "py"
  · subst h5; rfl
  by_cases h6 : tag = "rb"
  · subst h6; rfl
  by_cases h7 : tag = "ts"
  · subst h7; rfl
  obtain ⟨hl, hr⟩ := lookup_alias_none tag h1 h2 h3 h4 h5 h6 h7
  rw [hl, hr]; rfl

theorem compileLabel_block (attrs : Attributes) (tag value : String) :
    compileLabel attrs (.BlockString tag value) =
      { attrs with Language := specLanguage tag,
                   Shape := { Value := specBlockShape (specLanguage tag) } } := by
  by_cases h1 : tag = "md"
  · subst h1; rfl
  by_cases h2 : tag = "tex"
  · subst h2; rfl
  by_cases h3 : tag = "js"
  · subst h3; rfl
  by_cases h4 : tag = "go"
  · subst h4; rfl
  by_cases h5 : tag = "py"
  · subst h5; rfl
  by_cases h6 : tag = "rb"
  · subst h6; rfl
  by_cases h7 : tag = "ts"
  · subst h7; rfl
  obtain ⟨hl, hr⟩ := lookup_alias_none tag h1 h2 h3 h4 h5 h6 h7
  simp only [compileLabel, hl, hr, specBlockShape]
  by_cases hm : tag = "markdown" ∨ tag = "latex"
  · have : (tag == "markdown" || tag == "latex") = true := by simpa using hm
    simp only [this, if_true, if_pos hm]; rfl
  · have : (tag == "markdown" || tag == "latex") = false := by simpa using hm
    simp only [this, if_neg hm]; rfl

/-! ## Keywords that are not spelled in lower case -/

theorem setObj_self (g : Graph) (obj : Nat) : g.setObj obj (g.obj obj) = g := by
  have h : g.store.set obj (g.store.getD obj default) = g.store := by
    by_cases hlt : obj < g.store.length
    · apply List.ext_getElem
      · simp
      · intro i h1 h2
        by_cases hi : obj = i
        · subst hi; simp [List.getElem?_eq_getElem hlt]
        · simp [List.getElem_set_ne hi]
    · exact List.set_eq_of_length_le (Nat.le_of_not_lt hlt)
  cases g
  simp only [Graph.setObj, Graph.obj] at *
  simp only [h]

theorem setAttributes_self (g : Graph) (obj : Nat) :
    g.setAttributes obj (g.obj obj).Attributes = g := by
  unfold Graph.setAttributes
  exact setObj_self g obj

/-- A field with a value whose name is none of the ten names of the switch of
`compileReserved` falls through the switch: nothing is assigned and nothing reported. -/
theorem compileReserved_other (ext : Externals) (c : compiler) (attrs : Attributes) (f : Field)
    (scalar : d2ast.Scalar) (hp : f.Primary = some scalar)
    (hn : f.Name ∉ SimpleReservedKeywords) :
    compileReserved ext c attrs f = (c, attrs) := by
  simp only [SimpleReservedKeywords, List.mem_cons, List.mem_singleton, List.not_mem_nil,
    or_false, not_or] at hn
  obtain ⟨h1, h2, h3, h4, h5, h6, h7, h8, h9, h10⟩ := hn
  unfold compileReserved
  rw [hp]
  simp only []

/-! ## The `3d` style -/

theorem compileStyleFieldInit_ThreeDee (a : Attributes) (f : Field) :
    (f.Name = "3d" → (compileStyleFieldInit a f).Style.ThreeDee = some {}) ∧
      (a.Style.ThreeDee.isSome = true →
        (compileStyleFieldInit a f).Style.ThreeDee.isSome = true) := by
  unfold compileStyleFieldInit
  constructor
  · intro h; rw [h]; rfl
  · intro h
    split <;> first | exact h | rfl

theorem setValue_ThreeDee (s : d2graph.Style) (key value : String)
    (h : s.ThreeDee.isSome = true) : (s.setValue key value).ThreeDee.isSome = true := by
  unfold d2graph.Style.setValue
  simp only []
  split <;> first | exact h | (simp only [Option.isSome_map']; exact h)

theorem compileStyleField_ThreeDee (ext : Externals) (c : compiler) (a : Attributes) (f : Field)
    (h : a.Style.ThreeDee.isSome = true ∨ (f.Name = "3d" ∧ f.Primary.isSome = true)) :
    (compileStyleField ext c a f).2.Style.ThreeDee.isSome = true := by
  unfold compileStyleField
  cases hp : f.Primary with
  | none =>
    rcases h with h | ⟨_, h⟩
    · exact h
    · rw [hp] at h; cases h
  | some scalar =>
    have hi : (compileStyleFieldInit a f).Style.ThreeDee.isSome = true := by
      rcases h with h | ⟨h, _⟩
      · exact (compileStyleFieldInit_ThreeDee a f).2 h
      · rw [(compileStyleFieldInit_ThreeDee a f).1 h]; rfl
    simp only [d2graph.Style.Apply]
    cases hs : ext.styleCheck f.Name scalar.ScalarString with
    | some err => exact hi
    | none => exact setValue_ThreeDee _ _ _ hi

theorem foldl_compileStyleField_ThreeDee (ext : Externals) (fs : List Field) :
    ∀ (c : compiler) (a : Attributes),
      (a.Style.ThreeDee.isSome = true ∨ ∃ f ∈ fs, f.Name = "3d" ∧ f.Primary.isSome = true) →
      (fs.foldl (fun s f => compileStyleField ext s.1 s.2 f) (c, a)).2.Style.ThreeDee.isSome =
        true := by
  induction fs with
  | nil =>
    intro c a h
    rcases h with h | ⟨f, hf, _⟩
    · exact h
    · cases hf
  | cons f fs ih =>
    intro c a h
    rw [List.foldl_cons]
    apply ih
    rcases h with h | ⟨f2, hf2, h2⟩
    · exact Or.inl (compileStyleField_ThreeDee ext c a f (Or.inl h))
    · rcases List.mem_cons.mp hf2 with rfl | hmem
      · exact Or.inl (compileStyleField_ThreeDee ext c a f2 (Or.inr h2))
      · exact Or.inr ⟨f2, hmem, h2⟩

theorem compileStyleField_rejected (ext : Externals) (c : compiler) (a : Attributes) (f : Field)
    (v : d2ast.Scalar) (err : String) (hp : f.Primary = some v)
    (hrej : ext.styleCheck f.Name v.ScalarString = some err) :
    compileStyleField ext c a f = (c.errorf err, compileStyleFieldInit a f) := by
  simp only [compileStyleField, hp, d2graph.Style.Apply, hrej]

/-- The guard of `compileLayer`: after a compile pass that reported an error,
`validateKeys` does not run. -/
theorem compileLayerRoot_skips (ext : Externals) (c : compiler) (ir : Map)
    (h : (compileMap ext c d2graph.NewGraph d2graph.NewGraph.Root ir.CopyRoot).1.err.Errors ≠ []) :
    compileLayerRoot ext c ir =
      some (validateNear ext
          (compileMap ext c d2graph.NewGraph d2graph.NewGraph.Root ir.CopyRoot).1
          (compileMap ext c d2graph.NewGraph d2graph.NewGraph.Root ir.CopyRoot).2,
        (compileMap ext c d2graph.NewGraph d2graph.NewGraph.Root ir.CopyRoot).2) := by
  unfold compileLayerRoot
  have hl : ((compileMap ext c d2graph.NewGraph d2graph.NewGraph.Root
      ir.CopyRoot).1.err.Errors.length == 0) = false := by
    simpa using h
  simp only [hl, Bool.false_eq_true, if_false]

theorem compileMap_threeDee (ext : Externals) (c : compiler) (g : Graph) (obj : Nat)
    (s v : String) :
    compileMap ext c g obj (.mk (threeDeeFields s v) []) =
      (let r1 := compileReserved ext c (g.obj obj).Attributes (scalarField "shape" s)
       let g1 := g.setAttributes obj r1.2
       let k := compileField ext r1.1 g1 obj (mapField "style" [scalarField "3d" v])
       (k.1, compileShape k.2 obj)) := by
  rfl

theorem compileField_style_rejected (ext : Externals) (c : compiler) (g : Graph) (obj : Nat)
    (v err : String) (hrej : ext.styleCheck "3d" v = some err)
    (ha : (g.obj obj).Attributes.Style.Animated = none) :
    compileField ext c g obj (mapField "style" [scalarField "3d" v]) =
      (c.errorf err, g.setAttributes obj
        (compileStyleFieldInit (g.obj obj).Attributes (scalarField "3d" v))) := by
  apply compileField_keyword
  have h1 : compileStyle ext c (g.obj obj).Attributes (.mk [scalarField "3d" v] []) =
      (c.errorf err, compileStyleFieldInit (g.obj obj).Attributes (scalarField "3d" v)) := by
    show compileStyleField ext c (g.obj obj).Attributes (scalarField "3d" v) = _
    exact compileStyleField_rejected ext c _ _ (.UnquotedString v) err rfl hrej
  have h2 : (compileStyleFieldInit (g.obj obj).Attributes (scalarField "3d" v)).Style.Animated =
      none := ha
  have h3 : SimpleReservedKeywords.contains (strings.ToLower "style") = false := by decide
  simp only [compileFieldKeyword, mapField, d2ir.Field.Name, d2ir.Field.Map,
    d2ir.Field.Composite, h3, h1, h2]
  rfl

theorem compileReserved_shape_errors (ext : Externals) (c : compiler) (a : Attributes)
    (s : String) (hs : ext.IsShape s = true) :
    (compileReserved ext c a (scalarField "shape" s)).1 = c ∧
      (compileReserved ext c a (scalarField "shape" s)).2.Style = a.Style ∧
      (compileReserved ext c a (scalarField "shape" s)).2.Shape.Value = s ∧
      (compileReserved ext c a (scalarField "shape" s)).2.NearKey = a.NearKey := by
  by_cases hc : s = d2target.ShapeCode
  · subst hc
    simp [compileReserved, scalarField, d2ir.Field.Primary, d2ir.Field.Name,
      d2ast.Scalar.ScalarString, hs]
  · rw [compileReserved_shape ext c a s hs hc]
    exact ⟨rfl, rfl, rfl, rfl⟩

/-! ## Graphs without near keys -/

theorem validateNear_none (ext : Externals) (c : compiler) (g : Graph)
    (h : ∀ p, (g.obj p).Attributes.NearKey = none) : validateNear ext c g = c := by
  unfold validateNear
  generalize g.Objects = objs
  induction objs generalizing c with
  | nil => rfl
  | cons o os ih =>
    rw [List.foldl_cons]
    have : validateNearObject ext c g o = c := by
      unfold validateNearObject
      rw [h o]
    rw [this]
    exact ih c

theorem nearNone_setAttributes (g : Graph) (q : Nat) (a : Attributes)
    (h : ∀ p, (g.obj p).Attributes.NearKey = none) (ha : a.NearKey = none) :
    ∀ p, ((g.setAttributes q a).obj p).Attributes.NearKey = none := by
  intro p
  simp only [Graph.setAttributes, obj_setObj]
  split
  · exact ha
  · exact h p

theorem nearNone_compileShape (g : Graph) (obj : Nat)
    (h : ∀ p, (g.obj p).Attributes.NearKey = none) :
    ∀ p, ((compileShape g obj).obj p).Attributes.NearKey = none := by
  intro p
  unfold compileShape
  split
  · simp only [compileClass, obj_setObj]
    split
    · exact h obj
    · exact h p
  · split
    · simp only [compileSQLTable, obj_setObj]
      split
      · exact h obj
      · exact h p
    · exact h p

theorem nearNone_leafGraph : ∀ p, (leafGraph.obj p).Attributes.NearKey = none := by
  intro p
  match p with
  | 0 => rfl
  | 1 => rfl
  | p + 2 => rw [obj_default_of_le _ _ (by show 2 ≤ p + 2; omega)]; rfl

theorem compileStyleFieldInit_NearKey (a : Attributes) (f : Field) :
    (compileStyleFieldInit a f).NearKey = a.NearKey := by
  unfold compileStyleFieldInit
  split <;> rfl

theorem compileStyleFieldInit_Animated (a : Attributes) (v : String) :
    (compileStyleFieldInit a (scalarField "3d" v)).Style.Animated = a.Style.Animated := rfl

theorem obj_setAttributes_leaf (a : Attributes) :
    ((leafGraph.setAttributes 1 a).obj 1).Attributes = a := rfl

/-- The compile pass and the whole compile of `a: (shape: s; style: (3d: v))` when the
validator of the style rejects `v`: the value error is the only error. -/
theorem compileLayer_threeDee (ext : Externals) (s v err : String)
    (hs : ext.IsShape s = true) (hrej : ext.styleCheck "3d" v = some err) :
    (compileMap ext {} d2graph.NewGraph d2graph.NewGraph.Root
        (leafIR (threeDeeFields s v)).CopyRoot).1.err.Errors = [⟨err⟩] ∧
      (compileLayer ext {} (leafIR (threeDeeFields s v))).map (fun r => r.1.err.Errors) =
        some [⟨err⟩] := by
  obtain ⟨h1, h2, h3, h4⟩ := compileReserved_shape_errors ext {} (leafGraph.obj 1).Attributes s hs
  have hmap : compileMap ext {} d2graph.NewGraph d2graph.NewGraph.Root
      (leafIR (threeDeeFields s v)).CopyRoot =
      (({} : compiler).errorf err,
        compileShape (compileShape
          ((leafGraph.setAttributes 1
              (compileReserved ext {} (leafGraph.obj 1).Attributes (scalarField "shape" s)).2).setAttributes 1
            (compileStyleFieldInit
              (compileReserved ext {} (leafGraph.obj 1).Attributes (scalarField "shape" s)).2
              (scalarField "3d" v))) 1) 0) := by
    show compileMap ext {} d2graph.NewGraph 0 (leafIR (threeDeeFields s v)) = _
    rw [compileMap_leaf, compileMap_threeDee]
    simp only [h1]
    rw [compileField_style_rejected ext {} _ 1 v err hrej
      (by rw [obj_setAttributes_leaf, h2]; rfl)]
    simp only [obj_setAttributes_leaf]
  have herr : (compileMap ext {} d2graph.NewGraph d2graph.NewGraph.Root
      (leafIR (threeDeeFields s v)).CopyRoot).1.err.Errors = [⟨err⟩] := by
    rw [hmap]; rfl
  refine ⟨herr, ?_⟩
  rw [compileLayer_leaf, compileLayerRoot_skips ext {} _ (by rw [herr]; simp), validateNear_none,
    Option.map_some', herr]
  rw [hmap]
  apply nearNone_compileShape
  apply nearNone_compileShape
  apply nearNone_setAttributes
  · apply nearNone_setAttributes
    · exact nearNone_leafGraph
    · rw [h4]; rfl
  · rw [compileStyleFieldInit_NearKey, h4]; rfl

/-! ## A block-string label next to a shape -/

theorem compileMap_labelShape (ext : Externals) (c : compiler) (g : Graph) (obj : Nat)
    (tag value s : String) :
    compileMap ext c g obj (.mk (labelShapeFields tag value s) []) =
      (let r1 := compileReserved ext c (g.obj obj).Attributes (scalarField "shape" s)
       let g1 := g.setAttributes obj r1.2
       let g2 := g1.setAttributes obj (compileLabel (g1.obj obj).Attributes
         (.BlockString tag value))
       (r1.1, compileShape g2 obj)) := by
  rfl

theorem specBlockShape_cases (language : String) :
    specBlockShape language = "text" ∨ specBlockShape language = "code" := by
  unfold specBlockShape
  split
  · exact Or.inl rfl
  · exact Or.inr rfl

theorem obj_setAttributes_lt (g : Graph) (p : Nat) (a : Attributes) (h : p < g.store.length) :
    (g.setAttributes p a).obj p = { g.obj p with Attributes := a } := by
  rcases obj_setAttributes_self g p a with h1 | ⟨_, h2⟩
  · exact h1
  · omega

/-! ## The nested layers as a list -/

theorem foldl_appendLayer (g : Graph) (gs : List Graph) :
    gs.foldl (fun g g2 => appendLayer g "layers" g2) g = { g with Layers := g.Layers ++ gs } ∧
    gs.foldl (fun g g2 => appendLayer g "scenarios" g2) g =
      { g with Scenarios := g.Scenarios ++ gs } ∧
    gs.foldl (fun g g2 => appendLayer g "steps" g2) g = { g with Steps := g.Steps ++ gs } := by
  induction gs generalizing g with
  | nil => cases g; simp
  | cons x xs ih =>
    simp only [List.foldl_cons]
    refine ⟨?_, ?_, ?_⟩
    · rw [(ih _).1]; simp [appendLayer]
    · rw [(ih _).2.1]; simp [appendLayer]
    · rw [(ih _).2.2]; simp [appendLayer]

theorem compileLayers_snd (ext : Externals) (fieldName : String) (fs : List Field) :
    ∀ (c : compiler) (g : Graph), (compileLayers ext c g fs fieldName).map Prod.snd =
      (nestedGraphs ext c fs).map
        (fun gs => gs.foldl (fun g g2 => appendLayer g fieldName g2) g) := by
  induction fs with
  | nil => intro c g; rw [compileLayers]; rfl
  | cons f fs ih =>
    intro c g
    match f with
    | .mk name _ (some (.map m)) =>
      simp only [compileLayers, nestedGraphs, d2ir.Field.Map, d2ir.Field.Composite,
        d2ir.Field.Name]
      cases compileLayer ext c m with
      | none => rfl
      | some r =>
        simp only [Option.map_map]
        exact ih _ _
    | .mk name _ (some .array) =>
      simp only [compileLayers, nestedGraphs, d2ir.Field.Map, d2ir.Field.Composite]
      exact ih _ _
    | .mk name _ none =>
      simp only [compileLayers, nestedGraphs, d2ir.Field.Map, d2ir.Field.Composite]
      exact ih _ _

theorem compileLayersField_snd (ext : Externals) (c : compiler) (g : Graph) (ir : Map)
    (fieldName : String) :
    (compileLayersField ext c g ir.Fields fieldName).map Prod.snd =
      (nestedGraphs ext c (layerFields ir fieldName)).map
        (fun gs => gs.foldl (fun g g2 => appendLayer g fieldName g2) g) := by
  rw [compileLayersField_eq]
  unfold layerFields
  cases (ir.GetField fieldName).bind d2ir.Field.Map with
  | none => rfl
  | some layers => exact compileLayers_snd ext fieldName layers.Fields c g

theorem nestedGraphs_names (ext : Externals) (fs : List Field) :
    ∀ (c : compiler) (gs : List Graph), nestedGraphs ext c fs = some gs →
      gs.map (fun g2 => g2.Name) = (fs.filter (fun f => f.Map.isSome)).map d2ir.Field.Name := by
  induction fs with
  | nil =>
    intro c gs h
    rw [nestedGraphs] at h
    cases h
    rfl
  | cons f fs ih =>
    intro c gs h
    rw [nestedGraphs] at h
    rw [List.filter_cons]
    cases hm : f.Map with
    | none =>
      rw [hm] at h
      simpa using ih c gs h
    | some m =>
      rw [hm] at h
      dsimp only at h
      cases hl : compileLayer ext c m with
      | none => rw [hl] at h; cases h
      | some r =>
        rw [hl] at h
        dsimp only at h
        cases hn : nestedGraphs ext r.1 fs with
        | none => rw [hn] at h; cases h
        | some gs1 =>
          rw [hn] at h
          cases h
          simpa using ih r.1 gs1 hn


/-! # The claims -/

/-- C1 (the code departs from the claim): `compileIR` does not return for every IR map.
On a circle or a square, `validateKey` compares `Width.Value` with `Height.Value` as soon
as the field is `width` and the height is set, or the field is `height` and the width is
set, and it never tests the other pointer: when that one is nil the run stops with a nil
dereference and `compileIR` has no result. A `width` field without a value next to a
height is such a case, because the compile pass skips it without an error and the
validator runs. Whenever `compileIR` does return, its result is binary: the graph and no
error when the error list of `compileLayer` is empty, no graph and that non-empty list
otherwise, and the list extends the errors the compiler started with. -/
theorem compileIR_nil_dereference (ext : Externals) (c : compiler) (g : Graph) (obj : Nat)
    (f : Field)
    (hs : (g.obj obj).Attributes.Shape.Value = d2target.ShapeCircle ∨
      (g.obj obj).Attributes.Shape.Value = d2target.ShapeSquare)
    (hf : (reserved f = "width" ∧ (g.obj obj).Attributes.Height.isSome = true ∧
        (g.obj obj).Attributes.Width = none) ∨
      (reserved f = "height" ∧ (g.obj obj).Attributes.Width.isSome = true ∧
        (g.obj obj).Attributes.Height = none)) :
    validateKey ext c g obj f = none ∧
      (∀ (fs1 fs2 : List Field) (es : List d2ir.Edge) (c1 : compiler),
        validateFields ext c1 g obj fs1 = some c →
        validateKeys ext c1 g obj (.mk (fs1 ++ f :: fs2) es) = none) ∧
      (∀ (pe : d2parser.ParseError) (m : Map)
          (r : Option Graph × Option d2parser.ParseError),
        compileIR ext pe m = some r →
        ∃ s, compileLayer ext { err := pe } m = some s ∧ pe.Errors <+: s.1.err.Errors ∧
          r = if s.1.err.Errors = [] then (some s.2, none) else (none, some s.1.err)) := by
  have hkey : validateKey ext c g obj f = none := by
    have hres : SimpleReservedKeywords.contains (strings.ToLower f.Name) = true := by
      have hr : strings.ToLower f.Name = "width" ∨ strings.ToLower f.Name = "height" := by
        rcases hf with h | h
        · exact Or.inl h.1
        · exact Or.inr h.1
      rcases hr with h | h <;> (rw [h]; decide)
    have hs2 : ((g.obj obj).Attributes.Shape.Value == d2target.ShapeCircle ||
        (g.obj obj).Attributes.Shape.Value == d2target.ShapeSquare) = true := by
      rcases hs with h1 | h1 <;> simp [h1]
    rw [validateKey_reserved ext c g obj f hres, validateReservedKey]
    have he : validateKeyEqual (validateKeyContainer c g obj f) g obj f = none := by
      rcases hf with ⟨h1, h2, h3⟩ | ⟨h1, h2, h3⟩
      · simp only [validateKeyEqual, hs2, h1, h2, h3, if_true, beq_self_eq_true, Bool.true_and,
          Bool.true_or]
      · simp only [validateKeyEqual, hs2, h1, h2, h3, if_true, beq_self_eq_true, Bool.true_and,
          Bool.or_true]
        cases (g.obj obj).Attributes.Width <;> rfl
    rw [he]
  refine ⟨hkey, ?_, ?_⟩
  · intro fs1 fs2 es c1 h1
    rw [validateKeys]
    induction fs1 generalizing c1 with
    | nil =>
      rw [validateFields] at h1
      cases h1
      rw [List.nil_append, validateFields, hkey]
    | cons f1 fs1 ih =>
      rw [validateFields] at h1
      rw [List.cons_append, validateFields]
      cases hk : validateKey ext c1 g obj f1 with
      | none => rfl
      | some c2 =>
        rw [hk] at h1
        exact ih c2 h1
  · intro pe m r h
    unfold compileIR at h
    dsimp only at h
    cases hl : compileLayer ext { err := pe } m with
    | none => rw [hl] at h; cases h
    | some s =>
      rw [hl] at h
      refine ⟨s, rfl, compileLayer_grows ext { err := pe } m s hl, ?_⟩
      rcases he : s.1.err.Errors with _ | ⟨e, es⟩
      · simp [he] at h ⊢
        exact h.symm
      · simp [he] at h ⊢
        exact h.symm

/-- Witness for `compileIR_nil_dereference`: for `a: (shape: circle; width; height: 5)`
the compile pass reports nothing, the object `a` has a height and no width, the
validator stops at the field `width`, and `compileIR` has no result. -/
theorem compileIR_nil_dereference_witness :
    (compileMap sampleExternals {} d2graph.NewGraph 0 bareWidthIR).1.err.Errors = [] ∧
      ((sampleGraph bareWidthIR).obj 1).Attributes.Width = none ∧
      ((sampleGraph bareWidthIR).obj 1).Attributes.Height = some { Value := "5" } ∧
      validateKey sampleExternals {} (sampleGraph bareWidthIR) 1 (.mk "width" none none) = none ∧
      (compileIR sampleExternals {} bareWidthIR).isNone = true :=
  ⟨by decide, by decide, by decide,
   (compileIR_nil_dereference sampleExternals {} (sampleGraph bareWidthIR) 1
      (.mk "width" none none) (Or.inl (by decide)) (Or.inl ⟨by decide, by decide, by decide⟩)).1,
   by decide⟩

/-- C2 (as stated, refuted): in the class scenario the method built from the child
`getName()` is not named `getName`: the parentheses stay in the name. -/
theorem compileClass_scenario_method_name :
    ((compileClass classScenario 1).obj 1).Class ≠
      some { Fields := [{ Name := "name", Typ := "string", Visibility := "public" }],
             Methods := [{ Name := "getName", Return := "string", Visibility := "public" }] } := by
  decide

/-- C2 (amended): `compileClass` builds the class record by adding, for every child in
order, the member that the specification describes (name with at most one leading sigil
removed, visibility from the sigil, type or return type from the Label with the defaults
empty and "void"); in the class scenario this gives Field(name, string, public) and
Method(getName(), string, public). -/
theorem compileClass_members (g : Graph) (obj : Nat) (h : obj < g.store.length) :
    ((compileClass g obj).obj obj).Class =
        some ((g.obj obj).ChildrenArray.foldl (fun cls ch => specMember cls (g.obj ch)) {}) ∧
      ((compileClass classScenario 1).obj 1).Class =
        some { Fields := [{ Name := "name", Typ := "string", Visibility := "public" }],
               Methods := [{ Name := "getName()", Return := "string", Visibility := "public" }] } := by
  exact ⟨compileClass_Class g obj h, by decide⟩

/-- Witness for `compileClass_members`: the class scenario. -/
theorem compileClass_members_witness :
    1 < classScenario.store.length ∧
      ((compileClass classScenario 1).obj 1).Class =
        some ((classScenario.obj 1).ChildrenArray.foldl
          (fun cls ch => specMember cls (classScenario.obj ch)) {}) :=
  ⟨by decide, (compileClass_members classScenario 1 (by decide)).1⟩

/-- C3: `compileClass` partitions the children by the name that remains after stripping
the visibility sigil: the methods are exactly the children whose stripped name contains
`(`, the fields exactly the others, each in the children's original order, and
`len(Fields) + len(Methods)` is the number of children. -/
theorem compileClass_partition (g : Graph) (obj : Nat) (h : obj < g.store.length) :
    ∃ cls, ((compileClass g obj).obj obj).Class = some cls ∧
      cls.Methods = (((g.obj obj).ChildrenArray.map g.obj).filter
        (fun f => specIsMethod f.IDVal)).map specMethod ∧
      cls.Fields = (((g.obj obj).ChildrenArray.map g.obj).filter
        (fun f => !specIsMethod f.IDVal)).map specField ∧
      cls.Fields.length + cls.Methods.length = (g.obj obj).ChildrenArray.length := by
  refine ⟨_, compileClass_Class g obj h, ?_⟩
  have hf : (g.obj obj).ChildrenArray.foldl (fun cls ch => specMember cls (g.obj ch)) {} =
      ((g.obj obj).ChildrenArray.map g.obj).foldl specMember {} := by
    rw [List.foldl_map]
  rw [hf, foldl_specMember]
  refine ⟨by simp, by simp, ?_⟩
  simp only [List.nil_append, List.length_map]
  have := List.length_eq_length_filter_add (l := (g.obj obj).ChildrenArray.map g.obj)
    (fun f : Object => specIsMethod f.IDVal)
  simp only [List.length_map] at this
  omega

/-- Witness for `compileClass_partition`: the class scenario. -/
theorem compileClass_partition_witness :
    1 < classScenario.store.length ∧
      ∃ cls, ((compileClass classScenario 1).obj 1).Class = some cls ∧
        cls.Methods = (((classScenario.obj 1).ChildrenArray.map classScenario.obj).filter
          (fun f => specIsMethod f.IDVal)).map specMethod ∧
        cls.Fields = (((classScenario.obj 1).ChildrenArray.map classScenario.obj).filter
          (fun f => !specIsMethod f.IDVal)).map specField ∧
        cls.Fields.length + cls.Methods.length = (classScenario.obj 1).ChildrenArray.length :=
  ⟨by decide, compileClass_partition classScenario 1 (by decide)⟩

/-- C4: `compileSQLTable` produces exactly one column per child, in child order: the
column is named after the child, typed by the child's Label (empty when the Label equals
the child's name) and carries the child's Constraint value (empty when there is none). -/
theorem compileSQLTable_columns (g : Graph) (obj : Nat) (h : obj < g.store.length) :
    ((compileSQLTable g obj).obj obj).SQLTable =
      some { Columns := (g.obj obj).ChildrenArray.map (fun col => specColumn (g.obj col)) } := by
  unfold compileSQLTable
  rw [obj_setObj_self _ _ _ (by simpa using h)]
  simp only [foldl_columns]
  simp

/-- Witness for `compileSQLTable_columns`: the table scenario, whose columns are
`id: int` with constraint "primary_key" and the untyped `name`. -/
theorem compileSQLTable_columns_witness :
    1 < tableScenario.store.length ∧
      ((compileSQLTable tableScenario 1).obj 1).SQLTable =
        some { Columns := [
          { Name := { Label := "id" }, Typ := { Label := "int" }, Constraint := "primary_key" },
          { Name := { Label := "name" }, Typ := { Label := "" }, Constraint := "" }] } :=
  ⟨by decide, (compileSQLTable_columns tableScenario 1 (by decide)).trans (by decide)⟩

/-- C5: after `compileClass` or `compileSQLTable` runs on an object, the object has no
generic children (child list and name lookup are both empty), and the flat object list
of the graph is the list before the call with every former child of the object removed,
the other objects keeping their order: the in-place splice loop is a filter. -/
theorem compile_removes_children (g : Graph) (obj : Nat) (h : obj < g.store.length) :
    (((compileClass g obj).obj obj).Children = [] ∧
      ((compileClass g obj).obj obj).ChildrenArray = [] ∧
      (compileClass g obj).Objects =
        g.Objects.filter (fun p => p ∉ (g.obj obj).ChildrenArray)) ∧
    (((compileSQLTable g obj).obj obj).Children = [] ∧
      ((compileSQLTable g obj).obj obj).ChildrenArray = [] ∧
      (compileSQLTable g obj).Objects =
        g.Objects.filter (fun p => p ∉ (g.obj obj).ChildrenArray)) := by
  unfold compileClass compileSQLTable
  simp only [setObj_Objects, removeChildren_eq]
  rw [obj_setObj_self _ _ _ (by simpa using h), obj_setObj_self _ _ _ (by simpa using h)]
  simp

/-- Witness for `compile_removes_children`: in the table scenario the flat list
`[t, id, b, name]` becomes `[t, b]`. -/
theorem compile_removes_children_witness :
    1 < tableScenario.store.length ∧ tableScenario.Objects = [1, 2, 3, 4] ∧
      (compileSQLTable tableScenario 1).Objects = [1, 3] ∧
      (compileClass tableScenario 1).Objects = [1, 3] :=
  ⟨by decide, by decide,
    (compile_removes_children tableScenario 1 (by decide)).2.2.2.trans (by decide),
    (compile_removes_children tableScenario 1 (by decide)).1.2.2.trans (by decide)⟩


/-- C6: specialization is mutually exclusive. The IR that the compiler receives is
already resolved and merged, so the names of the fields of each of its maps are pairwise
distinct (`uniqueNames`); for every such IR map, no object of the graph that
`compileLayer` builds from a fresh graph has both a class and a table record. And for
every map, a `compileMap` call on a valid object sets the class record only when the
shape of the object after the field loop is "class", the table record only when it is
"sql_table", and neither otherwise; it leaves the other record as the field loop left
it. -/
theorem specialization_exclusive (ext : Externals) (c : compiler) (m : Map) (g : Graph)
    (obj : Nat) (hu : uniqueNames m = true) (hobj : obj < g.store.length) :
    (∀ q, both ((compileMap ext c d2graph.NewGraph d2graph.NewGraph.Root m.CopyRoot).2.obj q) =
        false) ∧
      (∀ r, compileLayer ext c m = some r → ∀ q, both (r.2.obj q) = false) ∧
      (((fieldLoop ext c g obj m).2.obj obj).Attributes.Shape.Value = "class" →
        ((compileMap ext c g obj m).2.obj obj).Class.isSome = true ∧
        ((compileMap ext c g obj m).2.obj obj).SQLTable =
          ((fieldLoop ext c g obj m).2.obj obj).SQLTable) ∧
      (((fieldLoop ext c g obj m).2.obj obj).Attributes.Shape.Value = "sql_table" →
        ((compileMap ext c g obj m).2.obj obj).SQLTable.isSome = true ∧
        ((compileMap ext c g obj m).2.obj obj).Class =
          ((fieldLoop ext c g obj m).2.obj obj).Class) ∧
      (((fieldLoop ext c g obj m).2.obj obj).Attributes.Shape.Value ≠ "class" →
        ((fieldLoop ext c g obj m).2.obj obj).Attributes.Shape.Value ≠ "sql_table" →
        ((compileMap ext c g obj m).2.obj obj).Class =
          ((fieldLoop ext c g obj m).2.obj obj).Class ∧
        ((compileMap ext c g obj m).2.obj obj).SQLTable =
          ((fieldLoop ext c g obj m).2.obj obj).SQLTable) := by
  have hl := Nat.lt_of_lt_of_le hobj (fieldLoop_length ext c g obj m)
  have hrec := compileShape_records (fieldLoop ext c g obj m).2 obj hl
  have hk := (keeps_compileEdges ext obj m.Edges (fieldLoop ext c g obj m).1
    (compileShape (fieldLoop ext c g obj m).2 obj)).2 obj (by rw [length_compileShape]; exact hl)
  rw [← compileMap_fieldLoop] at hk
  have hbuilt : ∀ q, both ((compileMap ext c d2graph.NewGraph 0 m).2.obj q) = false := by
    intro q
    have h := compileMap_frame ext m c d2graph.NewGraph 0 hu (by decide) rfl rfl rfl
    by_cases hq : q = 0
    · rw [hq]; exact h.2
    · exact h.1.fresh q (by
        have : d2graph.NewGraph.store.length = 1 := rfl
        omega)
  refine ⟨hbuilt, ?_, ?_, ?_, ?_⟩
  · intro r hr q
    have hobjeq : r.2.obj q = (compileMap ext c d2graph.NewGraph 0 m).2.obj q := by
      simp only [Graph.obj, store_compileLayer ext c m r hr]
    rw [hobjeq]
    exact hbuilt q
  · intro hs
    rw [hk.1, hk.2]
    exact hrec.1 hs
  · intro hs
    rw [hk.1, hk.2]
    exact hrec.2.1 hs
  · intro h1 h2
    rw [hk.1, hk.2, hrec.2.2 h1 h2]
    exact ⟨rfl, rfl⟩

/-- Witness for `specialization_exclusive`: a diagram with a class `a` (pointer 1) and a
table `t` (pointer 4). -/
theorem specialization_exclusive_witness :
    uniqueNames classTableIR = true ∧ 0 < d2graph.NewGraph.store.length ∧
      (∀ q, both ((sampleGraph classTableIR).obj q) = false) ∧
      (compileLayer sampleExternals {} classTableIR).map
          (fun r => ((r.2.obj 1).Class.isSome, (r.2.obj 4).SQLTable.isSome)) =
        some (true, true) :=
  ⟨by decide, by decide,
    (specialization_exclusive sampleExternals {} classTableIR d2graph.NewGraph 0 (by decide)
      (by decide)).1, by decide⟩


/-- C7 (as stated, refuted): compiling `a: (shape: circle; width: 5; height: 5)` does not
succeed: `compileIR` returns no graph, and the errors are the two "only applicable to
image shapes" errors of the validator. -/
theorem compileIR_circle_equal_fails :
    (compileIR sampleExternals {} (leafIR (sizedFields "circle" "5" "5"))).map
        (fun r => (r.1.isNone, r.2)) =
      some (true, some { Errors := [errWidthImage, errHeightImage] }) := by
  decide

/-- C7 (amended): compiling a diagram whose single object `a`, at root level, has shape
circle and sets width and height to integer strings `w` and `h` does not succeed. The
compile pass appends no error and the run returns, but the validator rejects width and
height on a shape that is not an image, so `compileIR` returns no graph. When the two
values are written identically (width: 5 and height: 5) the errors are exactly "width is
only applicable to image shapes." and "height is only applicable to image shapes."; when
they are written differently, the same integer included (5 and 05: the validator compares
the strings), each of the two is preceded by a "width and height must be equal"
error. -/
theorem compileIR_circle_equal (ext : Externals) (w h : String) (n m : Int)
    (hs : ext.IsShape "circle" = true) (hw : strconv.Atoi w = .ok n)
    (hh : strconv.Atoi h = .ok m) :
    (compileMap ext {} d2graph.NewGraph 0 (leafIR (sizedFields "circle" w h))).1.err.Errors = [] ∧
      (compileIR ext {} (leafIR (sizedFields "circle" w h))).map (fun r => (r.1.isNone, r.2)) =
        some (true, some { Errors :=
          if w = h then [errWidthImage, errHeightImage]
          else [errEqual "circle", errWidthImage, errEqual "circle", errHeightImage] }) := by
  have h1 := compileMap_sized_leaf ext {} "circle" w h n m hs (Or.inl rfl) hw hh
  have h2 := compileLayer_sized ext "circle" w h n m hs (Or.inl rfl) hw hh
  refine ⟨by rw [h1], ?_⟩
  unfold compileIR
  dsimp only
  rw [h2]
  by_cases hwh : w = h <;>
    simp [hwh, errWidthImage, errHeightImage, errEqual]

/-- Witness for `compileIR_circle_equal`: the sample collaborators with the values 5 and
5, and with 5 and 05. -/
theorem compileIR_circle_equal_witness :
    sampleExternals.IsShape "circle" = true ∧ strconv.Atoi "5" = .ok 5 ∧
      strconv.Atoi "05" = .ok 5 ∧
      (compileIR sampleExternals {} (leafIR (sizedFields "circle" "5" "5"))).map
          (fun r => (r.1.isNone, r.2)) =
        some (true, some { Errors := [errWidthImage, errHeightImage] }) ∧
      (compileIR sampleExternals {} (leafIR (sizedFields "circle" "5" "05"))).map
          (fun r => (r.1.isNone, r.2)) =
        some (true, some { Errors :=
          [errEqual "circle", errWidthImage, errEqual "circle", errHeightImage] }) :=
  ⟨by decide, rfl, rfl,
    (compileIR_circle_equal sampleExternals "5" "5" 5 5 (by decide) rfl rfl).2,
    (compileIR_circle_equal sampleExternals "5" "05" 5 5 (by decide) rfl rfl).2⟩

/-- C8 (as stated, refuted): for `a: (shape: circle; width: 5; height: 7)` the validator
reports the "width and height must be equal" error twice, not once. -/
theorem validate_equal_reported_twice :
    (compileLayer sampleExternals {} (leafIR (sizedFields "circle" "5" "7"))).map
        (fun r => r.1.err.Errors.count (errEqual "circle")) = some 2 := by
  decide

/-- C8 (amended): for every circle- or square-shaped object with a width and a height,
`validateKey` reports, for each field named `width` or `height`, one "width and height
must be equal" error when the two values differ and none when they are equal; a map
that sets both therefore gets that error twice when they differ (for example width: 5,
height: 7) and never when they are equal. -/
theorem validate_equal_dimensions (ext : Externals) (c : compiler) (g : Graph) (obj : Nat)
    (f : Field) (s w h : String) (n m : Int)
    (hcs : s = "circle" ∨ s = "square")
    (hshape : (g.obj obj).Attributes.Shape.Value = s)
    (hwidth : (g.obj obj).Attributes.Width = some { Value := w })
    (hheight : (g.obj obj).Attributes.Height = some { Value := h })
    (hf : f.Name = "width" ∨ f.Name = "height")
    (hs : ext.IsShape s = true) (hw : strconv.Atoi w = .ok n) (hh : strconv.Atoi h = .ok m) :
    validateKey ext c g obj f =
        some (validateKeyName ext
          (if w = h then validateKeyContainer c g obj f
           else (validateKeyContainer c g obj f).errorf (errEqual s).Message) g obj f) ∧
      (compileLayer ext {} (leafIR (sizedFields s w h))).map (fun r => r.1.err.Errors) =
        some (if w = h then [errWidthImage, errHeightImage]
         else [errEqual s, errWidthImage, errEqual s, errHeightImage]) := by
  refine ⟨?_, by rw [compileLayer_sized ext s w h n m hs hcs hw hh]; rfl⟩
  have hres : SimpleReservedKeywords.contains (strings.ToLower f.Name) = true := by
    rcases hf with h1 | h1 <;> (rw [h1]; decide)
  have hr : reserved f = "width" ∨ reserved f = "height" := by
    unfold reserved
    rcases hf with h1 | h1
    · left; rw [h1]; decide
    · right; rw [h1]; decide
  rw [validateKey_reserved ext c g obj f hres,
    validateReservedKey_some ext c g obj f _
      (validateKeyEqual_eq _ g obj f w h (by rw [hshape]; exact hcs) hwidth hheight hr), hshape]
  rfl

/-- Witness for `validate_equal_dimensions`: the object `a` of
`a: (shape: circle; width: 5; height: 7)` and its field `width`. -/
theorem validate_equal_dimensions_witness :
    (compileLayer sampleExternals {} (leafIR (sizedFields "circle" "5" "7"))).map
        (fun r => r.1.err.Errors) =
      some [errEqual "circle", errWidthImage, errEqual "circle", errHeightImage] :=
  (validate_equal_dimensions sampleExternals {} (sizedGraph "circle" "5" "7") 1
    (scalarField "width" "5") "circle" "5" "7" 5 7 (Or.inl rfl) rfl rfl rfl (Or.inl rfl)
    (by decide) rfl rfl).2.trans (by decide)

/-- C9 (as stated, refuted): an image-shaped object with a parseable icon, no child
object and no width or height still gets validator errors when its map has a style map
with `3d`. -/
theorem validate_image_style_errors :
    (compileLayer sampleExternals {} imageStyleIR).map (fun r => r.1.err.Errors) =
      some [⟨"key \"3d\" can only be applied to squares and rectangles"⟩,
       ⟨"image shapes cannot have children."⟩] := by
  decide

/-- C9 (amended): for every image-shaped object and every map made of simple reserved
fields only (so no child object and no style map), none of them `width` or `height` and
exactly one of them named `shape`: `validateKeys` reports exactly one error, the one
naming the missing "icon" field, when the object has no icon, and no error when it has
one. In particular `a: (shape: image)` compiles to exactly that error, and adding a
parseable `icon` clears it. -/
theorem validate_image_icon (ext : Externals) (c : compiler) (g : Graph) (obj : Nat)
    (fs : List Field) (es : List d2ir.Edge) (u url : String)
    (hi : ext.IsShape "image" = true)
    (hshape : (g.obj obj).Attributes.Shape.Value = "image")
    (hfs : ∀ f ∈ fs, SimpleReservedKeywords.contains (strings.ToLower f.Name) = true ∧
      f.Name ≠ "width" ∧ f.Name ≠ "height")
    (hone : (fs.filter (fun f => f.Name == "shape")).length = 1)
    (hu : ext.urlParse u = .ok url) :
    (validateKeys ext c g obj (.mk fs es)).map (fun c1 => c1.err.Errors) =
        some (c.err.Errors ++
          (if (g.obj obj).Attributes.Icon.isNone then [errIcon] else [])) ∧
      (compileLayer ext {} (leafIR (imageFields none))).map (fun r => r.1.err.Errors) =
        some [errIcon] ∧
      (compileLayer ext {} (leafIR (imageFields (some u)))).map (fun r => r.1.err.Errors) =
        some [] := by
  refine ⟨?_, by rw [compileLayer_image_none ext hi]; rfl,
    by rw [compileLayer_image_some ext u url hi hu]; rfl⟩
  rw [validateKeys, validateFields_image ext g obj hi hshape fs c hfs, hone]
  rfl

/-- Witness for `validate_image_icon`: the object `a` of `a: (shape: image)` with the
sample collaborators and the icon `http://x/y.png`. -/
theorem validate_image_icon_witness :
    (validateKeys sampleExternals {} (imageGraph none) 1
        (.mk (imageFields none) [])).map (fun c1 => c1.err.Errors) = some [errIcon] ∧
      (compileLayer sampleExternals {} (leafIR (imageFields none))).map
        (fun r => r.1.err.Errors) = some [errIcon] ∧
      (compileLayer sampleExternals {}
        (leafIR (imageFields (some "http://x/y.png")))).map (fun r => r.1.err.Errors) =
        some [] :=
  validate_image_icon sampleExternals {} (imageGraph none) 1 (imageFields none) []
    "http://x/y.png" "http://x/y.png" (by decide) rfl (imageFields_reserved none)
    (imageFields_shape none) rfl


/-- C10 (as stated, refuted): an edge that `Connect` rejects gets the connection error
only: its map is not compiled, so the field `foo` of the map, which is not a reserved
keyword, gets no "edge map keys must be reserved keywords" error. -/
theorem compileEdge_rejected_no_keyword_error :
    (compileEdge sampleExternals {} d2graph.NewGraph 0 rejectedEdge).1.err.Errors =
        [⟨"edge between a container and its descendant"⟩] ∧
      (compileEdge sampleExternals {} d2graph.NewGraph 0 rejectedEdge).2.Edges = [] := by
  decide

/-- C10 (amended): for every edge that `Connect` accepts and whose nested map has
fields, `compileEdge` appends over the fields of the edge's own map exactly one "edge map
keys must be reserved keywords" error per field that is not a reserved keyword, and for
a reserved field only what compiling that field reports; the graph, and so the
attributes of the edge, is the one obtained from the same edge with the non-reserved
fields left out, and the reserved fields report the same errors there. For an edge that
`Connect` rejects, `compileEdge` appends the connection error alone and leaves the graph
as it is. -/
theorem compileEdge_map_fields (ext : Externals) (c : compiler) (g : Graph) (obj : Nat)
    (id : d2ir.EdgeID) (primary : Option d2ast.Scalar) (fields : List Field)
    (edges : List d2ir.Edge) :
    (ext.connectCheck (d2graphIDA id.SrcPath) (d2graphIDA id.DstPath) = none →
      (compileEdge ext c g obj (.mk id primary (some (.mk fields edges)))).1.err.Errors =
          c.err.Errors ++ fields.flatMap (edgeMapFieldErrors ext) ∧
        (compileEdge ext c g obj (.mk id primary (some (.mk fields edges)))).2 =
          (compileEdge ext c g obj (.mk id primary
            (some (.mk (fields.filter (fun f => ReservedKeywords.contains f.Name)) edges)))).2 ∧
        (compileEdge ext c g obj (.mk id primary
            (some (.mk (fields.filter (fun f => ReservedKeywords.contains f.Name))
              edges)))).1.err.Errors =
          c.err.Errors ++ (fields.filter (fun f => ReservedKeywords.contains f.Name)).flatMap
            (fun f => (compileEdgeField ext {} default f).1.err.Errors)) ∧
      (∀ err, ext.connectCheck (d2graphIDA id.SrcPath) (d2graphIDA id.DstPath) = some err →
        compileEdge ext c g obj (.mk id primary (some (.mk fields edges))) =
          (c.errorf err, g)) := by
  constructor
  · intro h
    simp only [compileEdge, d2graph.Graph.Connect, d2ir.Edge.ID, d2ir.Edge.Primary,
      d2ir.Edge.Map, d2ir.Map.Fields, h]
    refine ⟨compileEdgeMapFields_errors .., ?_, ?_⟩
    · rw [compileEdgeMapFields_filter ext c c]
    · rw [compileEdgeMapFields_errors, flatMap_edgeMapFieldErrors_filter]
  · intro err h
    simp only [compileEdge, d2graph.Graph.Connect, d2ir.Edge.ID, h]

/-- Witness for `compileEdge_map_fields`: the edge `a -> b` with the fields `foo`, `label`
and `style` reports one keyword error and still gets its label. -/
theorem compileEdge_map_fields_witness :
    sampleExternals.connectCheck (d2graphIDA ["a"]) (d2graphIDA ["b"]) = none ∧
      (compileEdge sampleExternals {} d2graph.NewGraph 0 sampleEdge).1.err.Errors =
        [⟨"edge map keys must be reserved keywords"⟩] ∧
      ((compileEdge sampleExternals {} d2graph.NewGraph 0 sampleEdge).2.edge 0).Attributes.Label.Value
        = "hi" :=
  ⟨by decide, ((compileEdge_map_fields sampleExternals {} d2graph.NewGraph 0 _ none _ []).1
    (by decide)).1.trans (by decide), by decide⟩


/-- C11: for every object with a NearKey, `validateNear` reports no error for it if and
only if the key resolves to an existing object by absolute path from the root, or its
first element is a near constant and the object is a direct child of the root, has no
children and is neither source nor destination of an edge; so the whole pass reports no
error exactly when every object of the flat list with a NearKey is of that kind. -/
theorem validateNear_allowed_iff (ext : Externals) (c : compiler) (g : Graph) :
    (∀ obj, ∀ nearKey ∈ (g.obj obj).Attributes.NearKey,
      ((validateNearObject ext c g obj).err.Errors = c.err.Errors ↔
        nearAllowed ext g obj nearKey)) ∧
    ((validateNear ext c g).err.Errors = c.err.Errors ↔
      ∀ obj ∈ g.Objects, ∀ nearKey ∈ (g.obj obj).Attributes.NearKey,
        nearAllowed ext g obj nearKey) := by
  constructor
  · intro obj nearKey hk
    rw [validateNearObject_errors, ← nearErrors_nil_iff ext g obj nearKey hk]
    simp
  · rw [validateNear_errors]
    simp only [List.append_right_eq_self, List.flatMap_eq_nil_iff]
    constructor
    · intro h obj hobj nearKey hk
      exact (nearErrors_nil_iff ext g obj nearKey hk).mp (h obj hobj)
    · intro h obj hobj
      cases hk : (g.obj obj).Attributes.NearKey with
      | none => rw [nearErrors_eq, hk]
      | some nearKey => exact (nearErrors_nil_iff ext g obj nearKey hk).mpr (h obj hobj nearKey hk)

/-- Witness for `validateNear_allowed_iff`: `near: top-center` on the bare root-level
object `a` is accepted, and on the object `x.a`, which is not at root level and has a
child, it is an error. -/
theorem validateNear_allowed_iff_witness :
    (validateNear sampleExternals {} (sampleGraph nearRootIR)).err.Errors = [] ∧
      (validateNear sampleExternals {} (sampleGraph nearNestedIR)).err.Errors ≠ [] ∧
      (compileLayer sampleExternals {} nearRootIR).map (fun r => r.1.err.Errors) = some [] ∧
      (compileLayer sampleExternals {} nearNestedIR).map (fun r => r.1.err.Errors) =
        some [errNearRoot] :=
  ⟨(validateNear_allowed_iff sampleExternals {} (sampleGraph nearRootIR)).2.mpr (by decide),
   fun h => absurd
     ((validateNear_allowed_iff sampleExternals {} (sampleGraph nearNestedIR)).2.mp h)
     (by decide),
   by decide, by decide⟩

/-- C12: `compileLabel` follows the label/value rule for every primary value. A scalar
that is not a block string sets Label to the scalar's string and changes nothing else,
Language and Shape included. A block string with tag `t` sets Language to the long form
of `t` when `t` is a key of `ShortToFullLanguageAliases` and to `t` itself otherwise,
and sets Shape to "text" exactly when that Language is "markdown" or "latex" and to
"code" in every other case. -/
theorem compileLabel_rule (attrs : Attributes) :
    (∀ scalar : d2ast.Scalar, (∀ tag value, scalar ≠ .BlockString tag value) →
      compileLabel attrs scalar = { attrs with Label := { Value := scalar.ScalarString } }) ∧
    (∀ tag value,
      (compileLabel attrs (.BlockString tag value)).Language =
          (ShortToFullLanguageAliases.lookup tag).getD tag ∧
        (compileLabel attrs (.BlockString tag value)).Language = specLanguage tag ∧
        ((compileLabel attrs (.BlockString tag value)).Shape.Value = "text" ↔
          ((compileLabel attrs (.BlockString tag value)).Language = "markdown" ∨
           (compileLabel attrs (.BlockString tag value)).Language = "latex")) ∧
        ((compileLabel attrs (.BlockString tag value)).Shape.Value = "code" ↔
          ¬ ((compileLabel attrs (.BlockString tag value)).Language = "markdown" ∨
             (compileLabel attrs (.BlockString tag value)).Language = "latex"))) := by
  constructor
  · intro scalar hs
    cases scalar with
    | BlockString tag value => exact absurd rfl (hs tag value)
    | _ => rfl
  · intro tag value
    rw [compileLabel_block, lookup_alias]
    refine ⟨rfl, rfl, ?_, ?_⟩
    · show specBlockShape (specLanguage tag) = "text" ↔ _
      unfold specBlockShape
      split
      · rename_i h; exact ⟨fun _ => h, fun _ => rfl⟩
      · rename_i h; exact ⟨fun hc => absurd hc (by decide), fun hc => absurd hc h⟩
    · show specBlockShape (specLanguage tag) = "code" ↔ _
      unfold specBlockShape
      split
      · rename_i h; exact ⟨fun hc => absurd hc (by decide), fun hc => absurd h hc⟩
      · rename_i h; exact ⟨fun _ => h, fun _ => rfl⟩

/-- Witness for `compileLabel_rule`: the scalar `hi` becomes the label, and a block
string tagged `md` gives the language markdown and the shape text. -/
theorem compileLabel_rule_witness :
    compileLabel {} (.UnquotedString "hi") = { Label := { Value := "hi" } } ∧
      (compileLabel {} (.BlockString "md" "# t")).Language = "markdown" ∧
      (compileLabel {} (.BlockString "md" "# t")).Shape.Value = "text" ∧
      (compileLabel {} (.BlockString "c" "int x;")).Language = "c" ∧
      (compileLabel {} (.BlockString "c" "int x;")).Shape.Value = "code" :=
  ⟨(compileLabel_rule {}).1 (.UnquotedString "hi") (fun _ _ h => by cases h),
   ((compileLabel_rule {}).2 "md" "# t").2.1,
   by decide, by decide, by decide⟩

/-- C13 (the code departs from the claim): a field with a value whose name lower-cases
to a simple reserved keyword without being spelled in lower case (`Direction`, `SHAPE`)
is taken for a keyword by `compileField`, so no child object is created, but the switch
of `compileReserved` compares the name as written and matches none of its cases: the
field is dropped, the graph and the error list stay as they were, and the attribute
that the lower-case spelling assigns is not assigned. -/
theorem compileField_keyword_case_dropped (ext : Externals) (c : compiler) (g : Graph)
    (obj : Nat) (name : String) (scalar : d2ast.Scalar) (composite : Option d2ir.Composite)
    (hl : SimpleReservedKeywords.contains (strings.ToLower name) = true)
    (hn : name ∉ SimpleReservedKeywords) :
    compileField ext c g obj (.mk name (some scalar) composite) = (c, g) := by
  have hr := compileReserved_other ext c (g.obj obj).Attributes (.mk name (some scalar) composite)
    scalar rfl hn
  have hk : compileFieldKeyword ext c g obj (.mk name (some scalar) composite) = some (c, g) := by
    simp only [compileFieldKeyword, d2ir.Field.Name, hl, if_true, hr, setAttributes_self]
  exact compileField_keyword ext c g obj _ _ hk

/-- Witness for `compileField_keyword_case_dropped`: on the object `a`, `Direction: up`
and `SHAPE: circle` change nothing, while `direction: up` and `shape: circle` set the
direction and the shape; none of the four creates a child object. -/
theorem compileField_keyword_case_dropped_witness :
    compileField sampleExternals {} leafGraph 1 (scalarField "Direction" "up") =
        ({}, leafGraph) ∧
      ((compileField sampleExternals {} leafGraph 1
        (scalarField "Direction" "up")).2.obj 1).Attributes.Direction.Value = "" ∧
      ((compileField sampleExternals {} leafGraph 1
        (scalarField "direction" "up")).2.obj 1).Attributes.Direction.Value = "up" ∧
      ((compileField sampleExternals {} leafGraph 1
        (scalarField "SHAPE" "circle")).2.obj 1).Attributes.Shape.Value = "rectangle" ∧
      ((compileField sampleExternals {} leafGraph 1
        (scalarField "shape" "circle")).2.obj 1).Attributes.Shape.Value = "circle" ∧
      (compileField sampleExternals {} leafGraph 1
        (scalarField "direction" "up")).2.store.length = leafGraph.store.length ∧
      (compileField sampleExternals {} leafGraph 1
        (scalarField "shape" "circle")).2.store.length = leafGraph.store.length :=
  ⟨compileField_keyword_case_dropped sampleExternals {} leafGraph 1 "Direction"
      (.UnquotedString "up") none (by decide) (by decide),
   by decide, by decide, by decide, by decide, by decide, by decide⟩

/-- C14 (as stated, refuted): compiling `a: (shape: circle; style: (3d: maybe))` leaves
the 3d sub-slot present and reports the value error, but the final error list does not
contain the "3d can only be applied to squares and rectangles" error. -/
theorem threeDee_check_suppressed :
    (compileLayer sampleExternals {} (leafIR (threeDeeFields "circle" "maybe"))).map
        (fun r => ((r.2.obj 1).Attributes.Style.ThreeDee.isSome, r.1.err.Errors,
          decide (errThreeDee ∈ r.1.err.Errors))) =
      some (true, [⟨"expected \"3d\" to be true or false"⟩], false) := by
  decide

/-- C14 (amended): a failed style value keeps its sub-slot but suppresses the later
compatibility checks. For every style map that sets `3d` to a value the per-property
validator rejects, the sub-slot for 3d is present after `compileStyle` and the value
error is in its error list. `compileLayer` runs `validateKeys` only after a compile pass
without errors, so after any compile pass that reported an error the errors are those of
the compile pass and of `validateNear`; for an object `a` with any valid shape and that
style the final error list is the value error alone, without the "3d can only be applied
to squares and rectangles" error. -/
theorem style_rejected_value (ext : Externals) (c : compiler) (attrs : Attributes) (m : Map)
    (f : Field) (v : d2ast.Scalar) (err : String)
    (hf : f ∈ m.Fields) (hn : f.Name = "3d") (hp : f.Primary = some v)
    (hrej : ext.styleCheck "3d" v.ScalarString = some err) :
    (compileStyle ext c attrs m).2.Style.ThreeDee.isSome = true ∧
      ⟨err⟩ ∈ (compileStyle ext c attrs m).1.err.Errors ∧
      (∀ (c0 : compiler) (ir : Map),
        (compileMap ext c0 d2graph.NewGraph d2graph.NewGraph.Root ir.CopyRoot).1.err.Errors ≠ [] →
        compileLayerRoot ext c0 ir =
          some (validateNear ext
              (compileMap ext c0 d2graph.NewGraph d2graph.NewGraph.Root ir.CopyRoot).1
              (compileMap ext c0 d2graph.NewGraph d2graph.NewGraph.Root ir.CopyRoot).2,
            (compileMap ext c0 d2graph.NewGraph d2graph.NewGraph.Root ir.CopyRoot).2)) ∧
      (∀ s, ext.IsShape s = true →
        (compileLayer ext {} (leafIR (threeDeeFields s v.ScalarString))).map
            (fun r => r.1.err.Errors) =
          some [⟨err⟩]) := by
  refine ⟨?_, ?_, fun c0 ir h => compileLayerRoot_skips ext c0 ir h,
    fun s hs => (compileLayer_threeDee ext s v.ScalarString err hs hrej).2⟩
  · exact foldl_compileStyleField_ThreeDee ext m.Fields c attrs
      (Or.inr ⟨f, hf, hn, by rw [hp]; rfl⟩)
  · unfold compileStyle
    rw [foldl_errors (compileStyleField ext) {} (compileStyleField_errors ext)]
    apply List.mem_append_right
    rw [List.mem_flatMap]
    refine ⟨f, hf, ?_⟩
    rw [compileStyleField_rejected ext {} {} f v err hp (by rw [hn]; exact hrej)]
    simp [compiler.errorf]

/-- Witness for `style_rejected_value`: the style map `3d: maybe` with the sample
collaborators; the validator, had it run on the graph of the compile pass, would have
reported the 3d error. -/
theorem style_rejected_value_witness :
    (compileLayer sampleExternals {} (leafIR (threeDeeFields "circle" "maybe"))).map
        (fun r => r.1.err.Errors) =
        some [⟨"expected \"3d\" to be true or false"⟩] ∧
      (validateKeys sampleExternals {} (sampleGraph (leafIR (threeDeeFields "circle" "maybe")))
        0 (leafIR (threeDeeFields "circle" "maybe"))).map (fun c1 => c1.err.Errors) =
        some [errThreeDee] :=
  ⟨(style_rejected_value sampleExternals {} {} (.mk [scalarField "3d" "maybe"] [])
      (scalarField "3d" "maybe") (.UnquotedString "maybe") "expected \"3d\" to be true or false"
      (List.mem_singleton.mpr rfl) rfl rfl rfl).2.2.2 "circle" (by decide),
   by decide⟩

/-- C15 (as stated, refuted): for the class `a` with the map
`shape: class; +name: string; x -> y`, `compileMap` does not give the result of fields,
then edges, then specialiser: the children `x` and `y` created by the edge are not
turned into members and the object ends with these two generic children. -/
theorem specializer_not_after_edges :
    ((compileMap sampleExternals {} leafGraph 1 classEdgeMap).2.obj 1).ChildrenArray = [3, 4] ∧
      ((compileMap sampleExternals {} leafGraph 1 classEdgeMap).2.obj 1).Class =
        some { Fields := [{ Name := "name", Typ := "string", Visibility := "public" }],
               Methods := [] } ∧
      ((specCompileMap sampleExternals {} leafGraph 1 classEdgeMap).2.obj 1).ChildrenArray = [] ∧
      ((specCompileMap sampleExternals {} leafGraph 1 classEdgeMap).2.obj 1).Class =
        some { Fields := [{ Name := "name", Typ := "string", Visibility := "public" },
                          { Name := "x", Typ := "", Visibility := "public" },
                          { Name := "y", Typ := "", Visibility := "public" }],
               Methods := [] } := by
  decide

/-- C15 (amended): `compileMap` runs the shape specialiser before the map's edges: for
every map, the result of `compileMap` equals compiling all fields, then applying
`compileClass` or `compileSQLTable` when the object's shape is class or sql_table, then
compiling all edges declared in that map. The class and table records of the object are
those the specialiser built from the children of the field loop, so child objects created
by the map's edge endpoints are not turned into members or columns. -/
theorem compileMap_specializer_before_edges (ext : Externals) (c : compiler) (g : Graph)
    (obj : Nat) (m : Map) (h : obj < g.store.length) :
    compileMap ext c g obj m =
        compileEdges ext (fieldLoop ext c g obj m).1
          (compileShape (fieldLoop ext c g obj m).2 obj) obj m.Edges ∧
      ((compileMap ext c g obj m).2.obj obj).Class =
        ((compileShape (fieldLoop ext c g obj m).2 obj).obj obj).Class ∧
      ((compileMap ext c g obj m).2.obj obj).SQLTable =
        ((compileShape (fieldLoop ext c g obj m).2 obj).obj obj).SQLTable ∧
      (((fieldLoop ext c g obj m).2.obj obj).Attributes.Shape.Value = d2target.ShapeClass →
        ((compileMap ext c g obj m).2.obj obj).Class =
          some (((fieldLoop ext c g obj m).2.obj obj).ChildrenArray.foldl
            (fun cls ch => specMember cls ((fieldLoop ext c g obj m).2.obj ch)) {})) := by
  have hl : obj < (fieldLoop ext c g obj m).2.store.length :=
    Nat.lt_of_lt_of_le h (fieldLoop_length ext c g obj m)
  have hk := (keeps_compileEdges ext obj m.Edges (fieldLoop ext c g obj m).1
    (compileShape (fieldLoop ext c g obj m).2 obj)).2 obj (by rw [length_compileShape]; exact hl)
  rw [← compileMap_fieldLoop] at hk
  refine ⟨compileMap_fieldLoop ext c g obj m, hk.1, hk.2, fun hs => ?_⟩
  rw [hk.1]
  simp only [compileShape, hs, beq_self_eq_true, if_true]
  exact compileClass_Class _ obj hl

/-- Witness for `compileMap_specializer_before_edges`: the class `a` with the map
`shape: class; +name: string; x -> y` keeps the single member `name`. -/
theorem compileMap_specializer_before_edges_witness :
    1 < leafGraph.store.length ∧
      ((compileMap sampleExternals {} leafGraph 1 classEdgeMap).2.obj 1).Class =
        some { Fields := [{ Name := "name", Typ := "string", Visibility := "public" }],
               Methods := [] } :=
  ⟨by decide,
   ((compileMap_specializer_before_edges sampleExternals {} leafGraph 1 classEdgeMap
      (by decide)).2.2.2 (by decide)).trans (by decide)⟩

/-- C16 (as stated, refuted): with a block-string `label` declared before
`shape: circle`, `compileMap` leaves the shape "text", while folding `compileField`
over the fields in declaration order leaves "circle". -/
theorem shape_not_in_declaration_order :
    ((compileMap sampleExternals {} leafGraph 1
        (.mk (labelShapeFields "md" "# t" "circle") [])).2.obj 1).Attributes.Shape.Value =
        "text" ∧
      ((specFieldLoop sampleExternals {} leafGraph 1
        (.mk (labelShapeFields "md" "# t" "circle") [])).2.obj 1).Attributes.Shape.Value =
        "circle" := by
  decide

/-- C16 (amended): `compileMap` applies `compileField` first to the `shape` field of the
map, when there is one, and then to the other fields in declaration order: for every
map, the state after the field loop equals the one obtained by compiling the field that
`GetField("shape")` returns and then folding `compileField` over the fields not named
`shape` from first to last, and `compileMap` continues from it with the specialiser and
the edges. So when two fields write the same attribute the later-compiled one decides
it: a block-string `label` declared before `shape: s` leaves the shape that the label
forces, "text" or "code". -/
theorem compileMap_shape_first (ext : Externals) (c : compiler) (g : Graph) (obj : Nat)
    (m : Map) (tag value s : String) (h : obj < g.store.length) :
    fieldLoop ext c g obj m =
        m.Fields.foldl
          (fun s f => if f.Name == "shape" then s else compileField ext s.1 s.2 obj f)
          (match m.GetField "shape" with
            | some shape => compileField ext c g obj shape
            | none => (c, g)) ∧
      compileMap ext c g obj m =
        compileEdges ext (fieldLoop ext c g obj m).1
          (compileShape (fieldLoop ext c g obj m).2 obj) obj m.Edges ∧
      ((compileMap ext c g obj (.mk (labelShapeFields tag value s) [])).2.obj
        obj).Attributes.Shape.Value = specBlockShape (specLanguage tag) := by
  refine ⟨by rw [fieldLoop, compileFields_eq, compileMapShape_eq]; try rfl,
    compileMap_fieldLoop ext c g obj m, ?_⟩
  rw [compileMap_labelShape]
  simp only []
  have hl : obj < (g.setAttributes obj
      (compileReserved ext c (g.obj obj).Attributes (scalarField "shape" s)).2).store.length := by
    rw [length_setAttributes]; exact h
  have hshape : ((((g.setAttributes obj
      (compileReserved ext c (g.obj obj).Attributes (scalarField "shape" s)).2).setAttributes obj
      (compileLabel ((g.setAttributes obj
        (compileReserved ext c (g.obj obj).Attributes (scalarField "shape" s)).2).obj
          obj).Attributes (.BlockString tag value))).obj obj).Attributes.Shape.Value) =
      specBlockShape (specLanguage tag) := by
    rw [obj_setAttributes_lt _ _ _ hl, compileLabel_block]
  have hne := specBlockShape_cases (specLanguage tag)
  rw [(compileShape_records _ obj (by rw [length_setAttributes]; exact hl)).2.2
    (by rw [hshape]; rcases hne with h1 | h1 <;> rw [h1] <;> decide)
    (by rw [hshape]; rcases hne with h1 | h1 <;> rw [h1] <;> decide)]
  exact hshape

/-- Witness for `compileMap_shape_first`: the object `a` with a markdown label declared
before `shape: circle` ends with the shape "text". -/
theorem compileMap_shape_first_witness :
    1 < leafGraph.store.length ∧
      ((compileMap sampleExternals {} leafGraph 1
        (.mk (labelShapeFields "md" "# t" "circle") [])).2.obj 1).Attributes.Shape.Value =
        "text" :=
  ⟨by decide,
   ((compileMap_shape_first sampleExternals {} leafGraph 1
      (.mk (labelShapeFields "md" "# t" "circle") []) "md" "# t" "circle"
      (by decide)).2.2).trans (by decide)⟩

/-- C17 (the code departs from the claim): on an image-shaped object, `validateKey`
reports "image shapes cannot have children." for every field whose lower-cased name is
not a simple reserved keyword, whether or not the field declares a child object: the
test is on the keyword table alone, so a `style` map, which `compileField` compiles
without creating a child, triggers the error. -/
theorem validateKey_image_not_child (ext : Externals) (c : compiler) (g : Graph) (obj : Nat)
    (name : String) (primary : Option d2ast.Scalar) (composite : Option d2ir.Composite)
    (hi : (g.obj obj).Attributes.Shape.Value = d2target.ShapeImage)
    (hn : SimpleReservedKeywords.contains (strings.ToLower name) = false) :
    validateKey ext c g obj (.mk name primary composite) =
      some ((validateKeyThreeDee c g obj).errorf errImageChildren.Message) := by
  rw [validateKey]
  simp only [hn, Bool.false_eq_true, if_false, hi, beq_self_eq_true, if_true]
  rfl

/-- Witness for `validateKey_image_not_child`: the object `a` of
`a: (shape: image; icon: http://x/y.png; style: (opacity: 0.4))` has an icon and no child
object, the compile pass reports nothing, and the validator reports that image shapes
cannot have children, for the `style` field. -/
theorem validateKey_image_not_child_witness :
    ((sampleGraph imageOpacityIR).obj 1).ChildrenArray = [] ∧
      ((sampleGraph imageOpacityIR).obj 1).Attributes.Icon = some "http://x/y.png" ∧
      (sampleGraph imageOpacityIR).Objects = [1] ∧
      (compileMap sampleExternals {} d2graph.NewGraph 0 imageOpacityIR).1.err.Errors = [] ∧
      (compileLayer sampleExternals {} imageOpacityIR).map (fun r => r.1.err.Errors) =
        some [errImageChildren] ∧
      validateKey sampleExternals {} (sampleGraph imageOpacityIR) 1
          (mapField "style" [scalarField "opacity" "0.4"]) =
        some { err := { Errors := [errImageChildren] } } :=
  ⟨by decide, by decide, by decide, by decide, by decide,
   (validateKey_image_not_child sampleExternals {} (sampleGraph imageOpacityIR) 1 "style" none
      _ (by decide) (by decide)).trans (by decide)⟩

/-- C18: `compileReserved` is all-or-nothing for `width`, `height` and `direction`. For
every scalar value: when it is not an integer string (width, height) or not one of up,
down, right, left (direction), exactly one error is appended and the attribute record
is left unchanged; otherwise no error is appended and exactly that one attribute is set
to the scalar's string, every other attribute being unchanged. -/
theorem compileReserved_all_or_nothing (ext : Externals) (c : compiler) (attrs : Attributes)
    (scalar : d2ast.Scalar) (composite : Option d2ir.Composite) :
    ((strconv.Atoi scalar.ScalarString).toBool = false →
      (∃ e, (compileReserved ext c attrs (.mk "width" (some scalar) composite)).1.err.Errors =
          c.err.Errors ++ [e]) ∧
        (compileReserved ext c attrs (.mk "width" (some scalar) composite)).2 = attrs ∧
      (∃ e, (compileReserved ext c attrs (.mk "height" (some scalar) composite)).1.err.Errors =
          c.err.Errors ++ [e]) ∧
        (compileReserved ext c attrs (.mk "height" (some scalar) composite)).2 = attrs) ∧
    ((strconv.Atoi scalar.ScalarString).toBool = true →
      compileReserved ext c attrs (.mk "width" (some scalar) composite) =
          (c, { attrs with Width := some { Value := scalar.ScalarString } }) ∧
        compileReserved ext c attrs (.mk "height" (some scalar) composite) =
          (c, { attrs with Height := some { Value := scalar.ScalarString } })) ∧
    (scalar.ScalarString ∉ ["up", "down", "right", "left"] →
      (∃ e, (compileReserved ext c attrs
          (.mk "direction" (some scalar) composite)).1.err.Errors = c.err.Errors ++ [e]) ∧
        (compileReserved ext c attrs (.mk "direction" (some scalar) composite)).2 = attrs) ∧
    (scalar.ScalarString ∈ ["up", "down", "right", "left"] →
      compileReserved ext c attrs (.mk "direction" (some scalar) composite) =
        (c, { attrs with Direction := { Value := scalar.ScalarString } })) := by
  refine ⟨?_, ?_, ?_, ?_⟩
  · intro h
    cases ha : strconv.Atoi scalar.ScalarString with
    | ok n => rw [ha] at h; cases h
    | error err =>
      simp only [compileReserved, d2ir.Field.Primary, d2ir.Field.Name, ha, compiler.errorf]
      exact ⟨⟨_, rfl⟩, trivial, ⟨_, rfl⟩, trivial⟩
  · intro h
    cases ha : strconv.Atoi scalar.ScalarString with
    | error err => rw [ha] at h; cases h
    | ok n =>
      simp only [compileReserved, d2ir.Field.Primary, d2ir.Field.Name, ha]
      exact ⟨trivial, trivial⟩
  · intro h
    have hb : ["up", "down", "right", "left"].contains scalar.ScalarString = false := by
      simpa using h
    simp only [compileReserved, d2ir.Field.Primary, d2ir.Field.Name, hb, compiler.errorf]
    exact ⟨⟨_, rfl⟩, rfl⟩
  · intro h
    have hb : ["up", "down", "right", "left"].contains scalar.ScalarString = true := by
      simpa using h
    simp only [compileReserved, d2ir.Field.Primary, d2ir.Field.Name, hb]
    rfl

/-- Witness for `compileReserved_all_or_nothing`: `width: 5` sets the width and nothing
else, `width: wide` and `direction: north` append one error and set nothing. -/
theorem compileReserved_all_or_nothing_witness :
    compileReserved sampleExternals {} {} (scalarField "width" "5") =
        ({}, { Width := some { Value := "5" } }) ∧
      (compileReserved sampleExternals {} {} (scalarField "width" "wide")).2 = {} ∧
      (compileReserved sampleExternals {} {} (scalarField "direction" "north")).2 = {} ∧
      compileReserved sampleExternals {} {} (scalarField "direction" "up") =
        ({}, { Direction := { Value := "up" } }) :=
  ⟨((compileReserved_all_or_nothing sampleExternals {} {} (.UnquotedString "5") none).2.1
      rfl).1,
   ((compileReserved_all_or_nothing sampleExternals {} {} (.UnquotedString "wide") none).1
      rfl).2.1,
   ((compileReserved_all_or_nothing sampleExternals {} {} (.UnquotedString "north")
      none).2.2.1 (by decide)).2,
   (compileReserved_all_or_nothing sampleExternals {} {} (.UnquotedString "up") none).2.2.2
      (by decide)⟩

/-- C19: `compileLayersField` attaches nested graphs by name and order. For each of
"layers", "scenarios" and "steps", the collection of that keyword receives, after what
it held, one graph per sub-field of the keyword that has a nested map, in declaration
order, each the result of `compileLayer` on that map and named after its field;
sub-fields without a map are skipped, and nothing else of the parent graph changes, the
two other collections included. The call returns exactly when every nested compilation
returns. -/
theorem compileLayersField_collections (ext : Externals) (c : compiler) (g : Graph) (ir : Map) :
    (compileLayersField ext c g ir.Fields "layers").map Prod.snd =
        (nestedGraphs ext c (layerFields ir "layers")).map
          (fun gs => { g with Layers := g.Layers ++ gs }) ∧
      (compileLayersField ext c g ir.Fields "scenarios").map Prod.snd =
        (nestedGraphs ext c (layerFields ir "scenarios")).map
          (fun gs => { g with Scenarios := g.Scenarios ++ gs }) ∧
      (compileLayersField ext c g ir.Fields "steps").map Prod.snd =
        (nestedGraphs ext c (layerFields ir "steps")).map
          (fun gs => { g with Steps := g.Steps ++ gs }) ∧
      (∀ fieldName gs, nestedGraphs ext c (layerFields ir fieldName) = some gs →
        gs.map (fun g2 => g2.Name) =
          ((layerFields ir fieldName).filter (fun f => f.Map.isSome)).map d2ir.Field.Name) := by
  refine ⟨?_, ?_, ?_, fun fieldName gs h => nestedGraphs_names ext _ c gs h⟩
  · rw [compileLayersField_snd]
    congr 1
    funext gs
    exact (foldl_appendLayer g gs).1
  · rw [compileLayersField_snd]
    congr 1
    funext gs
    exact (foldl_appendLayer g gs).2.1
  · rw [compileLayersField_snd]
    congr 1
    funext gs
    exact (foldl_appendLayer g gs).2.2

/-- Scenario for `compileLayersField_collections`: the two layers `l1` and `l2` are
attached in order, the scalar between them is skipped, and the scenario `s1` goes to
its own collection. -/
theorem compileLayersField_collections_witness :
    (compileLayer sampleExternals {} layersIR).map
        (fun r => (r.2.Layers.map (fun g2 => g2.Name), r.2.Scenarios.map (fun g2 => g2.Name),
          r.2.Steps.map (fun g2 => g2.Name))) =
        some (["l1", "l2"], ["s1"], []) ∧
      (compileLayersField sampleExternals {} d2graph.NewGraph layersIR.Fields "layers").map
          (fun r => r.2.Layers.map (fun g2 => g2.Name)) = some ["l1", "l2"] :=
  ⟨by decide!,
   by
    have h := (compileLayersField_collections sampleExternals {} d2graph.NewGraph layersIR).1
    have h2 : (compileLayersField sampleExternals {} d2graph.NewGraph layersIR.Fields
        "layers").map (fun r => r.2.Layers.map (fun g2 => g2.Name)) =
        ((compileLayersField sampleExternals {} d2graph.NewGraph layersIR.Fields
          "layers").map Prod.snd).map (fun g1 => g1.Layers.map (fun g2 => g2.Name)) := by
      rw [Option.map_map]; rfl
    rw [h2, h]
    decide!⟩

/-- C20: `validateNear` appends at most one error per object: the errors it adds number
at most the objects of the flat list that have a NearKey, an object without a NearKey
adds none, and the graph is left unchanged (the graph of `compileLayerRoot` is the one
the compile pass built). An object with a constant near key that is not an object path
is reported once, for the first violated rule in the order root-level, children,
connected. -/
theorem validateNear_at_most_one (ext : Externals) (c : compiler) (g : Graph) :
    (∃ added, (validateNear ext c g).err.Errors = c.err.Errors ++ added ∧
      added.length ≤
        (g.Objects.filter (fun obj => (g.obj obj).Attributes.NearKey.isSome)).length) ∧
    (∀ obj, (g.obj obj).Attributes.NearKey = none → validateNearObject ext c g obj = c) ∧
    (∀ (ir : Map) (r : compiler × Graph), compileLayerRoot ext c ir = some r →
      r.2 = (compileMap ext c d2graph.NewGraph d2graph.NewGraph.Root ir.CopyRoot).2) ∧
    (∀ obj, ∀ nearKey ∈ (g.obj obj).Attributes.NearKey,
      g.HasChild g.Root nearKey = none →
      ext.NearConstantsArray.contains (nearKey.headD "") = true →
      (validateNearObject ext c g obj).err.Errors = c.err.Errors ++
        (if (g.obj obj).Parent ≠ some g.Root then [errNearRoot]
         else if (g.obj obj).ChildrenArray.length > 0 then [errNearChildren]
         else if g.Edges.any (fun e => e.Src == obj || e.Dst == obj) then [errNearConnected]
         else [])) := by
  refine ⟨⟨_, validateNear_errors ext c g,
    flatMap_length_le _ _ _ (nearErrors_length ext g)⟩, ?_,
    fun ir r h => store_compileLayerRoot ext c ir r h, ?_⟩
  · intro obj hk
    unfold validateNearObject
    rw [hk]
  · intro obj nearKey hk hkey hconst
    have hk2 : (g.obj obj).Attributes.NearKey = some nearKey := hk
    rw [validateNearObject_errors, nearErrors_eq, hk2]
    simp only [hkey, hconst, Option.isSome_none, Bool.not_true, Bool.false_eq_true, if_false]

/-- Witness for `validateNear_at_most_one`: the object `x.a` with `near: top-center` is
not at root level and has a child; it is reported once, for the root-level rule. The
root-level object `a` with a child and an edge is reported once, for its children. -/
theorem validateNear_at_most_one_witness :
    (validateNearObject sampleExternals {} (sampleGraph nearNestedIR) 2).err.Errors =
        [errNearRoot] ∧
      (compileLayer sampleExternals {} nearNestedIR).map (fun r => r.1.err.Errors) =
        some [errNearRoot] ∧
      (compileLayer sampleExternals {} nearConnectedIR).map (fun r => r.1.err.Errors) =
        some [errNearChildren] :=
  ⟨((validateNear_at_most_one sampleExternals {} (sampleGraph nearNestedIR)).2.2.2 2
      ["top-center"] rfl rfl rfl).trans (by decide),
    by decide, by decide⟩

end d2compiler
